import Mathlib

/-!
Verification of the metro network state-simulation engine of INDETERMINATE-METRO
(packages/resolve: `model.ts`, `model/route.ts`, `layout.ts`, and the simulation
orchestrator `simulate`).

The embedding below is a shallow, executable translation of the TypeScript
source.  JavaScript `Map`s are modelled as insertion-ordered association lists
(`List (String × α)`); `Map.get` is first-match lookup and `Map.set` on an
existing key is an in-place update that preserves order.  Numbers that carry
coordinates or ridership are modelled as `ℚ`; station levels as `Int`.
Functions that can hit a JS `throw`/`assert` return `Option`, with `none` for
the exception.  Tree nodes are stored arena-style: `parent`/`children` hold
station ids instead of live object references (the ids are unique keys of the
station map, so the two representations coincide on models built by the
constructor).
-/

/-- Service state for a line, station or edge (shared/types.ts). -/
inductive ServiceState
  | Never
  | Open
  | Suspended
  | Closed
deriving DecidableEq, Repr

/-- Event type of an operational event (resolve/types.ts). -/
inductive EventType
  | Open
  | Close
  | Suspend
  | Resume
deriving DecidableEq, Repr

/-- A station spec: either an explicit list of station names or a
`{from, to, except}` range (resolve/types.ts `StationsSpec`). -/
inductive StationsSpec
  | names (list : List String)
  | range (sfrom sto : String) (sexcept : Option (List String))
deriving DecidableEq, Repr

/-- An operational event record (resolve/types.ts `EventRecord`). -/
structure EventRecord where
  date : String
  line : String
  type : EventType
  stations : StationsSpec
  fullStations : Option StationsSpec
deriving DecidableEq, Repr

/-- One item of a raw route spec: a bare station name or a from/to range. -/
inductive RouteItem
  | station (name : String)
  | range (sfrom sto : String)
deriving DecidableEq, Repr

/-- Line metadata (resolve/types.ts `LineMeta`), with the optional raw route
specs and dummy-ridership fallback used by the model and orchestrator. -/
structure LineMeta where
  id : String
  color : String
  x : Option ℚ
  stations : List (String × String)
  routes : Option (List (List RouteItem))
  dummyRidership : Option ℚ
deriving DecidableEq, Repr

/-- First-match lookup in an insertion-ordered association list
(JS `Map.get`). -/
def lookupA {α : Type} : List (String × α) → String → Option α
  | [], _ => none
  | (k', v) :: t, k => if k' = k then some v else lookupA t k

/-- In-place update of the entries with key `k` (JS `Map.set` on an existing
key, which keeps insertion order). -/
def updateA {α : Type} : List (String × α) → String → (α → α) →
    List (String × α)
  | [], _, _ => []
  | (k', v) :: t, k, f =>
    (if k' = k then (k', f v) else (k', v)) :: updateA t k f

/-- JS `Array.prototype.slice(start, stop)` (stop exclusive, indices clamped). -/
def jsSlice {α : Type} (l : List α) (start stop : Nat) : List α :=
  (l.drop start).take (stop - start)

/-- Index of the first occurrence of `a` (JS `indexOf`, `none` for `-1`). -/
def indexOf? : List String → String → Option Nat
  | [], _ => none
  | x :: t, a => if x = a then some 0 else (indexOf? t a).map (· + 1)

/-- Monadic map over `Option` (the JS `array.map(fn)` where `fn` may throw):
`none` as soon as one element fails. -/
def optMapList {α β : Type} (f : α → Option β) : List α → Option (List β)
  | [] => some []
  | a :: l => do
    let b ← f a
    let bs ← optMapList f l
    pure (b :: bs)

/-- A resolved route: the ordered station ids of one maximal path
(model/route.ts `Route`). -/
structure Route where
  stations : List String
deriving DecidableEq, Repr

/-- model/route.ts `extractRangeStations`: the inclusive sub-list of the
nominal order between `sfrom` and `sto`, reversed when `sfrom` is after
`sto`; `none` when either name is absent (the two asserts). -/
def extractRangeStations (stationIds : List String) (sfrom sto : String) :
    Option (List String) :=
  match indexOf? stationIds sfrom, indexOf? stationIds sto with
  | some fi, some ti =>
    let start := min fi ti
    let stop := max fi ti
    let segment := jsSlice stationIds start (stop + 1)
    some (if ti < fi then segment.reverse else segment)
  | _, _ => none

/-- model/route.ts `resolveRoute`: expand one raw route spec into station ids. -/
def resolveRoute (stationIds : List String) (route : List RouteItem) :
    Option (List String) :=
  route.foldlM
    (fun acc item =>
      match item with
      | .station name =>
        if stationIds.contains name then some (acc ++ [name]) else none
      | .range f t => (extractRangeStations stationIds f t).map (acc ++ ·))
    []

/-- model/route.ts `resolveRoutes`: expand all raw specs, defaulting to one
route spanning the whole nominal station order. -/
def resolveRoutes (stationIds : List String) (rawRoute : Option (List (List RouteItem))) :
    Option (List Route) :=
  let routes : List (List RouteItem) :=
    match rawRoute with
    | some r => r
    | none =>
      match stationIds.head?, stationIds.getLast? with
      | some first, some last => [[RouteItem.range first last]]
      | _, _ => []
  optMapList (fun r => (resolveRoute stationIds r).map Route.mk) routes

/-- model/route.ts `extractRouteStations`, case 1 body: both endpoints on one
route. -/
def sameRouteSegment (r : Route) (f t : String) : Option (List String) :=
  match indexOf? r.stations f, indexOf? r.stations t with
  | some fi, some ti =>
    let start := min fi ti
    let stop := max fi ti
    let segment := jsSlice r.stations start (stop + 1)
    some (if ti < fi then segment.reverse else segment)
  | _, _ => none

/-- model/route.ts `extractRouteStations`, case 2 inner loop: bridge from a
route containing `f` (at index `fi`) through the first junction to a route
containing `t`.  Neither sub-segment is reversed. -/
def bridgeSegment (routes : List Route) (rA : Route) (fi : Nat) (t : String) :
    Option (List String) :=
  routes.findSome? fun rB =>
    match indexOf? rB.stations t with
    | none => none
    | some ti =>
      match rA.stations.find? (fun sid => rB.stations.contains sid) with
      | none => none
      | some j =>
        let ja := (indexOf? rA.stations j).getD 0
        let jb := (indexOf? rB.stations j).getD 0
        let segA :=
          if fi < ja then jsSlice rA.stations fi ja
          else jsSlice rA.stations (ja + 1) (fi + 1)
        let segB :=
          if ti < jb then jsSlice rB.stations ti jb
          else jsSlice rB.stations (jb + 1) (ti + 1)
        some (segA ++ [j] ++ segB)

/-- model/route.ts `extractRouteStations`: path between two stations, either
within one route or across a single junction; `none` models the final
`throw`. -/
def extractRouteStations (routes : List Route) (f t : String) :
    Option (List String) :=
  match routes.findSome? (fun r => sameRouteSegment r f t) with
  | some segment => some segment
  | none =>
    routes.findSome? fun rA =>
      match indexOf? rA.stations f with
      | none => none
      | some fi => bridgeSegment routes rA fi t

/-- A station's node in the line's derived tree (model.ts `StationNode`),
arena-style: `parent`/`children` hold station ids. -/
structure StationNode where
  parent : Option String
  children : List String
  edgeState : Option ServiceState
  level : Int
deriving DecidableEq, Repr

/-- Station state + tree node (model.ts `StationState`). -/
structure StationRec where
  state : ServiceState
  node : StationNode
deriving DecidableEq, Repr

/-- Per-line mutable state (model.ts `LineState`). -/
structure LineState where
  state : ServiceState
  routes : List Route
  stations : List (String × StationRec)
  stationIdMap : List (String × String)
deriving DecidableEq, Repr

/-- The whole network model (model.ts `MetroModel`). -/
structure MetroModel where
  lines : List (String × LineState)
deriving DecidableEq, Repr

/-- model.ts `formatStationId`. -/
def formatStationId (lineId stationName : String) : String :=
  lineId ++ ":" ++ stationName

/-- model.ts `parseEvent`: the target `ServiceState` of an event type. -/
def parseEvent : EventType → ServiceState
  | .Open => .Open
  | .Close => .Closed
  | .Suspend => .Suspended
  | .Resume => .Open

/-- model/route.ts `computeLevels`: assign `baseLevel + index` along each
route, where `baseLevel` is the already-assigned level of the route's first
station (`?? 0`); `none` models the asserts. -/
def computeLevels (routes : List Route) (stations : List (String × StationRec)) :
    Option (List (String × StationRec)) :=
  routes.foldlM
    (fun sts route => do
      let first ← route.stations.head?
      let base := ((lookupA sts first).map (fun st => st.node.level)).getD 0
      route.stations.enum.foldlM
        (fun sts (p : Nat × String) => do
          let _ ← lookupA sts p.2
          pure (updateA sts p.2 fun st =>
            { st with node := { st.node with level := base + (p.1 : Int) } }))
        sts)
    stations

/-- One tree-building step of the model constructor: make `childId`'s node
point at `parentId` and push `childId` onto the parent's children. -/
def linkNodes (stations : List (String × StationRec)) (parentId childId : String) :
    Option (List (String × StationRec)) := do
  let _ ← lookupA stations childId
  let _ ← lookupA stations parentId
  let stations := updateA stations childId fun st =>
    { st with node := { st.node with parent := some parentId } }
  pure (updateA stations parentId fun st =>
    { st with node := { st.node with children := st.node.children ++ [childId] } })

/-- Build one line's state from its metadata (the per-line body of the
`MetroModel` constructor): resolve routes, initialize every station to
`Never`, link the tree along each route, and compute levels. -/
def buildLine (lm : LineMeta) : Option LineState := do
  let stationNames := lm.stations.map (fun s => s.1)
  let stationIds := stationNames.map (formatStationId lm.id)
  let stationIdMap := stationNames.zip stationIds
  let namedRoutes ← resolveRoutes stationNames lm.routes
  let routes := namedRoutes.map fun r =>
    Route.mk (r.stations.map (formatStationId lm.id))
  let stationMap := stationIds.map fun sid =>
    (sid, StationRec.mk ServiceState.Never (StationNode.mk none [] none 0))
  let stationMap ← routes.foldlM
    (fun sts route =>
      (route.stations.zip (route.stations.drop 1)).foldlM
        (fun sts (pc : String × String) => linkNodes sts pc.1 pc.2) sts)
    stationMap
  let stationMap ← computeLevels routes stationMap
  pure { state := ServiceState.Never, routes := routes,
         stations := stationMap, stationIdMap := stationIdMap }

/-- The `MetroModel` constructor over a list of line metadata (assumes the
line ids are distinct, as JS `Map` keying collapses duplicates). -/
def buildModel (metas : List LineMeta) : Option MetroModel := do
  let lines ← metas.foldlM
    (fun lines lm => do
      let ls ← buildLine lm
      pure (lines ++ [(lm.id, ls)]))
    []
  pure { lines := lines }

/-- The result of model.ts `resolveOperatedStations`: the full path `segment`
and the endpoint-trimmed operated `subset`. -/
structure Resolved where
  segment : List String
  subset : List String
deriving DecidableEq, Repr

/-- model.ts `resolveOperatedStations`'s `getStationId` helper: station name →
station id; `none` models the assert. -/
def getStationId (line : LineState) (name : String) : Option String :=
  lookupA line.stationIdMap name

/-- model.ts `resolveOperatedStations`'s `isEndpoint` helper: a station
currently qualifies as a realtime terminus when its node has no parent, no
children, an edge to its parent that is not `Open`, or no child edge that is
`Open`.  `isEndpoint(undefined)` is `false`; a missing station record is the
failing assert (`none`).  Children are live node references in JS and cannot
dangle, so a dangling child id (impossible on constructed models) counts as
an inactive edge. -/
def isEndpoint (line : LineState) : Option String → Option Bool
  | none => some false
  | some sid =>
    match lookupA line.stations sid with
    | none => none
    | some st =>
      let n := st.node
      some (decide (n.parent = none) ||
        decide (n.children = []) ||
        decide (n.edgeState ≠ some ServiceState.Open) ||
        n.children.all fun ch =>
          match lookupA line.stations ch with
          | some c => decide (c.node.edgeState ≠ some ServiceState.Open)
          | none => true)

/-- model.ts `resolveOperatedStations`: resolve a station spec to the full
segment and the operated subset.  For a range the segment comes from
`extractRouteStations` and the two endpoint checks both use `subset.shift()`
(the second one too — the code does not use `pop()` for the tail endpoint). -/
def resolveOperatedStations (line : LineState) (spec : StationsSpec) :
    Option Resolved := do
  match spec with
  | .names ns =>
    let stationIds ← optMapList (getStationId line) ns
    pure { segment := stationIds, subset := stationIds }
  | .range f t exc =>
    let fid ← getStationId line f
    let tid ← getStationId line t
    let segment ← extractRouteStations line.routes fid tid
    let e0 ← isEndpoint line segment.head?
    let subset := if e0 then segment else segment.drop 1
    let eLast ← isEndpoint line subset.getLast?
    let subset := if eLast then subset else subset.drop 1
    match exc with
    | some exNames =>
      let exIds ← optMapList (getStationId line) exNames
      pure { segment := segment,
             subset := subset.filter fun s => ¬ exIds.contains s }
    | none => pure { segment := segment, subset := subset }

/-- Set one station's own state (`getStation` assert + `st.state = newState`). -/
def setStationState (line : LineState) (sid : String) (s : ServiceState) :
    Option LineState :=
  match lookupA line.stations sid with
  | none => none
  | some _ => some { line with
      stations := updateA line.stations sid fun st => { st with state := s } }

/-- Set one station's edge state (`getStation` assert +
`node.edgeState = newState`). -/
def setEdgeState (line : LineState) (sid : String) (s : ServiceState) :
    Option LineState :=
  match lookupA line.stations sid with
  | none => none
  | some _ => some { line with
      stations := updateA line.stations sid fun st =>
        { st with node := { st.node with edgeState := some s } } }

/-- model.ts `applyEvent`'s `updateStates` closure: set the state of every
target station and the edge state of every non-head station of the segment. -/
def updateStates (line : LineState) (targets segment : List String)
    (s : ServiceState) : Option LineState := do
  let line ← targets.foldlM (fun l sid => setStationState l sid s) line
  (segment.drop 1).foldlM (fun l sid => setEdgeState l sid s) line

/-- The line-level state recomputation at the end of `applyEvent`: promote to
`Open` when any station is `Open`, else to `Suspended` when any station is
`Suspended`; otherwise the line state is left unchanged. -/
def promoteLineState (line : LineState) : LineState :=
  if line.stations.any fun p => p.2.state = ServiceState.Open then
    { line with state := ServiceState.Open }
  else if line.stations.any fun p => p.2.state = ServiceState.Suspended then
    { line with state := ServiceState.Suspended }
  else line

/-- model.ts `applyEvent` restricted to the already-fetched line: resolve the
primary spec, run the deferred-opening branch when the target state is `Open`
and a `fullStations` spec is present (marking its whole resolved subset
`Suspended`), update the target stations, and recompute the line state. -/
def applyEventLine (line : LineState) (e : EventRecord) : Option LineState := do
  let r ← resolveOperatedStations line e.stations
  let newState := parseEvent e.type
  let line ←
    match (if newState = ServiceState.Open then e.fullStations else none) with
    | some fs => do
      let rf ← resolveOperatedStations line fs
      updateStates line rf.subset rf.segment ServiceState.Suspended
    | none => pure line
  let line ← updateStates line r.subset r.segment newState
  pure (promoteLineState line)

/-- model.ts `applyEvent`: look up the event's line (`none` for the unknown
line assert) and apply the event to it. -/
def applyEvent (m : MetroModel) (e : EventRecord) : Option MetroModel := do
  let line ← lookupA m.lines e.line
  let line' ← applyEventLine line e
  pure { lines := updateA m.lines e.line fun _ => line' }

/-- Apply a list of events in order, aborting on the first error. -/
def applyEvents (m : MetroModel) (events : List EventRecord) :
    Option MetroModel :=
  events.foldlM applyEvent m

/-- Per-station data in a snapshot (model.ts `StationSnapshot`). -/
structure StationSnapshot where
  state : ServiceState
  level : Int
deriving DecidableEq, Repr

/-- A simplified route segment of a snapshot (shared/types.ts `RouteData`). -/
structure RouteData where
  stations : List String
  state : ServiceState
deriving DecidableEq, Repr

/-- A per-line snapshot (model.ts `LineSnapshot`). -/
structure LineSnapshot where
  lineState : ServiceState
  stations : List (String × StationSnapshot)
  routes : List RouteData
deriving DecidableEq, Repr

/-- model.ts `snapshotRoutes`'s `isEdgeActive`. -/
def isEdgeActiveS (s : Option ServiceState) : Bool :=
  s = some ServiceState.Open || s = some ServiceState.Suspended

/-- Edge state of the station at index `i` of a route's station list.  The
source asserts that the index and the station record exist; on constructed
models they always do, so the unreachable branches default to `none` (an
absent edge) to keep the walk total. -/
def stationEdge (line : LineState) (sts : List String) (i : Nat) :
    Option ServiceState :=
  match sts.get? i with
  | none => none
  | some sid =>
    match lookupA line.stations sid with
    | none => none
    | some st => st.node.edgeState

/-- The inner `while (startIdx > 0)` loop of model.ts `snapshotRoutes`:
starting from `startIdx`, push each station onto the segment, stopping (after
the push) at the first station whose edge state differs from `routeState`.
Returns the grown segment and the final `startIdx`. -/
def innerScan (line : LineState) (sts : List String) (routeState : ServiceState) :
    Nat → List String → (List String × Nat)
  | 0, seg => (seg, 0)
  | k + 1, seg =>
    let prevSid := (sts.get? (k + 1)).getD ""
    let seg := seg ++ [prevSid]
    if stationEdge line sts (k + 1) ≠ some routeState then (seg, k + 1)
    else innerScan line sts routeState k seg

/-- The outer `while (endIdx > 0)` loop of model.ts `snapshotRoutes`: walk the
route backward, cutting maximal runs of identically-stated active edges into
`RouteData` segments.  Note the source pushes `route.stations[startIdx]` once
more after the inner loop even when that loop exited by `break`, duplicating
the boundary station in that case.  The recursive call clamps the next index
with `min` to make termination evident; the inner scan never returns an index
above its input, so the clamp never changes the value. -/
def outerWalk (line : LineState) (sts : List String) :
    Nat → List RouteData → List RouteData
  | 0, acc => acc
  | e + 1, acc =>
    let sid := (sts.get? (e + 1)).getD ""
    let es := stationEdge line sts (e + 1)
    if isEdgeActiveS es then
      match es with
      | some rs =>
        let scan := innerScan line sts rs e [sid]
        let seg := scan.1 ++ [(sts.get? scan.2).getD ""]
        let acc := acc ++ [RouteData.mk seg.reverse rs]
        let eNext := if isEdgeActiveS (stationEdge line sts scan.2) then scan.2
          else scan.2 - 1
        outerWalk line sts (min eNext e) acc
      | none => outerWalk line sts e acc
    else outerWalk line sts e acc
  termination_by e _ => e
  decreasing_by
    all_goals simp_wf

/-- The merge pass of model.ts `snapshotRoutes`: fuse consecutive segments
with equal state whose boundary station is shared by exactly those two
segments (occurring exactly twice overall), i.e. is not a junction. -/
def simplifyStep (occ : List String) (simplified : List RouteData)
    (r : RouteData) : List RouteData :=
  match simplified.getLast?, r.stations.head? with
  | some last, some h =>
    if last.state = r.state ∧ last.stations.getLast? = some h ∧
        occ.count h = 2 then
      simplified.dropLast ++
        [{ last with stations := last.stations.dropLast ++ r.stations }]
    else simplified ++ [r]
  | _, _ => simplified ++ [r]

/-- model.ts `snapshotRoutes`: cut each route into runs of identically-stated
active edges (walking backward), then merge adjacent runs across non-junction
boundaries. -/
def snapshotRoutes (line : LineState) : List RouteData :=
  let raw := line.routes.foldl
    (fun acc r => outerWalk line r.stations (r.stations.length - 1) acc) []
  let occ := (raw.map fun r => r.stations).flatten
  raw.foldl (simplifyStep occ) []

/-- model.ts `snapshot`: the pure per-line read of line state, station
states/levels and simplified route segments; `none` models the unknown-line
assert. -/
def modelSnapshot (m : MetroModel) (lid : String) : Option LineSnapshot := do
  let line ← lookupA m.lines lid
  pure { lineState := line.state,
         stations := line.stations.map fun p =>
           (p.1, StationSnapshot.mk p.2.state p.2.node.level),
         routes := snapshotRoutes line }

/-- The mutating-method view of `snapshot`: the source method only reads the
model, so its state-passing form returns the model unchanged. -/
def snapshotRun (m : MetroModel) (lid : String) :
    Option LineSnapshot × MetroModel :=
  (modelSnapshot m lid, m)

/-- Whether a station state makes the station visible to the layout
(layout.ts: `Open` or `Suspended`). -/
def isActiveState (s : ServiceState) : Bool :=
  s = ServiceState.Open || s = ServiceState.Suspended

/-- Minimum of a list of levels (JS `Math.min(...keys)`); the empty case
(`Infinity`) only arises when no station is active, in which case no
position is ever assigned, so a default of 0 is unobservable. -/
def listMinI : List Int → Int
  | [] => 0
  | h :: t => t.foldl min h

/-- Maximum of a list of levels (JS `Math.max(...keys)`). -/
def listMaxI : List Int → Int
  | [] => 0
  | h :: t => t.foldl max h

/-- The levels of the currently `Open`/`Suspended` stations (the keys of
layout.ts's `levelCounts`; the level is re-read through `stations.get(sid)`
with `?? -1`, matching the source). -/
def activeLevels (stations : List (String × StationSnapshot)) : List Int :=
  (stations.filter fun p => isActiveState p.2.state).map fun p =>
    ((lookupA stations p.1).map fun st => st.level).getD (-1)

/-- layout.ts conflict predicate: a pending route conflicts with the current
one when any of its stations after the first shares a level with it. -/
def conflictsWith (stations : List (String × StationSnapshot))
    (levelSet : List Int) (r : List String) : Bool :=
  (r.drop 1).any fun sid =>
    match lookupA stations sid with
    | some st => levelSet.contains st.level
    | none => false

/-- Assign positions to one conflict group (the inner `for` loops of
layout.ts): route `i` of the group is offset horizontally by
`(i - (groupSize - 1)/2) * branchOffset`; already-positioned stations are
skipped (first-writer-wins). -/
def assignGroup (stations : List (String × StationSnapshot)) (minL : Int)
    (xq topY levelHeight branchOffset : ℚ) (group : List (List String))
    (positions : List (String × (ℚ × ℚ))) : List (String × (ℚ × ℚ)) :=
  group.enum.foldl
    (fun positions pr =>
      let xOffset := ((pr.1 : ℚ) - ((group.length : ℚ) - 1) / 2) * branchOffset
      pr.2.foldl
        (fun positions sid =>
          if (lookupA positions sid).isSome then positions
          else
            let level := ((lookupA stations sid).map fun st => st.level).getD 0
            positions ++
              [(sid, (xq + xOffset,
                topY + ((level - minL : Int) : ℚ) * levelHeight))])
        positions)
    positions

/-- The `while (pendingRoutes.length > 0)` loop of layout.ts: pop the first
route, gather the pending routes that share a level with it into a conflict
group, position the group, and continue with the rest.  The loop is driven
by a fuel counter so that it is structurally recursive: every iteration
removes the head and keeps only a subset of the tail, so the initial pending
length (what `calculateStationPositions` passes) is always enough fuel and
the zero-fuel branch is unreachable. -/
def layoutLoop (stations : List (String × StationSnapshot)) (minL : Int)
    (xq topY levelHeight branchOffset : ℚ) :
    Nat → List (List String) → List (String × (ℚ × ℚ)) →
    List (String × (ℚ × ℚ))
  | _, [], positions => positions
  | 0, _ :: _, positions => positions
  | fuel + 1, route :: rest, positions =>
    if route = [] then
      layoutLoop stations minL xq topY levelHeight branchOffset fuel rest
        positions
    else
      let levelSet := route.map fun sid =>
        ((lookupA stations sid).map fun st => st.level).getD (-1)
      let conflicted := rest.filter (conflictsWith stations levelSet)
      let remaining := rest.filter fun r => ¬ conflictsWith stations levelSet r
      let positions := assignGroup stations minL xq topY levelHeight
        branchOffset (route :: conflicted) positions
      layoutLoop stations minL xq topY levelHeight branchOffset fuel remaining
        positions

/-- layout.ts `calculateStationPositions`: keep only `Open`/`Suspended`
stations, interpolate `y` linearly over the active level range between `topY`
and `bottomY` (degenerating to `topY` when the range collapses), and fan
conflicting routes out horizontally around `xq`. -/
def calculateStationPositions (routes : List (List String))
    (stations : List (String × StationSnapshot)) (xq topY bottomY : ℚ)
    (branchOffset : ℚ) : List (String × (ℚ × ℚ)) :=
  let levels := activeLevels stations
  let minL := listMinI levels
  let maxL := listMaxI levels
  let totalLevels : Int := maxL - minL + 1
  let levelHeight : ℚ :=
    if totalLevels ≤ 1 then 0 else (bottomY - topY) / ((totalLevels : ℚ) - 1)
  let pending := routes.map fun r =>
    r.filter fun sid =>
      match lookupA stations sid with
      | some st => isActiveState st.state
      | none => false
  layoutLoop stations minL xq topY levelHeight branchOffset pending.length
    pending []

/-- Tracked per-station change-detection state of the orchestrator
(`TrackedStationState`). -/
structure TrackedStation where
  service : Option ServiceState
  position : Option (ℚ × ℚ)
deriving DecidableEq, Repr

/-- Tracked per-line change-detection state of the orchestrator
(`TrackedLineState`).  `routesCode` holds the `JSON.stringify` fingerprint of
the last pushed routes; serialization of these records is injective, so it is
modelled by the route list itself. -/
structure TrackedLine where
  service : Option ServiceState
  routes : List RouteData
  routesCode : Option (List RouteData)
  stationsT : List (String × TrackedStation)
deriving DecidableEq, Repr

/-- Output station record (shared/types.ts `StationData`): sparse position
and service change-point series. -/
structure StationIR where
  id : String
  name : String
  translation : String
  positions : List (Nat × (ℚ × ℚ))
  service : List (Nat × ServiceState)
deriving DecidableEq, Repr

/-- Output line record (shared/types.ts `LineData`). -/
structure LineIR where
  id : String
  colorHex : String
  x : ℚ
  firstDay : Option Nat
  ridership : List ℚ
  statePoints : List (Nat × ServiceState)
  routePoints : List (Nat × List RouteData)
  stations : List StationIR
deriving DecidableEq, Repr

/-- What the orchestrator observes for one line on one day: the snapshot's
line state and station states, and the layout's computed positions. -/
structure LineObs where
  lineState : ServiceState
  stationStates : List (String × ServiceState)
  positions : List (String × (ℚ × ℚ))
deriving DecidableEq, Repr

/-- The sparse-series push shared by the orchestrator's state and position
tracking: append `(day, v)` exactly when the tracked value differs from `v`,
and update the tracked value. -/
def pushSparse {α : Type} [DecidableEq α] (tracked : Option α)
    (series : List (Nat × α)) (day : Nat) (v : α) :
    Option α × List (Nat × α) :=
  if tracked = some v then (tracked, series) else (some v, series ++ [(day, v)])

/-- JS string `<=` (dates compare lexicographically). -/
def strLe (a b : String) : Bool := a < b || a = b

/-- Stable insertion of an event into a date-sorted list: the event goes
after every earlier event with a date `<=` its own. -/
def insertByDate (e : EventRecord) : List EventRecord → List EventRecord
  | [] => [e]
  | x :: xs => if strLe x.date e.date then x :: insertByDate e xs
    else e :: x :: xs

/-- `eventsRaw.toSorted((a, b) => a.date < b.date ? -1 : ...)`: a stable sort
by date. -/
def sortByDate (l : List EventRecord) : List EventRecord :=
  l.foldl (fun acc e => insertByDate e acc) []

/-- The orchestrator's event-consumption loop: pop every queued event dated
`<=` the current day, skipping events whose date is not exactly 10
characters, and apply the rest; `none` when `applyEvent` throws. -/
def consumeEvents (model : MetroModel) (queued : List EventRecord)
    (date : String) : Option (MetroModel × List EventRecord) :=
  match queued with
  | [] => some (model, [])
  | e :: rest =>
    if strLe e.date date then
      if e.date.length ≠ 10 then consumeEvents model rest date
      else
        match applyEvent model e with
        | some m' => consumeEvents m' rest date
        | none => none
    else some (model, e :: rest)

/-- Layout constants of the orchestrator (`CONFIG`): `topPadding` and
`height - bottomPadding`. -/
def topPadY : ℚ := 50

/-- The bottom y used by the orchestrator: `1080 - 50`. -/
def bottomPadY : ℚ := 1030

/-- Update one station's IR record in place (the `getStationIR` find). -/
def updStIR (stations : List StationIR) (sid : String) (f : StationIR → StationIR) :
    List StationIR :=
  stations.map fun s => if s.id = sid then f s else s

/-- The per-station body of the orchestrator's `for ... of snapshot.stations`
loop: push a service change-point when the state changed and a position
change-point when the layout computed a position that differs from the last
recorded one.  `none` models the two asserts (station IR / tracked record
missing). -/
def processStation (i : Nat) (positions : List (String × (ℚ × ℚ)))
    (pr : TrackedLine × LineIR) (entry : String × StationSnapshot) :
    Option (TrackedLine × LineIR) := do
  let (tl, ir) := pr
  let sid := entry.1
  let _ ← ir.stations.find? fun s => s.id = sid
  let ts ← lookupA tl.stationsT sid
  let state := entry.2.state
  let stateChanged := ts.service ≠ some state
  let ir := if stateChanged then
      { ir with stations := updStIR ir.stations sid fun s =>
          { s with service := s.service ++ [(i, state)] } }
    else ir
  let ts := if stateChanged then { ts with service := some state } else ts
  let (ir, ts) :=
    match lookupA positions sid with
    | none => (ir, ts)
    | some pos =>
      if ts.position ≠ some pos then
        ({ ir with stations := updStIR ir.stations sid fun s =>
            { s with positions := s.positions ++ [(i, pos)] } },
         { ts with position := some pos })
      else (ir, ts)
  pure ({ tl with stationsT := updateA tl.stationsT sid fun _ => ts }, ir)

/-- The per-line body of the orchestrator's day loop: take a snapshot, push a
line-state change-point, update `firstDay` and the ridership array, push a
route change-point when the serialized routes changed, lay out the stations
using the line's routes as of this day, and run the per-station updates.
Also returns what was observed for this line today. -/
def processLine (i : Nat) (model : MetroModel) (counts : List (String × ℚ))
    (lm : LineMeta) (pr : TrackedLine × LineIR) :
    Option ((TrackedLine × LineIR) × LineObs) := do
  let (tl, ir) := pr
  let snap ← modelSnapshot model lm.id
  let sp := pushSparse tl.service ir.statePoints i snap.lineState
  let tl := { tl with service := sp.1 }
  let ir := { ir with statePoints := sp.2 }
  let ir := if tl.service = some ServiceState.Open ∧ ir.firstDay = none then
      { ir with firstDay := some i }
    else ir
  let ir := if ir.firstDay ≠ none then
      { ir with ridership := ir.ridership ++
          [((lookupA counts lm.id).orElse fun _ => lm.dummyRidership).getD 0] }
    else ir
  let (tl, ir) :=
    if snap.routes ≠ [] ∨ tl.routesCode ≠ none then
      if tl.routesCode ≠ some snap.routes then
        ({ tl with routes := snap.routes, routesCode := some snap.routes },
         { ir with routePoints := ir.routePoints ++ [(i, snap.routes)] })
      else (tl, ir)
    else (tl, ir)
  let positions := calculateStationPositions (tl.routes.map fun r => r.stations)
    snap.stations ir.x topPadY bottomPadY 50
  let res ← snap.stations.foldlM (processStation i positions) (tl, ir)
  pure (res,
    { lineState := snap.lineState,
      stationStates := snap.stations.map fun p => (p.1, p.2.state),
      positions := positions })

/-- Process every line of one day, keeping the tracked/IR pairs aligned with
the metadata list (the JS keys the same data by the — distinct — line ids). -/
def dayStep (i : Nat) (model : MetroModel) (counts : List (String × ℚ)) :
    List LineMeta → List (TrackedLine × LineIR) →
    Option (List (TrackedLine × LineIR) × List LineObs)
  | [], _ => some ([], [])
  | _ :: _, [] => none
  | lm :: ms, pr :: prs => do
    let r ← processLine i model counts lm pr
    let rest ← dayStep i model counts ms prs
    pure (r.1 :: rest.1, r.2 :: rest.2)

/-- The orchestrator's day loop (`for (let i = 0; ...)`): consume due events,
record the day's total ridership, and process every line.  Also accumulates
the per-day observations. -/
def simLoop (rid : List (String × List (String × ℚ))) (metas : List LineMeta) :
    Nat → List String → MetroModel → List EventRecord →
    List (TrackedLine × LineIR) → List ℚ → List (List LineObs) →
    Option (List (TrackedLine × LineIR) × List ℚ × List (List LineObs))
  | _, [], _, _, pairs, totals, obss => some (pairs, totals, obss)
  | i, date :: rest, model, queued, pairs, totals, obss => do
    let mq ← consumeEvents model queued date
    let counts := (lookupA rid date).getD []
    let totals := totals ++ [(lookupA counts "total").getD 0]
    let st ← dayStep i mq.1 counts metas pairs
    simLoop rid metas (i + 1) rest mq.1 mq.2 st.1 totals (obss ++ [st.2])

/-- Initial tracked state for one line (all stations tracked with no
service/position yet). -/
def initTracked (lm : LineMeta) : TrackedLine :=
  { service := none, routes := [], routesCode := none,
    stationsT := lm.stations.map fun s =>
      (formatStationId lm.id s.1, TrackedStation.mk none none) }

/-- Initial IR for one line (`linesIR` pre-fill): base x defaults to
`160 + index * 80`. -/
def initIR (idx : Nat) (lm : LineMeta) : LineIR :=
  { id := lm.id, colorHex := lm.color, x := lm.x.getD (160 + (idx : ℚ) * 80),
    firstDay := none, ridership := [], statePoints := [], routePoints := [],
    stations := lm.stations.map fun s =>
      { id := formatStationId lm.id s.1, name := s.1, translation := s.2,
        positions := [], service := [] } }

/-- part_021 `simulate`, instrumented to also return the per-day,
per-line observations (`none` when the run aborts on a model error). -/
def simulateObs (rid : List (String × List (String × ℚ)))
    (sortedDays : List String) (eventsRaw : List EventRecord)
    (linesMeta : List LineMeta) :
    Option (List (TrackedLine × LineIR) × List ℚ × List (List LineObs)) := do
  let model ← buildModel linesMeta
  simLoop rid linesMeta 0 sortedDays model (sortByDate eventsRaw)
    (linesMeta.enum.map fun p => (initTracked p.2, initIR p.1 p.2)) [] []

/-- part_021 `simulate`: the per-line output records and the per-day total
ridership. -/
def simulate (rid : List (String × List (String × ℚ)))
    (sortedDays : List String) (eventsRaw : List EventRecord)
    (linesMeta : List LineMeta) : Option (List LineIR × List ℚ) :=
  (simulateObs rid sortedDays eventsRaw linesMeta).map fun r =>
    (r.1.map fun p => p.2, r.2.1)

/-! ### Claim-side definitions -/

/-- The change-point value in effect at day `d`: the last entry whose day is
`<= d` (spec: "a consumer reconstructing state at day D must use the last
change-point with `day <= D`"); `none` before the first entry. -/
def reconstructAt {α : Type} (series : List (Nat × α)) (d : Nat) : Option α :=
  ((series.filter fun p => p.1 ≤ d).getLast?).map fun p => p.2

/-- The state reconstruction with the spec's `Never` default. -/
def reconstructState (series : List (Nat × ServiceState)) (d : Nat) :
    ServiceState :=
  (reconstructAt series d).getD ServiceState.Never

/-- The abstract sparse-tracking step: given a tracked last value and the
series, an observation `none` changes nothing, and an observation `some v`
appends `(day, v)` exactly when `v` differs from the tracked value.  Both the
orchestrator's state pushes (always `some`) and its position pushes follow
this shape. -/
def pushOpt {α : Type} [DecidableEq α] (tracked : Option α)
    (series : List (Nat × α)) (day : Nat) :
    Option α → Option α × List (Nat × α)
  | none => (tracked, series)
  | some v =>
    if tracked = some v then (tracked, series) else (some v, series ++ [(day, v)])

/-- Folding `pushOpt` over a day-indexed list of observations. -/
def trackFold {α : Type} [DecidableEq α] :
    Option α × List (Nat × α) → Nat → List (Option α) →
    Option α × List (Nat × α)
  | start, _, [] => start
  | start, i, v :: vs => trackFold (pushOpt start.1 start.2 i v) (i + 1) vs

/-- Claim C8's bridgeability condition, from the claim's words: the two
endpoints lie on (possibly equal) routes that share a junction station. -/
def Bridgeable (routes : List Route) (fid tid : String) : Prop :=
  ∃ rA ∈ routes, ∃ rB ∈ routes, fid ∈ rA.stations ∧ tid ∈ rB.stations ∧
    ∃ j, j ∈ rA.stations ∧ j ∈ rB.stations

/-- A spec referencing this line fails to resolve: some referenced name is
not a station of the line, or the range endpoints are not bridgeable. -/
def SpecError (line : LineState) : StationsSpec → Prop
  | .names ns => ∃ n ∈ ns, getStationId line n = none
  | .range f t exc =>
    getStationId line f = none ∨ getStationId line t = none ∨
    (∃ fid tid, getStationId line f = some fid ∧ getStationId line t = some tid ∧
      ¬ Bridgeable line.routes fid tid) ∨
    (∃ exNames, exc = some exNames ∧ ∃ n ∈ exNames, getStationId line n = none)

/-- Claim C8's error condition for a whole event: unknown line id, an
unresolvable station spec, or (for an opening event carrying one) an
unresolvable `fullStations` spec. -/
def EventError (m : MetroModel) (e : EventRecord) : Prop :=
  match lookupA m.lines e.line with
  | none => True
  | some line =>
    SpecError line e.stations ∨
    (parseEvent e.type = ServiceState.Open ∧
      ∃ fs, e.fullStations = some fs ∧ SpecError line fs)

/-- Structural well-formedness of a line: every station id referenced by a
route or by the name→id map is a key of the station map.  The constructor
establishes this and events preserve it. -/
def WFLine (line : LineState) : Prop :=
  (∀ r ∈ line.routes, ∀ sid ∈ r.stations, (lookupA line.stations sid).isSome) ∧
  ∀ p ∈ line.stationIdMap, (lookupA line.stations p.2).isSome

/-- Structural well-formedness of the whole model. -/
def WFModel (m : MetroModel) : Prop :=
  ∀ p ∈ m.lines, WFLine p.2

/-- A model reachable from some metadata by some successful event sequence. -/
def Reachable (m : MetroModel) : Prop :=
  ∃ metas events m0, buildModel metas = some m0 ∧ applyEvents m0 events = some m

/-- The (amended) per-line state-promotion invariant: some `Open` station
forces an `Open` line; no `Open` but some `Suspended` station forces a
`Suspended` line; and the line state is never `Closed`. -/
def LineInv (line : LineState) : Prop :=
  ((∃ p ∈ line.stations, p.2.state = ServiceState.Open) →
    line.state = ServiceState.Open) ∧
  ((¬ ∃ p ∈ line.stations, p.2.state = ServiceState.Open) →
    (∃ p ∈ line.stations, p.2.state = ServiceState.Suspended) →
    line.state = ServiceState.Suspended) ∧
  line.state ≠ ServiceState.Closed

/-- The keys of an association list, in order. -/
def keysOf {α : Type} (l : List (String × α)) : List String := l.map fun p => p.1

/-- The key→station-state projection of a station map (node data erased). -/
def stateMap (sts : List (String × StationRec)) : List (String × ServiceState) :=
  sts.map fun p => (p.1, p.2.state)

/-- Convenience default for extracting a line from an optional model. -/
def defaultLine : LineState :=
  { state := ServiceState.Never, routes := [], stations := [], stationIdMap := [] }

/-- Extract a line of an optional model, defaulting to `defaultLine`. -/
def lineOf (m : Option MetroModel) (lid : String) : LineState :=
  match m with
  | some mm => (lookupA mm.lines lid).getD defaultLine
  | none => defaultLine

/-- The state of one station of a line, defaulting to `Never`. -/
def stationStateOf (line : LineState) (sid : String) : ServiceState :=
  ((lookupA line.stations sid).map fun st => st.state).getD ServiceState.Never

/-! ### Concrete inputs used by counterexamples and witnesses -/

/-- A one-line, four-station metadata record with the default full-span
route. -/
def meta4 : LineMeta :=
  { id := "1", color := "#f00", x := none,
    stations := [("A", ""), ("B", ""), ("C", ""), ("D", "")], routes := none,
    dummyRidership := none }

/-- A one-line, three-station metadata record. -/
def meta3 : LineMeta :=
  { id := "1", color := "#f00", x := none,
    stations := [("A", ""), ("B", ""), ("C", "")], routes := none,
    dummyRidership := none }

/-- A one-line, two-station metadata record. -/
def meta2 : LineMeta :=
  { id := "1", color := "#f00", x := none,
    stations := [("A", ""), ("B", "")], routes := none,
    dummyRidership := none }

/-- An `open` event over an explicit station list. -/
def openEvent (sts : List String) : EventRecord :=
  { date := "2020-01-01", line := "1", type := EventType.Open,
    stations := StationsSpec.names sts, fullStations := none }

/-- A `close` event over an explicit station list. -/
def closeEvent (sts : List String) : EventRecord :=
  { date := "2020-01-02", line := "1", type := EventType.Close,
    stations := StationsSpec.names sts, fullStations := none }

/-- An `open` event over an explicit station list that carries a
`fullStations` list. -/
def openFullEvent (sts full : List String) : EventRecord :=
  { date := "2020-01-02", line := "1", type := EventType.Open,
    stations := StationsSpec.names sts,
    fullStations := some (StationsSpec.names full) }

/-- C1's counterexample line: `A` opened first, then an `open` of `[C]`
carrying `fullStations = [A, B, C]` on the same line. -/
def c1Line : LineState :=
  lineOf (do
    let m ← buildModel [meta3]
    let m ← applyEvent m (openEvent ["A"])
    applyEvent m (openFullEvent ["C"] ["A", "B", "C"])) "1"

/-- C1's witness line: the spec's deferred-opening example on a fresh line. -/
def c1FreshLine : LineState :=
  lineOf (do
    let m ← buildModel [meta3]
    applyEvent m (openFullEvent ["B"] ["A", "B", "C"])) "1"

/-- C2's failing state: all four stations and all three edges opened. -/
def c2Line : LineState :=
  lineOf (do
    let m ← buildModel [meta4]
    applyEvent m (openEvent ["A", "B", "C", "D"])) "1"

/-- C3's counterexample model: open `[A]`, then close `[A]`. -/
def c3Model : Option MetroModel := do
  let m ← buildModel [meta2]
  let m ← applyEvent m (openEvent ["A"])
  applyEvent m (closeEvent ["A"])

/-- The line of C3's counterexample model. -/
def c3Line : LineState := lineOf c3Model "1"

/-- C4's routes for the claim's bridging example. -/
def c4Routes : List Route := [Route.mk ["A", "B", "J"], Route.mk ["J", "C", "D"]]

/-- C4's counterexample routes: the first route lists its stations away from
the junction (`from` appears after `J`). -/
def c4RoutesRev : List Route := [Route.mk ["J", "B", "A"], Route.mk ["J", "C", "D"]]

/-- C6's counterexample snapshot: four active stations all on level 5, on two
routes that conflict. -/
def c6Stations : List (String × StationSnapshot) :=
  [("S1", StationSnapshot.mk ServiceState.Open 5),
   ("S2", StationSnapshot.mk ServiceState.Open 5),
   ("T1", StationSnapshot.mk ServiceState.Open 5),
   ("T2", StationSnapshot.mk ServiceState.Open 5)]

/-- C6's witness snapshot: a single active station. -/
def c6Single : List (String × StationSnapshot) :=
  [("S1", StationSnapshot.mk ServiceState.Open 3),
   ("S2", StationSnapshot.mk ServiceState.Never 4)]

/-- C5's ridership input: one recorded day. -/
def c5Rid : List (String × List (String × ℚ)) :=
  [("2020-01-01", [("1", 10), ("total", 12)])]

/-- C5's two simulated days: open both stations on day 0, close them on
day 1 (so their layout positions disappear on day 1). -/
def c5Run :
    Option (List (TrackedLine × LineIR) × List ℚ × List (List LineObs)) :=
  simulateObs c5Rid ["2020-01-01", "2020-01-02"]
    [openEvent ["A", "B"], closeEvent ["A", "B"]] [meta2]

/-- Claim C4's same-route specification, from the claim's words: the
contiguous sub-list of the route between the indices of `f` and `t`,
reversed when `f` appears after `t`. -/
def caseOneSlice (r : Route) (f t : String) : Option (List String) :=
  match indexOf? r.stations f, indexOf? r.stations t with
  | some fi, some ti =>
    some (if fi ≤ ti then jsSlice r.stations fi (ti + 1)
      else (jsSlice r.stations ti (fi + 1)).reverse)
  | _, _ => none

/-- C8's witness model: the three-station demo line, freshly built. -/
def c8Model : MetroModel := (buildModel [meta3]).getD (MetroModel.mk [])

/-- C8's witness event: an `open` over a range with an unknown `to` name. -/
def c8BadEvent : EventRecord :=
  { date := "2020-01-01", line := "1", type := EventType.Open,
    stations := StationsSpec.range "A" "Z" none, fullStations := none }

/-- C8's well-formed witness event: an `open` over the full known range. -/
def c8GoodEvent : EventRecord :=
  { date := "2020-01-01", line := "1", type := EventType.Open,
    stations := StationsSpec.range "A" "C" none, fullStations := none }

/-- The per-entry property of layout output used by C6: an assigned position
belongs to an active station and its `y` is the linear-interpolation value of
that station's level (`levelHeight` form). -/
def ActivePos (stations : List (String × StationSnapshot)) (minL : Int)
    (topY lh : ℚ) (sid : String) (p : ℚ × ℚ) : Prop :=
  ∃ st, lookupA stations sid = some st ∧ isActiveState st.state = true ∧
    p.2 = topY + ((st.level - minL : Int) : ℚ) * lh

/-- The last `some` observation in a list, else the default: the value a
sparse tracker holds after consuming the list. -/
def lastObs {α : Type} (dflt : Option α) (l : List (Option α)) : Option α :=
  l.foldl (fun acc v => match v with | some x => some x | none => acc) dflt

/-- The station IR record with a given id (the orchestrator's `getStationIR`
find). -/
def irStation (ir : LineIR) (sid : String) : Option StationIR :=
  ir.stations.find? fun s => s.id = sid

/-- The formatted station ids of a line's metadata, in order: the key set of
every keyed per-station collection of that line. -/
def lineKeyIds (lm : LineMeta) : List String :=
  lm.stations.map fun s => formatStationId lm.id s.1

/-- The model holds a line under `lid` whose station map has exactly the keys
`K` (events never add or remove stations, so this is invariant). -/
def LineKeys (m : MetroModel) (lid : String) (K : List String) : Prop :=
  ∃ line, lookupA m.lines lid = some line ∧ keysOf line.stations = K

/-- One line's observation history: the `k`-th column of the per-day
observation rows. -/
def colObs (k : Nat) (obss : List (List LineObs)) : List LineObs :=
  obss.filterMap fun row => row.get? k

/-- The tracker invariant tying one line's tracked state and IR series to its
observation history `hist`: every tracked/series pair is exactly the
`pushOpt` fold of the per-day observed values, the line state and station
states observed directly and the positions through the layout lookup. -/
def TrackInv (pr : TrackedLine × LineIR) (hist : List LineObs)
    (K : List String) : Prop :=
  (pr.1.service, pr.2.statePoints) =
    trackFold (none, []) 0 (hist.map fun o => some o.lineState) ∧
  ∀ sid ∈ K, ∃ ts st, lookupA pr.1.stationsT sid = some ts ∧
    irStation pr.2 sid = some st ∧
    (ts.service, st.service) =
      trackFold (none, []) 0 (hist.map fun o => lookupA o.stationStates sid) ∧
    (ts.position, st.positions) =
      trackFold (none, []) 0 (hist.map fun o => lookupA o.positions sid)

/-- The whole-run invariant of the orchestrator's day loop: the tracked pairs
are aligned with the line metadata, every observation row has one entry per
line, and each line's pair satisfies the tracker invariant for its own
observation column while the model keeps that line's station keys. -/
def SimInv (metas : List LineMeta) (model : MetroModel)
    (pairs : List (TrackedLine × LineIR)) (obss : List (List LineObs)) :
    Prop :=
  pairs.length = metas.length ∧
  (∀ row ∈ obss, row.length = metas.length) ∧
  ∀ k lm pr, metas.get? k = some lm → pairs.get? k = some pr →
    LineKeys model lm.id (lineKeyIds lm) ∧
    TrackInv pr (colObs k obss) (lineKeyIds lm)

/-- The line-level tracking stage of `processLine` (the statements between
the snapshot and the per-station loop), staged for analysis: state
change-point push, `firstDay`, ridership, and route change-point push. -/
def lineStage (i : Nat) (counts : List (String × ℚ)) (lm : LineMeta)
    (snap : LineSnapshot) (tl : TrackedLine) (ir : LineIR) :
    TrackedLine × LineIR :=
  let sp := pushSparse tl.service ir.statePoints i snap.lineState
  let tl := { tl with service := sp.1 }
  let ir := { ir with statePoints := sp.2 }
  let ir := if tl.service = some ServiceState.Open ∧ ir.firstDay = none then
      { ir with firstDay := some i }
    else ir
  let ir := if ir.firstDay ≠ none then
      { ir with ridership := ir.ridership ++
          [((lookupA counts lm.id).orElse fun _ => lm.dummyRidership).getD 0] }
    else ir
  if snap.routes ≠ [] ∨ tl.routesCode ≠ none then
    if tl.routesCode ≠ some snap.routes then
      ({ tl with routes := snap.routes, routesCode := some snap.routes },
       { ir with routePoints := ir.routePoints ++ [(i, snap.routes)] })
    else (tl, ir)
  else (tl, ir)

/-- The tracked/IR pair `c5Run` produces for its single line (checked
against the run by the C5 counterexample). -/
def c5Pr : TrackedLine × LineIR :=
  ({ service := some ServiceState.Open,
     routes := [],
     routesCode := some [],
     stationsT :=
       [("1:A", { service := some ServiceState.Closed,
                  position := some (160, 50) }),
        ("1:B", { service := some ServiceState.Closed,
                  position := some (160, 1030) })] },
   { id := "1",
     colorHex := "#f00",
     x := 160,
     firstDay := some 0,
     ridership := [10, 0],
     statePoints := [(0, ServiceState.Open)],
     routePoints :=
       [(0, [{ stations := ["1:A", "1:B"], state := ServiceState.Open }]),
        (1, [])],
     stations :=
       [{ id := "1:A", name := "A", translation := "",
          positions := [(0, (160, 50))],
          service := [(0, ServiceState.Open), (1, ServiceState.Closed)] },
        { id := "1:B", name := "B", translation := "",
          positions := [(0, (160, 1030))],
          service := [(0, ServiceState.Open), (1, ServiceState.Closed)] }] })

/-- The per-day ridership totals of `c5Run`. -/
def c5Totals : List ℚ := [12, 0]

/-- What `c5Run` observes for its line on day 0: both stations open with
positions assigned. -/
def c5Obs0 : LineObs :=
  { lineState := ServiceState.Open,
    stationStates :=
      [("1:A", ServiceState.Open), ("1:B", ServiceState.Open)],
    positions := [("1:A", (160, 50)), ("1:B", (160, 1030))] }

/-- What `c5Run` observes for its line on day 1: both stations closed, no
positions assigned (the layout skips inactive stations). -/
def c5Obs1 : LineObs :=
  { lineState := ServiceState.Open,
    stationStates :=
      [("1:A", ServiceState.Closed), ("1:B", ServiceState.Closed)],
    positions := [] }

/-- Claim C4's cross-route sub-segment, from the amended claim's words: the
stations of a route between a station (inclusive) and the junction
(exclusive), kept in the route's own listing order with no reversal —
positions `si..ji-1` when the station precedes the junction in the listing,
else positions `ji+1..si`. -/
def ownOrderSegment (l : List String) (si ji : Nat) : List String :=
  if si < ji then jsSlice l si ji else jsSlice l (ji + 1) (si + 1)

/-! ### Theorems.

First a toolbox of lemmas about the association-list primitives, the option
monad plumbing, and the sparse-series tracker; then per-claim results. -/

theorem lookupA_updateA {α : Type} (l : List (String × α)) (k k' : String)
    (f : α → α) :
    lookupA (updateA l k f) k' =
      if k' = k then (lookupA l k').map f else lookupA l k' := by
  induction l with
  | nil => simp [lookupA, updateA]
  | cons p t ih =>
    obtain ⟨a, b⟩ := p
    simp only [updateA]
    by_cases hak : a = k
    · subst hak
      rw [if_pos rfl]
      by_cases hk : a = k'
      · subst hk
        simp [lookupA]
      · have hk2 : ¬ k' = a := fun h => hk h.symm
        simp [lookupA, hk, hk2, ih]
    · rw [if_neg hak]
      by_cases hak' : a = k'
      · subst hak'
        simp [lookupA, hak]
      · simp [lookupA, hak', ih]

theorem keysOf_updateA {α : Type} (l : List (String × α)) (k : String)
    (f : α → α) : keysOf (updateA l k f) = keysOf l := by
  induction l with
  | nil => rfl
  | cons p t ih =>
    obtain ⟨a, b⟩ := p
    simp only [updateA, keysOf, List.map_cons] at *
    by_cases hak : a = k <;> simp [hak, ih]

/-- C10: a `resume` event is state-equivalent to an `open` event with the
same date, line, stations and `fullStations`: `parseEvent` maps both to
`ServiceState.Open`, and `applyEvent` consults the event type only through
`parseEvent` — including the deferred-opening branch, whose guard is
`newState === ServiceState.Open`, so it fires for `resume` as well. -/
theorem c10_resume_equals_open (m : MetroModel) (date line : String)
    (stations : StationsSpec) (full : Option StationsSpec) :
    applyEvent m (EventRecord.mk date line EventType.Resume stations full) =
    applyEvent m (EventRecord.mk date line EventType.Open stations full) := rfl

/-- C7: `snapshot` is a pure read: in its state-passing form it returns the
model unchanged (every line's state, station states, nodes, edge states and
levels included), and a second call on the resulting model returns an equal
snapshot. -/
theorem c7_snapshot_pure (m : MetroModel) (lid : String) :
    (snapshotRun m lid).2 = m ∧
    (snapshotRun (snapshotRun m lid).2 lid).1 = (snapshotRun m lid).1 :=
  ⟨rfl, rfl⟩

/-- C9: the simulation is deterministic.  The orchestrator is embedded as a
total function of its four inputs: every iteration in the source walks an
array or an insertion-ordered `Map`, the sort is a stable date sort, and no
wall-clock, randomness, or other ambient state is consulted, so two runs on
the same input are the same value. -/
theorem c9_simulate_deterministic (rid : List (String × List (String × ℚ)))
    (days : List String) (events : List EventRecord) (metas : List LineMeta) :
    simulate rid days events metas = simulate rid days events metas := rfl

/-- C2 (failing evaluation): on the fully-opened four-station line, resolving
the range `A → C` checks `isEndpoint` of the tail endpoint `C`, which fails
(its parent edge and a child edge are both `Open`), and then removes the
HEAD station `A` (`subset.shift()`), not `C`: the operated subset comes out
as `[B, C]` where the claim requires `[A, B]`. -/
theorem c2_trim_removes_head :
    (resolveOperatedStations c2Line (StationsSpec.range "A" "C" none)).map
        (fun r => r.subset) = some ["1:B", "1:C"] ∧
    stationStateOf c2Line "1:A" = ServiceState.Open ∧
    stationStateOf c2Line "1:C" = ServiceState.Open := by
  exact ⟨by decide, by decide, by decide⟩

/-- C4 (counterexample): when the route holding `from` lists its stations in
the direction away from the junction (`[J, B, A]`), the bridged path keeps
route order and is NOT re-ordered from `from` to the junction: the result is
`[B, A, J, C, D]`, not the claimed `[A, B, J, C, D]`. -/
theorem c4_counterexample :
    extractRouteStations c4RoutesRev "A" "D" = some ["B", "A", "J", "C", "D"] ∧
    extractRouteStations c4RoutesRev "A" "D" ≠
      some ["A", "B", "J", "C", "D"] := by
  exact ⟨by decide, by decide⟩

theorem indexOf?_eq_none {l : List String} {a : String} :
    indexOf? l a = none ↔ a ∉ l := by
  induction l with
  | nil => simp [indexOf?]
  | cons x t ih =>
    by_cases hx : x = a
    · subst hx
      simp [indexOf?]
    · have hax : ¬ a = x := fun h => hx h.symm
      simp [indexOf?, hx, hax, ih]

theorem indexOf?_isSome {l : List String} {a : String} :
    (indexOf? l a).isSome ↔ a ∈ l := by
  rcases h : indexOf? l a with _ | i
  · simp [indexOf?_eq_none.1 h]
  · have hmem : a ∈ l := by
      by_contra hmem
      rw [indexOf?_eq_none.2 hmem] at h
      cases h
    simp [hmem]

theorem findSome?_cons_some {α β : Type} {f : α → Option β} {a : α}
    {l : List α} {b : β} (h : f a = some b) :
    List.findSome? f (a :: l) = some b := by
  simp [List.findSome?_cons, h]

theorem findSome?_cons_none {α β : Type} {f : α → Option β} {a : α}
    {l : List α} (h : f a = none) :
    List.findSome? f (a :: l) = List.findSome? f l := by
  simp [List.findSome?_cons, h]

theorem sameRouteSegment_isSome_of_mem {r : Route} {f t : String}
    (hf : f ∈ r.stations) (ht : t ∈ r.stations) :
    (sameRouteSegment r f t).isSome := by
  obtain ⟨fi, hfi⟩ := Option.isSome_iff_exists.1 (indexOf?_isSome.2 hf)
  obtain ⟨ti, hti⟩ := Option.isSome_iff_exists.1 (indexOf?_isSome.2 ht)
  unfold sameRouteSegment
  rw [hfi, hti]
  rfl

theorem mem_of_sameRouteSegment_isSome {r : Route} {f t : String}
    (h : (sameRouteSegment r f t).isSome) :
    f ∈ r.stations ∧ t ∈ r.stations := by
  unfold sameRouteSegment at h
  cases hf : indexOf? r.stations f with
  | none => rw [hf] at h; simp at h
  | some fi =>
    cases ht : indexOf? r.stations t with
    | none => rw [hf, ht] at h; simp at h
    | some ti =>
      exact ⟨indexOf?_isSome.1 (by simp [hf]), indexOf?_isSome.1 (by simp [ht])⟩

theorem sameRouteSegment_eq_caseOneSlice (r : Route) (f t : String) :
    sameRouteSegment r f t = caseOneSlice r f t := by
  unfold sameRouteSegment caseOneSlice
  cases hf : indexOf? r.stations f with
  | none => rfl
  | some fi =>
    cases ht : indexOf? r.stations t with
    | none => rfl
    | some ti =>
      by_cases hle : fi ≤ ti
      · have h1 : ¬ ti < fi := by omega
        have h2 : min fi ti = fi := by omega
        have h3 : max fi ti = ti := by omega
        simp [h1, h2, h3, hle]
      · have h1 : ti < fi := by omega
        have h2 : min fi ti = ti := by omega
        have h3 : max fi ti = fi := by omega
        simp [h1, h2, h3, hle]

theorem findSome?_sameRoute {routes : List Route} {f t : String} {r : Route}
    (h : routes.find?
      (fun r' => r'.stations.contains f && r'.stations.contains t) = some r) :
    routes.findSome? (fun r' => sameRouteSegment r' f t) =
      sameRouteSegment r f t := by
  induction routes with
  | nil => simp at h
  | cons r0 rest ih =>
    by_cases hp : (r0.stations.contains f && r0.stations.contains t) = true
    · rw [List.find?_cons_of_pos
        (p := fun r' : Route => r'.stations.contains f && r'.stations.contains t)
        _ hp] at h
      have hr : r0 = r := by simpa using h
      have hmem : f ∈ r0.stations ∧ t ∈ r0.stations := by
        simp only [Bool.and_eq_true] at hp
        exact ⟨by simpa using hp.1, by simpa using hp.2⟩
      obtain ⟨seg, hseg⟩ :=
        Option.isSome_iff_exists.1
          (sameRouteSegment_isSome_of_mem hmem.1 hmem.2)
      rw [← hr, hseg]
      exact findSome?_cons_some (f := fun r' : Route => sameRouteSegment r' f t)
        hseg
    · rw [List.find?_cons_of_neg
        (p := fun r' : Route => r'.stations.contains f && r'.stations.contains t)
        _ (by simpa using hp)] at h
      have hnone : sameRouteSegment r0 f t = none := by
        rcases hs : sameRouteSegment r0 f t with _ | seg
        · rfl
        · exfalso
          have hmem := mem_of_sameRouteSegment_isSome (r := r0) (f := f)
            (t := t) (by simp [hs])
          have hb : (r0.stations.contains f && r0.stations.contains t) = true := by
            simp only [Bool.and_eq_true]
            exact ⟨by simpa using hmem.1, by simpa using hmem.2⟩
          exact hp hb
      rw [findSome?_cons_none (f := fun r' : Route => sameRouteSegment r' f t) hnone]
      exact ih h

theorem findSome?_first {α β : Type} {p : α → Bool} {g : α → Option β} :
    ∀ {l : List α} {a : α} {v : β},
    l.find? p = some a → (∀ x, p x = false → g x = none) → g a = some v →
    l.findSome? g = some v := by
  intro l
  induction l with
  | nil =>
    intro a v h
    cases h
  | cons x xs ih =>
    intro a v hfind hnone hg
    by_cases hp : p x = true
    · rw [List.find?_cons_of_pos _ hp] at hfind
      obtain rfl : x = a := Option.some_inj.1 hfind
      rw [findSome?_cons_some hg]
    · rw [List.find?_cons_of_neg _ (by simpa using hp)] at hfind
      rw [findSome?_cons_none (hnone x (by simpa using hp))]
      exact ih hfind hnone hg

theorem sameRoute_scan_none {routes : List Route} {f t : String}
    (hno : ∀ r ∈ routes, ¬ (f ∈ r.stations ∧ t ∈ r.stations)) :
    routes.findSome? (fun r => sameRouteSegment r f t) = none := by
  refine List.findSome?_eq_none_iff.2 fun r hr => ?_
  rcases hs : sameRouteSegment r f t with _ | seg
  · rfl
  · exact absurd (mem_of_sameRouteSegment_isSome (by rw [hs]; rfl))
      (hno r hr)

theorem bridgeSegment_char {routes : List Route} {rA rB : Route} {t j : String}
    {fi ti ja jb : Nat}
    (hB : routes.find? (fun r => r.stations.contains t &&
      rA.stations.any fun sid => r.stations.contains sid) = some rB)
    (hj : rA.stations.find? (fun sid => rB.stations.contains sid) = some j)
    (hti : indexOf? rB.stations t = some ti)
    (hja : indexOf? rA.stations j = some ja)
    (hjb : indexOf? rB.stations j = some jb) :
    bridgeSegment routes rA fi t =
      some (ownOrderSegment rA.stations fi ja ++ [j] ++
        ownOrderSegment rB.stations ti jb) := by
  unfold bridgeSegment
  refine findSome?_first hB (fun x hx => ?_) ?_
  · by_cases hct : x.stations.contains t = true
    · have hany : (rA.stations.any fun sid => x.stations.contains sid) =
          false := by
        simp_all
      obtain ⟨ti0, hti0⟩ := Option.isSome_iff_exists.1
        (indexOf?_isSome.2 (by simpa using hct))
      rw [hti0]
      rw [List.find?_eq_none.2 fun sid hsid =>
        by simpa using (List.any_eq_false.1 hany) sid hsid]
    · have : t ∉ x.stations := by simp_all
      rw [indexOf?_eq_none.2 this]
  · simp only [hti, hj, hja, hjb]
    rfl

/-- C4 (amended): if both stations lie on some route, `extractRouteStations`
returns the contiguous sub-list of the first such route between their
indices, reversed when `from` appears after `to`.  If no route contains
both, it bridges: taking the first route containing `from` (route A), the
first route containing `to` that shares a station with route A (route B),
and the first station of route A shared with route B as the junction, the
result is route A's stations between `from` and the junction, the junction
exactly once, then route B's stations between the junction and `to`, each
sub-segment kept in its route's own listing order with NO reversal (not
re-ordered from `from` towards `to`): the claim's example
`[A,B,J] / [J,C,D]` yields `[A,B,J,C,D]`, but with the first route listed
as `[J,B,A]` the result is `[B,A,J,C,D]`. -/
theorem c4_extract_amended :
    (∀ (routes : List Route) (f t : String) (r : Route),
      routes.find?
        (fun r' => r'.stations.contains f && r'.stations.contains t) = some r →
      extractRouteStations routes f t = caseOneSlice r f t) ∧
    (∀ (routes : List Route) (f t : String) (rA rB : Route) (j : String)
      (fi ti ja jb : Nat),
      (∀ r ∈ routes, ¬ (f ∈ r.stations ∧ t ∈ r.stations)) →
      routes.find? (fun r => r.stations.contains f) = some rA →
      routes.find? (fun r => r.stations.contains t &&
        rA.stations.any fun sid => r.stations.contains sid) = some rB →
      rA.stations.find? (fun sid => rB.stations.contains sid) = some j →
      indexOf? rA.stations f = some fi →
      indexOf? rB.stations t = some ti →
      indexOf? rA.stations j = some ja →
      indexOf? rB.stations j = some jb →
      extractRouteStations routes f t =
        some (ownOrderSegment rA.stations fi ja ++ [j] ++
          ownOrderSegment rB.stations ti jb)) ∧
    extractRouteStations c4Routes "A" "D" = some ["A", "B", "J", "C", "D"] ∧
    extractRouteStations c4RoutesRev "A" "D" =
      some ["B", "A", "J", "C", "D"] := by
  refine ⟨?_, ?_, by decide, by decide⟩
  · intro routes f t r h
    have hfind := findSome?_sameRoute h
    have hpred := List.find?_some h
    have hmem : f ∈ r.stations ∧ t ∈ r.stations := by
      simp only [Bool.and_eq_true] at hpred
      exact ⟨by simpa using hpred.1, by simpa using hpred.2⟩
    obtain ⟨seg, hseg⟩ :=
      Option.isSome_iff_exists.1 (sameRouteSegment_isSome_of_mem hmem.1 hmem.2)
    have hcs : caseOneSlice r f t = some seg := by
      rw [← sameRouteSegment_eq_caseOneSlice]
      exact hseg
    simp only [extractRouteStations, hfind, hseg, hcs]
  · intro routes f t rA rB j fi ti ja jb hno hA hB hj hfi hti hja hjb
    simp only [extractRouteStations, sameRoute_scan_none hno]
    refine findSome?_first hA (fun x hx => ?_) ?_
    · have : f ∉ x.stations := by simp_all
      rw [indexOf?_eq_none.2 this]
    · rw [hfi]
      exact bridgeSegment_char hB hj hti hja hjb

/-- C4 witness: the same-route clause of the amended claim at a concrete
input (with `from` after `to`, exercising the reversal), and the
cross-route clause at the claim's own bridging example. -/
theorem c4_witness :
    ([Route.mk ["A", "B", "C"]].find?
      (fun r' => r'.stations.contains "C" && r'.stations.contains "A") =
      some (Route.mk ["A", "B", "C"]) ∧
    extractRouteStations [Route.mk ["A", "B", "C"]] "C" "A" =
      caseOneSlice (Route.mk ["A", "B", "C"]) "C" "A") ∧
    extractRouteStations c4Routes "A" "D" =
      some (ownOrderSegment (Route.mk ["A", "B", "J"]).stations 0 2 ++
        ["J"] ++ ownOrderSegment (Route.mk ["J", "C", "D"]).stations 2 0) :=
  ⟨⟨by decide, c4_extract_amended.1 _ _ _ _ (by decide)⟩,
    c4_extract_amended.2.1 c4Routes "A" "D" (Route.mk ["A", "B", "J"])
      (Route.mk ["J", "C", "D"]) "J" 0 2 2 0 (by decide) (by decide)
      (by decide) (by decide) (by decide) (by decide) (by decide)
      (by decide)⟩

theorem optBind_eq_some {α β : Type} {x : Option α} {f : α → Option β}
    {b : β} (h : (x >>= f) = some b) : ∃ a, x = some a ∧ f a = some b := by
  cases hx : x with
  | none => rw [hx] at h; cases h
  | some a => rw [hx] at h; exact ⟨a, rfl, h⟩

theorem setStationState_eq_some {l l' : LineState} {sid : String}
    {s : ServiceState} (h : setStationState l sid s = some l') :
    (lookupA l.stations sid).isSome ∧
    l' = { l with stations :=
      (updateA l.stations sid (fun st => { st with state := s })) } := by
  unfold setStationState at h
  cases hl : lookupA l.stations sid with
  | none => rw [hl] at h; cases h
  | some st =>
    rw [hl] at h
    exact ⟨rfl, (Option.some_inj.1 h).symm⟩

theorem setEdgeState_eq_some {l l' : LineState} {sid : String}
    {s : ServiceState} (h : setEdgeState l sid s = some l') :
    (lookupA l.stations sid).isSome ∧
    l' = { l with stations :=
      (updateA l.stations sid
        (fun st => { st with node := { st.node with edgeState := some s } })) } := by
  unfold setEdgeState at h
  cases hl : lookupA l.stations sid with
  | none => rw [hl] at h; cases h
  | some st =>
    rw [hl] at h
    exact ⟨rfl, (Option.some_inj.1 h).symm⟩

theorem foldl_setStation_char {s : ServiceState} :
    ∀ (targets : List String) (l l' : LineState),
    targets.foldlM (fun l sid => setStationState l sid s) l = some l' →
    (∀ sid, lookupA l'.stations sid = (lookupA l.stations sid).map
      fun st => if sid ∈ targets then { st with state := s } else st) ∧
    l'.state = l.state ∧ l'.routes = l.routes ∧
    l'.stationIdMap = l.stationIdMap := by
  intro targets
  induction targets with
  | nil =>
    intro l l' h
    obtain rfl : l = l' := by simpa using h
    refine ⟨fun sid => ?_, rfl, rfl, rfl⟩
    simp
  | cons t ts ih =>
    intro l l' h
    rw [List.foldlM_cons] at h
    obtain ⟨m, hm, hrest⟩ := optBind_eq_some h
    obtain ⟨-, rfl⟩ := setStationState_eq_some hm
    obtain ⟨hlook, hst, hrt, hmap⟩ := ih _ _ hrest
    refine ⟨fun sid => ?_, hst, hrt, hmap⟩
    rw [hlook sid]
    simp only [lookupA_updateA]
    by_cases hx : sid = t
    · rw [if_pos hx, Option.map_map]
      congr 1
      funext st
      by_cases hmem : sid ∈ ts <;>
        simp [Function.comp, hmem, List.mem_cons, hx]
    · rw [if_neg hx]
      congr 1
      funext st
      by_cases hmem : sid ∈ ts <;> simp [hmem, List.mem_cons, hx]

theorem foldl_setEdge_char {s : ServiceState} :
    ∀ (segTail : List String) (l l' : LineState),
    segTail.foldlM (fun l sid => setEdgeState l sid s) l = some l' →
    (∀ sid, lookupA l'.stations sid = (lookupA l.stations sid).map
      fun st => if sid ∈ segTail then
        { st with node := { st.node with edgeState := some s } } else st) ∧
    l'.state = l.state ∧ l'.routes = l.routes ∧
    l'.stationIdMap = l.stationIdMap := by
  intro segTail
  induction segTail with
  | nil =>
    intro l l' h
    obtain rfl : l = l' := by simpa using h
    refine ⟨fun sid => ?_, rfl, rfl, rfl⟩
    simp
  | cons t ts ih =>
    intro l l' h
    rw [List.foldlM_cons] at h
    obtain ⟨m, hm, hrest⟩ := optBind_eq_some h
    obtain ⟨-, rfl⟩ := setEdgeState_eq_some hm
    obtain ⟨hlook, hst, hrt, hmap⟩ := ih _ _ hrest
    refine ⟨fun sid => ?_, hst, hrt, hmap⟩
    rw [hlook sid]
    simp only [lookupA_updateA]
    by_cases hx : sid = t
    · rw [if_pos hx, Option.map_map]
      congr 1
      funext st
      by_cases hmem : sid ∈ ts <;>
        simp [Function.comp, hmem, List.mem_cons, hx]
    · rw [if_neg hx]
      congr 1
      funext st
      by_cases hmem : sid ∈ ts <;> simp [hmem, List.mem_cons, hx]

theorem updateStates_stateOf {l l' : LineState} {targets segment : List String}
    {s : ServiceState} (h : updateStates l targets segment s = some l') :
    (∀ sid, (lookupA l'.stations sid).map (fun st => st.state) =
      (lookupA l.stations sid).map
        fun st => if sid ∈ targets then s else st.state) ∧
    l'.state = l.state ∧ l'.routes = l.routes ∧
    l'.stationIdMap = l.stationIdMap := by
  unfold updateStates at h
  obtain ⟨m, hm, hrest⟩ := optBind_eq_some h
  obtain ⟨hlook1, hst1, hrt1, hmap1⟩ := foldl_setStation_char targets l m hm
  obtain ⟨hlook2, hst2, hrt2, hmap2⟩ :=
    foldl_setEdge_char (segment.drop 1) m l' hrest
  refine ⟨fun sid => ?_, hst2.trans hst1, hrt2.trans hrt1, hmap2.trans hmap1⟩
  rw [hlook2 sid, hlook1 sid]
  rw [Option.map_map, Option.map_map]
  congr 1
  funext st
  simp only [List.drop_one]
  by_cases hmem : sid ∈ segment.tail <;>
    by_cases ht : sid ∈ targets <;>
      simp [hmem, ht, Function.comp]

theorem promoteLineState_stations (l : LineState) :
    (promoteLineState l).stations = l.stations := by
  unfold promoteLineState
  split <;> try split
  all_goals rfl

/-- C1 (amended): for an `open` event carrying `fullStations`, `applyEvent`
first marks the ENTIRE resolved `fullStations` subset `Suspended` — including
stations that were already `Open` or `Closed` — and then sets the resolved
primary subset to `Open`; a station in both subsets therefore ends `Open`, a
station only in the `fullStations` subset ends `Suspended` regardless of its
previous state, and every other station keeps its previous state. -/
theorem c1_deferred_open_amended {line line' : LineState} {e : EventRecord}
    {fs : StationsSpec} {r rf : Resolved}
    (hty : e.type = EventType.Open)
    (hfs : e.fullStations = some fs)
    (hr : resolveOperatedStations line e.stations = some r)
    (hrf : resolveOperatedStations line fs = some rf)
    (h : applyEventLine line e = some line') :
    ∀ sid, (lookupA line'.stations sid).map (fun st => st.state) =
      (lookupA line.stations sid).map fun st =>
        if sid ∈ r.subset then ServiceState.Open
        else if sid ∈ rf.subset then ServiceState.Suspended
        else st.state := by
  unfold applyEventLine at h
  rw [hr, hty] at h
  obtain ⟨r0, hr0, h⟩ := optBind_eq_some h
  rw [show r0 = r from (Option.some_inj.1 hr0).symm] at h
  simp only [parseEvent, if_pos rfl, if_true, hfs] at h
  obtain ⟨rf0, hrf0, h⟩ := optBind_eq_some h
  rw [show rf0 = rf from Option.some_inj.1 ((hrf.symm.trans hrf0).symm)] at h
  obtain ⟨mid1, hmid1, h⟩ := optBind_eq_some h
  obtain ⟨mid2, hmid2, h⟩ := optBind_eq_some h
  have hline' : line' = promoteLineState mid2 := by
    simpa using h.symm
  intro sid
  have e2 := (updateStates_stateOf hmid2).1 sid
  have e1 := (updateStates_stateOf hmid1).1 sid
  calc (lookupA line'.stations sid).map (fun st => st.state)
      = (lookupA mid2.stations sid).map (fun st => st.state) := by
        rw [hline', promoteLineState_stations]
    _ = (lookupA mid1.stations sid).map
          (fun st => if sid ∈ r.subset then ServiceState.Open else st.state) := e2
    _ = ((lookupA mid1.stations sid).map (fun st => st.state)).map
          (fun v => if sid ∈ r.subset then ServiceState.Open else v) := by
        rw [Option.map_map]
        congr 1
    _ = ((lookupA line.stations sid).map
          (fun st => if sid ∈ rf.subset then ServiceState.Suspended
            else st.state)).map
          (fun v => if sid ∈ r.subset then ServiceState.Open else v) := by
        rw [e1]
    _ = (lookupA line.stations sid).map
          (fun st => if sid ∈ r.subset then ServiceState.Open
            else if sid ∈ rf.subset then ServiceState.Suspended
            else st.state) := by
        rw [Option.map_map]
        refine congrFun (congrArg Option.map (funext fun st => ?_)) _
        by_cases h1 : sid ∈ r.subset <;>
          by_cases h2 : sid ∈ rf.subset <;> simp [h1, h2, Function.comp]

/-- C1 (counterexample): on the three-station line with `A` already `Open`,
the `open [C]` event with `fullStations = [A, B, C]` DEMOTES `A` to
`Suspended` (`A` is in the resolved `fullStations` subset but not in the
primary target), contradicting the claim that stations already `Open` are
not demoted. -/
theorem c1_counterexample :
    stationStateOf (lineOf (do
      let m ← buildModel [meta3]
      applyEvent m (openEvent ["A"])) "1") "1:A" = ServiceState.Open ∧
    stationStateOf c1Line "1:A" = ServiceState.Suspended ∧
    stationStateOf c1Line "1:B" = ServiceState.Suspended ∧
    stationStateOf c1Line "1:C" = ServiceState.Open := by
  exact ⟨by decide, by decide, by decide, by decide⟩

/-- C1 witness: the amended claim applied to the spec's deferred-opening
example (fresh line, `open [B]` with `fullStations = [A, B, C]`), together
with the concrete outcome `B ↦ Open`, `A, C ↦ Suspended`. -/
theorem c1_witness :
    (∀ sid,
      (lookupA c1FreshLine.stations sid).map (fun st => st.state) =
      (lookupA (lineOf (buildModel [meta3]) "1").stations sid).map fun st =>
        if sid ∈ ["1:B"] then ServiceState.Open
        else if sid ∈ ["1:A", "1:B", "1:C"] then ServiceState.Suspended
        else st.state) ∧
    stationStateOf c1FreshLine "1:B" = ServiceState.Open ∧
    stationStateOf c1FreshLine "1:A" = ServiceState.Suspended ∧
    stationStateOf c1FreshLine "1:C" = ServiceState.Suspended := by
  refine ⟨?_, by decide, by decide, by decide⟩
  have h := @c1_deferred_open_amended
    (lineOf (buildModel [meta3]) "1")
    c1FreshLine
    (openFullEvent ["B"] ["A", "B", "C"])
    (StationsSpec.names ["A", "B", "C"])
    (Resolved.mk ["1:B"] ["1:B"])
    (Resolved.mk ["1:A", "1:B", "1:C"] ["1:A", "1:B", "1:C"])
    (by decide) (by decide) (by decide) (by decide) (by decide)
  exact h

theorem lookupA_mem {α : Type} {l : List (String × α)} {k : String} {v : α}
    (h : lookupA l k = some v) : (k, v) ∈ l := by
  induction l with
  | nil => cases h
  | cons p t ih =>
    obtain ⟨a, b⟩ := p
    by_cases hak : a = k
    · subst hak
      simp only [lookupA, if_pos rfl] at h
      simp [Option.some_inj.1 h]
    · simp only [lookupA, if_neg hak] at h
      exact List.mem_cons_of_mem _ (ih h)

theorem of_mem_updateA {α : Type} {l : List (String × α)} {k : String}
    {f : α → α} {q : String × α} (h : q ∈ updateA l k f) :
    ∃ p ∈ l, q = if p.1 = k then (p.1, f p.2) else p := by
  induction l with
  | nil => cases h
  | cons p t ih =>
    obtain ⟨a, b⟩ := p
    rcases List.mem_cons.1 h with hq | hq
    · exact ⟨(a, b), List.mem_cons_self _ _, hq⟩
    · obtain ⟨p0, hp0, hq0⟩ := ih hq
      exact ⟨p0, List.mem_cons_of_mem _ hp0, hq0⟩

theorem stateMap_updateA {sts : List (String × StationRec)} {k : String}
    {f : StationRec → StationRec} (hf : ∀ st, (f st).state = st.state) :
    stateMap (updateA sts k f) = stateMap sts := by
  induction sts with
  | nil => rfl
  | cons p t ih =>
    obtain ⟨a, b⟩ := p
    show stateMap ((if a = k then (a, f b) else (a, b)) :: updateA t k f) =
      stateMap ((a, b) :: t)
    by_cases hak : a = k
    · rw [if_pos hak]
      show (a, (f b).state) :: stateMap (updateA t k f) =
        (a, b.state) :: stateMap t
      rw [hf, ih]
    · rw [if_neg hak]
      show (a, b.state) :: stateMap (updateA t k f) =
        (a, b.state) :: stateMap t
      rw [ih]

theorem stateMap_updateA_node {sts : List (String × StationRec)} {k : String}
    (g : StationRec → StationNode) :
    stateMap (updateA sts k fun st => { st with node := g st }) =
      stateMap sts :=
  stateMap_updateA fun _ => rfl

theorem linkNodes_stateMap {sts sts' : List (String × StationRec)}
    {a b : String} (h : linkNodes sts a b = some sts') :
    stateMap sts' = stateMap sts := by
  simp only [linkNodes] at h
  obtain ⟨x, hx, h⟩ := optBind_eq_some h
  obtain ⟨y, hy, h⟩ := optBind_eq_some h
  obtain rfl : sts' = _ := (Option.some_inj.1 h).symm
  exact (stateMap_updateA_node _).trans (stateMap_updateA_node _)

theorem foldlM_stateMap {β : Type}
    {step : List (String × StationRec) → β → Option (List (String × StationRec))}
    (hstep : ∀ sts bb sts', step sts bb = some sts' →
      stateMap sts' = stateMap sts) :
    ∀ (l : List β) (sts sts' : List (String × StationRec)),
    l.foldlM step sts = some sts' → stateMap sts' = stateMap sts := by
  intro l
  induction l with
  | nil =>
    intro sts sts' h
    obtain rfl : sts = sts' := by simpa using h
    rfl
  | cons x xs ih =>
    intro sts sts' h
    rw [List.foldlM_cons] at h
    obtain ⟨mid, hmid, hrest⟩ := optBind_eq_some h
    exact (ih mid sts' hrest).trans (hstep sts x mid hmid)

theorem computeLevels_stateMap {routes : List Route}
    {sts sts' : List (String × StationRec)}
    (h : computeLevels routes sts = some sts') :
    stateMap sts' = stateMap sts := by
  unfold computeLevels at h
  refine foldlM_stateMap ?_ routes sts sts' h
  intro sts0 route sts1 hstep
  obtain ⟨first, hfirst, hstep⟩ := optBind_eq_some hstep
  refine foldlM_stateMap ?_ route.stations.enum sts0 sts1 hstep
  intro sts2 p sts3 hstep2
  obtain ⟨st, hst, hstep2⟩ := optBind_eq_some hstep2
  rw [← Option.some_inj.1 hstep2]
  exact stateMap_updateA_node _

theorem buildLine_initial {lm : LineMeta} {line : LineState}
    (h : buildLine lm = some line) :
    line.state = ServiceState.Never ∧
    ∀ q ∈ line.stations, q.2.state = ServiceState.Never := by
  unfold buildLine at h
  obtain ⟨nr, hnr, h⟩ := optBind_eq_some h
  obtain ⟨sm1, hsm1, h⟩ := optBind_eq_some h
  obtain ⟨sm2, hsm2, h⟩ := optBind_eq_some h
  obtain rfl : line = _ := (Option.some_inj.1 h).symm
  refine ⟨rfl, ?_⟩
  have h2 : stateMap sm2 = stateMap sm1 := computeLevels_stateMap hsm2
  have h1 : stateMap sm1 = stateMap
      ((lm.stations.map (fun s => s.1)).map (formatStationId lm.id) |>.map
        fun sid => (sid, StationRec.mk ServiceState.Never
          (StationNode.mk none [] none 0))) := by
    refine foldlM_stateMap ?_ _ _ _ hsm1
    intro sts0 route sts1 hstep
    refine foldlM_stateMap ?_ _ _ _ hstep
    intro sts2 pc sts3 hstep2
    exact linkNodes_stateMap hstep2
  intro q hq
  have hmem : (q.1, q.2.state) ∈ stateMap sm2 := by
    simp only [stateMap]
    exact List.mem_map.2 ⟨q, hq, rfl⟩
  rw [h2, h1] at hmem
  simp only [stateMap, List.map_map, List.mem_map] at hmem
  obtain ⟨sid, hsid, heq⟩ := hmem
  simpa using (congrArg Prod.snd heq).symm

theorem promote_inv {l : LineState} (h : l.state ≠ ServiceState.Closed) :
    LineInv (promoteLineState l) := by
  unfold promoteLineState
  by_cases h1 : (l.stations.any fun p => p.2.state = ServiceState.Open) = true
  · rw [if_pos h1]
    refine ⟨fun _ => rfl, fun hno _ => ?_, by simp⟩
    exact absurd (by simpa using h1) hno
  · rw [if_neg h1]
    by_cases h2 :
        (l.stations.any fun p => p.2.state = ServiceState.Suspended) = true
    · rw [if_pos h2]
      refine ⟨fun hop => ?_, fun _ _ => rfl, by simp⟩
      exact absurd (by simpa using hop) (by simpa using h1)
    · rw [if_neg h2]
      refine ⟨fun hop => ?_, fun _ hsus => ?_, h⟩
      · exact absurd (by simpa using hop) (by simpa using h1)
      · exact absurd (by simpa using hsus) (by simpa using h2)

theorem applyEventLine_inv {line line' : LineState} {e : EventRecord}
    (h : applyEventLine line e = some line')
    (hprev : line.state ≠ ServiceState.Closed) : LineInv line' := by
  simp only [applyEventLine] at h
  obtain ⟨r, hrr, h⟩ := optBind_eq_some h
  rcases hbr : (if parseEvent e.type = ServiceState.Open
      then e.fullStations else none) with _ | fs
  · rw [hbr] at h
    obtain ⟨y, hy, h⟩ := optBind_eq_some h
    have hyl : line = y := by simpa using hy
    obtain ⟨mid, hmid, h⟩ := optBind_eq_some h
    have hline' : line' = promoteLineState mid := by simpa using h.symm
    have hst := (updateStates_stateOf hmid).2.1
    rw [hline']
    refine promote_inv ?_
    rw [hst, ← hyl]
    exact hprev
  · rw [hbr] at h
    obtain ⟨rf, hrf, h⟩ := optBind_eq_some h
    obtain ⟨mid1, hmid1, h⟩ := optBind_eq_some h
    obtain ⟨mid2, hmid2, h⟩ := optBind_eq_some h
    have hline' : line' = promoteLineState mid2 := by simpa using h.symm
    have hst1 := (updateStates_stateOf hmid1).2.1
    have hst2 := (updateStates_stateOf hmid2).2.1
    rw [hline']
    refine promote_inv ?_
    rw [hst2, hst1]
    exact hprev

theorem applyEvent_preserves_inv {m m' : MetroModel} {e : EventRecord}
    (h : applyEvent m e = some m')
    (hinv : ∀ p ∈ m.lines, LineInv p.2) : ∀ p ∈ m'.lines, LineInv p.2 := by
  unfold applyEvent at h
  obtain ⟨line, hline, h⟩ := optBind_eq_some h
  obtain ⟨line', hline', h⟩ := optBind_eq_some h
  obtain rfl : m' = _ := (Option.some_inj.1 h).symm
  intro p hp
  simp only at hp
  obtain ⟨p0, hp0, hq⟩ := of_mem_updateA hp
  by_cases hk : p0.1 = e.line
  · rw [hq, if_pos hk]
    exact applyEventLine_inv hline'
      ((hinv _ (lookupA_mem hline)).2.2)
  · rw [hq, if_neg hk]
    exact hinv p0 hp0

theorem applyEvents_preserves_inv {events : List EventRecord} :
    ∀ {m m' : MetroModel}, applyEvents m events = some m' →
    (∀ p ∈ m.lines, LineInv p.2) → ∀ p ∈ m'.lines, LineInv p.2 := by
  induction events with
  | nil =>
    intro m m' h
    obtain rfl : m = m' := by simpa [applyEvents] using h
    exact id
  | cons e es ih =>
    intro m m' h hinv
    rw [applyEvents, List.foldlM_cons] at h
    obtain ⟨mid, hmid, hrest⟩ := optBind_eq_some h
    exact ih hrest (applyEvent_preserves_inv hmid hinv)

theorem buildModel_inv {metas : List LineMeta} {m : MetroModel}
    (h : buildModel metas = some m) : ∀ p ∈ m.lines, LineInv p.2 := by
  unfold buildModel at h
  obtain ⟨lines, hlines, h⟩ := optBind_eq_some h
  obtain rfl : m = _ := (Option.some_inj.1 h).symm
  suffices hgen : ∀ (ms : List LineMeta) (acc out : List (String × LineState)),
      ms.foldlM (fun lines lm => do
        let ls ← buildLine lm
        pure (lines ++ [(lm.id, ls)])) acc = some out →
      (∀ p ∈ acc, LineInv p.2) → ∀ p ∈ out, LineInv p.2 by
    intro p hp
    refine hgen metas [] lines hlines (by simp) p hp
  intro ms
  induction ms with
  | nil =>
    intro acc out h
    obtain rfl : acc = out := by simpa using h
    exact id
  | cons lm ms ih =>
    intro acc out h hacc
    rw [List.foldlM_cons] at h
    obtain ⟨mid, hmid, hrest⟩ := optBind_eq_some h
    obtain ⟨ls, hls, hmid⟩ := optBind_eq_some hmid
    obtain rfl : mid = acc ++ [(lm.id, ls)] := (Option.some_inj.1 hmid).symm
    refine ih _ _ hrest fun p hp => ?_
    rcases List.mem_append.1 hp with hp | hp
    · exact hacc p hp
    · obtain rfl : p = (lm.id, ls) := by simpa using hp
      obtain ⟨hstate, hall⟩ := buildLine_initial hls
      refine ⟨fun hop => ?_, fun _ hsus => ?_, by simp [hstate]⟩
      · obtain ⟨q, hq, hqs⟩ := hop
        exact absurd (hall q hq) (by simp [hqs])
      · obtain ⟨q, hq, hqs⟩ := hsus
        exact absurd (hall q hq) (by simp [hqs])

/-- C3 (amended): for every reachable model state and line, if any station is
`Open` the line's state is `Open`; if no station is `Open` but some station
is `Suspended` the line's state is `Suspended`; and the line's state is never
`Closed`.  (The converse of the first clause — the claim's "iff" — fails:
when an event leaves a line with only `Closed`/`Never` stations, the line
state is left unchanged rather than recomputed.) -/
theorem c3_promotion_amended {m : MetroModel} (h : Reachable m) :
    ∀ lid line, lookupA m.lines lid = some line → LineInv line := by
  obtain ⟨metas, events, m0, hbuild, happly⟩ := h
  intro lid line hlook
  exact applyEvents_preserves_inv happly (buildModel_inv hbuild) _
    (lookupA_mem hlook)

/-- C3 (counterexample): open `[A]` then close `[A]` on a fresh two-station
line.  The resulting (reachable) model has no `Open` station, yet the line's
recorded state is still `Open` — the claim's "Open iff some station Open"
is false. -/
theorem c3_counterexample :
    Reachable (c3Model.getD (MetroModel.mk [])) ∧
    c3Line.state = ServiceState.Open ∧
    ∀ q ∈ c3Line.stations, q.2.state ≠ ServiceState.Open := by
  refine ⟨⟨[meta2], [openEvent ["A"], closeEvent ["A"]],
    (buildModel [meta2]).getD (MetroModel.mk []), by decide, by decide⟩,
    by decide, by decide⟩

/-- C3 witness: the amended invariant instantiated on the concrete reachable
counterexample model. -/
theorem c3_witness : LineInv c3Line := by
  refine c3_promotion_amended (m := c3Model.getD (MetroModel.mk []))
    ⟨[meta2], [openEvent ["A"], closeEvent ["A"]],
      (buildModel [meta2]).getD (MetroModel.mk []), by decide, by decide⟩
    "1" c3Line (by decide)

theorem lookupA_append {α : Type} (l1 l2 : List (String × α)) (k : String) :
    lookupA (l1 ++ l2) k =
      match lookupA l1 k with
      | some v => some v
      | none => lookupA l2 k := by
  induction l1 with
  | nil => simp [lookupA]
  | cons p t ih =>
    obtain ⟨a, b⟩ := p
    by_cases hak : a = k <;> simp [lookupA, hak, ih]

theorem snd_mem_of_mem_enumFrom {α : Type} :
    ∀ {l : List α} {n : Nat} {p : Nat × α}, p ∈ l.enumFrom n → p.2 ∈ l := by
  intro l
  induction l with
  | nil => intro n p h; cases h
  | cons x t ih =>
    intro n p h
    rw [List.enumFrom] at h
    rcases List.mem_cons.1 h with h | h
    · rw [h]
      exact List.mem_cons_self _ _
    · exact List.mem_cons_of_mem _ (ih h)

theorem assignRoute_invariant {stations : List (String × StationSnapshot)}
    {minL : Int} {topY lh : ℚ} (xval : ℚ) :
    ∀ (r : List String) (positions : List (String × (ℚ × ℚ))),
    (∀ sid ∈ r, ∃ st, lookupA stations sid = some st ∧
      isActiveState st.state = true) →
    (∀ sid p, lookupA positions sid = some p →
      ActivePos stations minL topY lh sid p) →
    ∀ sid p,
    lookupA (r.foldl (fun positions sid =>
      if (lookupA positions sid).isSome then positions
      else positions ++ [(sid, (xval,
        topY + ((((lookupA stations sid).map fun st => st.level).getD 0 -
          minL : Int) : ℚ) * lh))]) positions) sid = some p →
    ActivePos stations minL topY lh sid p := by
  intro r
  induction r with
  | nil => intro positions _ hpos sid p h; exact hpos sid p h
  | cons x xs ih =>
    intro positions hact hpos sid p h
    rw [List.foldl_cons] at h
    refine ih _ (fun sid hs => hact sid (List.mem_cons_of_mem _ hs)) ?_ sid p h
    intro sid' p' hp'
    by_cases hs : (lookupA positions x).isSome
    · rw [if_pos hs] at hp'
      exact hpos sid' p' hp'
    · rw [if_neg hs] at hp'
      rw [lookupA_append] at hp'
      rcases hl : lookupA positions sid' with _ | v
      · rw [hl] at hp'
        simp only [lookupA] at hp'
        by_cases hx : x = sid'
        · rw [if_pos hx] at hp'
          obtain ⟨st, hst, hstact⟩ := hact x (List.mem_cons_self _ _)
          refine ⟨st, hx ▸ hst, hstact, ?_⟩
          have hpe := (Option.some_inj.1 hp').symm
          rw [hpe]
          simp only [hst, Option.map_some', Option.getD_some]
        · rw [if_neg hx] at hp'
          cases hp'
      · rw [hl] at hp'
        have hv : v = p' := by simpa using hp'
        exact hpos sid' p' (by rw [hl, hv])

theorem assignGroup_invariant {stations : List (String × StationSnapshot)}
    {minL : Int} {xq topY lh b : ℚ} {group : List (List String)}
    {positions : List (String × (ℚ × ℚ))}
    (hact : ∀ r ∈ group, ∀ sid ∈ r, ∃ st, lookupA stations sid = some st ∧
      isActiveState st.state = true)
    (hpos : ∀ sid p, lookupA positions sid = some p →
      ActivePos stations minL topY lh sid p) :
    ∀ sid p,
    lookupA (assignGroup stations minL xq topY lh b group positions) sid =
      some p →
    ActivePos stations minL topY lh sid p := by
  unfold assignGroup
  have hgen : ∀ (l : List (Nat × List String)) positions,
      (∀ pr ∈ l, ∀ sid ∈ pr.2, ∃ st, lookupA stations sid = some st ∧
        isActiveState st.state = true) →
      (∀ sid p, lookupA positions sid = some p →
        ActivePos stations minL topY lh sid p) →
      ∀ sid p,
      lookupA (l.foldl (fun positions pr =>
        pr.2.foldl (fun positions sid =>
          if (lookupA positions sid).isSome then positions
          else positions ++ [(sid,
            (xq + ((pr.1 : ℚ) - ((group.length : ℚ) - 1) / 2) * b,
             topY + ((((lookupA stations sid).map fun st => st.level).getD 0 -
               minL : Int) : ℚ) * lh))]) positions) positions) sid = some p →
      ActivePos stations minL topY lh sid p := by
    intro l
    induction l with
    | nil => intro positions _ hp sid p h; exact hp sid p h
    | cons pr prs ih =>
      intro positions hact2 hpos2 sid p h
      rw [List.foldl_cons] at h
      refine ih _ (fun q hq => hact2 q (List.mem_cons_of_mem _ hq)) ?_ sid p h
      exact assignRoute_invariant _ pr.2 positions
        (hact2 pr (List.mem_cons_self _ _)) hpos2
  intro sid p h
  refine hgen group.enum positions ?_ hpos sid p h
  intro pr hpr
  exact hact pr.2 (snd_mem_of_mem_enumFrom hpr)

theorem layoutLoop_invariant {stations : List (String × StationSnapshot)}
    {minL : Int} {xq topY lh b : ℚ} :
    ∀ (n : Nat) (pending : List (List String))
      (positions : List (String × (ℚ × ℚ))),
    (∀ r ∈ pending, ∀ sid ∈ r, ∃ st, lookupA stations sid = some st ∧
      isActiveState st.state = true) →
    (∀ sid p, lookupA positions sid = some p →
      ActivePos stations minL topY lh sid p) →
    ∀ sid p,
    lookupA (layoutLoop stations minL xq topY lh b n pending positions) sid =
      some p →
    ActivePos stations minL topY lh sid p := by
  intro n
  induction n with
  | zero =>
    intro pending positions _ hpos sid p h
    match pending with
    | [] =>
      rw [layoutLoop] at h
      exact hpos sid p h
    | route :: rest =>
      rw [layoutLoop] at h
      exact hpos sid p h
  | succ n ih =>
    intro pending positions hact hpos sid p h
    match pending with
    | [] =>
      rw [layoutLoop] at h
      exact hpos sid p h
    | route :: rest =>
      rw [layoutLoop] at h
      by_cases hre : route = []
      · rw [if_pos hre] at h
        exact ih rest positions
          (fun r hr => hact r (List.mem_cons_of_mem _ hr)) hpos sid p h
      · rw [if_neg hre] at h
        refine ih _ _ ?_ ?_ sid p h
        · intro r hr
          exact hact r (List.mem_cons_of_mem _ (List.mem_of_mem_filter hr))
        · refine assignGroup_invariant ?_ hpos
          intro r hr
          rcases List.mem_cons.1 hr with hr | hr
          · exact hr ▸ hact route (List.mem_cons_self _ _)
          · exact hact r (List.mem_cons_of_mem _ (List.mem_of_mem_filter hr))

theorem calcPositions_sound {routes : List (List String)}
    {stations : List (String × StationSnapshot)} {xq topY bottomY b : ℚ}
    {sid : String} {p : ℚ × ℚ}
    (h : lookupA (calculateStationPositions routes stations xq topY bottomY b)
      sid = some p) :
    ∃ st, lookupA stations sid = some st ∧ isActiveState st.state = true ∧
      (if listMaxI (activeLevels stations) ≤ listMinI (activeLevels stations)
       then p.2 = topY
       else p.2 = topY +
         ((st.level - listMinI (activeLevels stations) : Int) : ℚ) *
           (bottomY - topY) /
           ((listMaxI (activeLevels stations) -
             listMinI (activeLevels stations) : Int) : ℚ)) := by
  simp only [calculateStationPositions] at h
  have hinv := layoutLoop_invariant (routes.map fun r =>
      r.filter fun sid =>
        match lookupA stations sid with
        | some st => isActiveState st.state
        | none => false).length
    _ [] ?_ ?_ sid p h
  · obtain ⟨st, hst, hact, hy⟩ := hinv
    refine ⟨st, hst, hact, ?_⟩
    by_cases hcol : listMaxI (activeLevels stations) ≤
        listMinI (activeLevels stations)
    · rw [if_pos hcol]
      rw [hy]
      rw [if_pos (by omega :
        listMaxI (activeLevels stations) - listMinI (activeLevels stations) +
          1 ≤ 1)]
      ring
    · rw [if_neg hcol]
      rw [hy]
      rw [if_neg (by omega :
        ¬ (listMaxI (activeLevels stations) - listMinI (activeLevels stations) +
          1 ≤ 1))]
      have hne : ((listMaxI (activeLevels stations) -
          listMinI (activeLevels stations) : Int) : ℚ) ≠ 0 := by
        have : 0 < listMaxI (activeLevels stations) -
            listMinI (activeLevels stations) := by omega
        exact_mod_cast this.ne'
      push_cast
      field_simp
  · intro r hr sid' hs
    obtain ⟨r0, hr0, rfl⟩ := List.mem_map.1 hr
    have hp := List.of_mem_filter hs
    rcases hl : lookupA stations sid' with _ | st
    · rw [hl] at hp
      cases hp
    · rw [hl] at hp
      exact ⟨st, rfl, hp⟩
  · intro sid' p' hp'
    cases hp'

theorem assignGroup_single {stations : List (String × StationSnapshot)}
    {s0 : String} {st0 : StationSnapshot} {xq topY lh b : ℚ} {minL : Int}
    (hlook : lookupA stations s0 = some st0) (hminL : minL = st0.level)
    (positions : List (String × (ℚ × ℚ)))
    (hpos : ∀ p, lookupA positions s0 = some p → p = (xq, topY)) :
    ∀ p, lookupA (assignGroup stations minL xq topY lh b [[s0]] positions) s0 =
      some p → p = (xq, topY) := by
  intro p hp
  simp only [assignGroup, List.enum, List.enumFrom, List.foldl,
    List.length_cons, List.length_nil] at hp
  by_cases hs : (lookupA positions s0).isSome
  · rw [if_pos hs] at hp
    exact hpos p hp
  · rw [if_neg hs] at hp
    rw [lookupA_append] at hp
    rcases hl : lookupA positions s0 with _ | v
    · rw [hl] at hp
      simp only [lookupA, if_pos rfl] at hp
      have hpe := (Option.some_inj.1 hp).symm
      rw [hpe]
      refine Prod.ext_iff.2 ⟨?_, ?_⟩
      · push_cast
        ring
      · simp [hlook, hminL]
    · exact absurd (by simp [hl]) hs

theorem layoutLoop_single {stations : List (String × StationSnapshot)}
    {s0 : String} {st0 : StationSnapshot} {xq topY lh b : ℚ} {minL : Int}
    (hlook : lookupA stations s0 = some st0) (hminL : minL = st0.level) :
    ∀ (n : Nat) (pending : List (List String))
      (positions : List (String × (ℚ × ℚ))),
    (∀ r ∈ pending, r = [] ∨ r = [s0]) →
    (∀ p, lookupA positions s0 = some p → p = (xq, topY)) →
    ∀ p, lookupA (layoutLoop stations minL xq topY lh b n pending positions)
      s0 = some p → p = (xq, topY) := by
  intro n
  induction n with
  | zero =>
    intro pending positions _ hpos p h
    match pending with
    | [] =>
      rw [layoutLoop] at h
      exact hpos p h
    | route :: rest =>
      rw [layoutLoop] at h
      exact hpos p h
  | succ n ih =>
    intro pending positions hshape hpos p h
    match pending with
    | [] =>
      rw [layoutLoop] at h
      exact hpos p h
    | route :: rest =>
      rcases hshape route (List.mem_cons_self _ _) with hre | hre
      · rw [layoutLoop, if_pos hre] at h
        exact ih rest positions
          (fun r hr => hshape r (List.mem_cons_of_mem _ hr)) hpos p h
      · rw [hre] at h
        simp only [layoutLoop] at h
        rw [if_neg (by simp : ¬ ([s0] : List String) = [])] at h
        have hnoc : ∀ r ∈ rest, ¬ conflictsWith stations
            ([s0].map fun sid =>
              ((lookupA stations sid).map fun st => st.level).getD (-1)) r =
            true := by
          intro r hr
          rcases hshape r (List.mem_cons_of_mem _ hr) with hr0 | hr0 <;>
            · rw [hr0]
              simp [conflictsWith]
        have hconf : rest.filter (conflictsWith stations
            ([s0].map fun sid =>
              ((lookupA stations sid).map fun st => st.level).getD (-1))) =
            [] := by
          rw [List.filter_eq_nil_iff]
          exact hnoc
        have hrem : (rest.filter fun r => ¬ conflictsWith stations
            ([s0].map fun sid =>
              ((lookupA stations sid).map fun st => st.level).getD (-1)) r =
            true) = rest := by
          rw [List.filter_eq_self]
          intro r hr
          simpa using hnoc r hr
        rw [hconf, hrem] at h
        refine ih rest _
          (fun r hr => hshape r (List.mem_cons_of_mem _ hr)) ?_ p h
        exact assignGroup_single hlook hminL positions hpos

theorem calcPositions_single {routes : List (List String)}
    {stations : List (String × StationSnapshot)} {xq topY bottomY b : ℚ}
    {s0 : String} {st0 : StationSnapshot}
    (hlook : lookupA stations s0 = some st0)
    (hfil : (stations.filter fun q => isActiveState q.2.state) = [(s0, st0)])
    (hcnt : ∀ r ∈ routes, List.count s0 r ≤ 1) :
    ∀ p, lookupA (calculateStationPositions routes stations xq topY bottomY b)
      s0 = some p → p = (xq, topY) := by
  intro p hp
  simp only [calculateStationPositions] at hp
  have hlev : activeLevels stations = [st0.level] := by
    unfold activeLevels
    rw [hfil]
    simp [hlook]
  have hmin : listMinI (activeLevels stations) = st0.level := by
    rw [hlev]
    rfl
  have hshape : ∀ r ∈ routes.map (fun r =>
      r.filter fun sid =>
        match lookupA stations sid with
        | some st => isActiveState st.state
        | none => false), r = [] ∨ r = [s0] := by
    intro r hr
    obtain ⟨r0, hr0, rfl⟩ := List.mem_map.1 hr
    have hall : ∀ sid ∈ r0.filter (fun sid =>
        match lookupA stations sid with
        | some st => isActiveState st.state
        | none => false), sid = s0 := by
      intro sid hs
      have hpred := List.of_mem_filter hs
      rcases hl : lookupA stations sid with _ | st
      · rw [hl] at hpred
        cases hpred
      · rw [hl] at hpred
        have hmem : (sid, st) ∈ stations.filter fun q =>
            isActiveState q.2.state :=
          List.mem_filter.2 ⟨lookupA_mem hl, hpred⟩
        rw [hfil] at hmem
        exact congrArg Prod.fst (List.mem_singleton.1 hmem)
    have hlen : (r0.filter (fun sid =>
        match lookupA stations sid with
        | some st => isActiveState st.state
        | none => false)).length ≤ 1 := by
      have hsub : List.Sublist (r0.filter fun sid =>
          match lookupA stations sid with
          | some st => isActiveState st.state
          | none => false) r0 := List.filter_sublist r0
      have h1 := hsub.count_le s0
      have h2 := List.count_eq_length.2 fun bb hb => (hall bb hb).symm
      rw [h2] at h1
      exact h1.trans (hcnt r0 hr0)
    rcases hfr : r0.filter (fun sid =>
        match lookupA stations sid with
        | some st => isActiveState st.state
        | none => false) with _ | ⟨x, xs⟩
    · exact Or.inl rfl
    · right
      rw [hfr] at hlen hall
      match xs, hlen, hall with
      | [], _, hall => rw [hall x (List.mem_cons_self _ _)]
      | y :: ys, hlen, _ => simp at hlen
  exact layoutLoop_single hlook hmin _ _ []
    hshape (fun p h => by cases h) p hp

/-- C6 (amended): every assigned position belongs to an `Open`/`Suspended`
station and its `y` follows the level interpolation: `topY` when the active
level range collapses, and
`topY + (level - minLevel) * (bottomY - topY) / (maxLevel - minLevel)`
otherwise, with the level range taken over the currently active stations.
A line with exactly one active station (each route listing it at most once)
places that station at `(baseX, topY)`; but in a collapsed level range with
SEVERAL active stations, conflicting routes still fan out horizontally, so
the claim's "x equal to the base x" holds only in the single-station case. -/
theorem c6_layout_amended :
    (∀ (routes : List (List String))
      (stations : List (String × StationSnapshot)) (xq topY bottomY b : ℚ)
      (sid : String) (p : ℚ × ℚ),
      lookupA (calculateStationPositions routes stations xq topY bottomY b)
        sid = some p →
      ∃ st, lookupA stations sid = some st ∧ isActiveState st.state = true ∧
        (if listMaxI (activeLevels stations) ≤ listMinI (activeLevels stations)
         then p.2 = topY
         else p.2 = topY +
           ((st.level - listMinI (activeLevels stations) : Int) : ℚ) *
             (bottomY - topY) /
             ((listMaxI (activeLevels stations) -
               listMinI (activeLevels stations) : Int) : ℚ))) ∧
    (∀ (routes : List (List String))
      (stations : List (String × StationSnapshot)) (xq topY bottomY b : ℚ)
      (s0 : String) (st0 : StationSnapshot),
      lookupA stations s0 = some st0 →
      (stations.filter fun q => isActiveState q.2.state) = [(s0, st0)] →
      (∀ r ∈ routes, List.count s0 r ≤ 1) →
      ∀ p, lookupA (calculateStationPositions routes stations xq topY bottomY
        b) s0 = some p → p = (xq, topY)) :=
  ⟨fun _ _ _ _ _ _ _ _ h => calcPositions_sound h,
   fun _ _ _ _ _ _ _ _ hlook hfil hcnt => calcPositions_single hlook hfil hcnt⟩

/-- C6 (counterexample): four `Open` stations all on level 5 — the level
range collapses to a single value — on two conflicting routes: station `S1`
is placed at x = 75, not at the base x = 100, refuting the claim's "x equal
to the base x (zero horizontal offset)" for the collapsed case. -/
theorem c6_counterexample :
    listMinI (activeLevels c6Stations) = listMaxI (activeLevels c6Stations) ∧
    lookupA (calculateStationPositions [["S1", "S2"], ["T1", "T2"]]
      c6Stations 100 50 1030 50) "S1" = some (75, 50) ∧
    ((75 : ℚ), (50 : ℚ)).1 ≠ 100 :=
  ⟨by decide, by with_unfolding_all decide, by with_unfolding_all decide⟩

/-- C6 witness: both clauses of the amended claim at the single-active
station input (`S1` Open at level 3, `S2` Never): `S1` is placed at
`(baseX, topY) = (100, 50)`. -/
theorem c6_witness :
    (∃ st, lookupA c6Single "S1" = some st ∧ isActiveState st.state = true ∧
      (if listMaxI (activeLevels c6Single) ≤ listMinI (activeLevels c6Single)
       then (((100 : ℚ), (50 : ℚ)) : ℚ × ℚ).2 = 50
       else (((100 : ℚ), (50 : ℚ)) : ℚ × ℚ).2 = 50 +
         ((st.level - listMinI (activeLevels c6Single) : Int) : ℚ) *
           (1030 - 50) /
           ((listMaxI (activeLevels c6Single) -
             listMinI (activeLevels c6Single) : Int) : ℚ))) ∧
    (((100 : ℚ), (50 : ℚ)) : ℚ × ℚ) = (100, 50) := by
  constructor
  · exact c6_layout_amended.1 [["S1", "S2"]] c6Single 100 50 1030 50 "S1"
      (100, 50) (by with_unfolding_all decide)
  · exact c6_layout_amended.2 [["S1", "S2"]] c6Single 100 50 1030 50 "S1"
      (StationSnapshot.mk ServiceState.Open 3) (by decide) (by decide)
      (by decide) (100, 50) (by with_unfolding_all decide)

theorem optMapList_eq_none_iff {α β : Type} {f : α → Option β} {l : List α} :
    optMapList f l = none ↔ ∃ a ∈ l, f a = none := by
  induction l with
  | nil => simp [optMapList]
  | cons a t ih =>
    rw [optMapList]
    cases hfa : f a with
    | none =>
      exact ⟨fun _ => ⟨a, List.mem_cons_self _ _, hfa⟩, fun _ => rfl⟩
    | some b =>
      cases ht : optMapList f t with
      | none =>
        constructor
        · intro _
          obtain ⟨a0, ha0, hfa0⟩ := ih.1 ht
          exact ⟨a0, List.mem_cons_of_mem _ ha0, hfa0⟩
        · intro _
          rfl
      | some bs =>
        constructor
        · intro hc
          exact absurd (show (some (b :: bs) : Option (List β)) = none from hc)
            (by simp)
        · rintro ⟨a0, ha0, hfa0⟩
          rcases List.mem_cons.1 ha0 with rfl | ha0
          · rw [hfa0] at hfa
            cases hfa
          · exact absurd (ih.2 ⟨a0, ha0, hfa0⟩) (by rw [ht]; simp)

theorem optMapList_mem {α β : Type} {f : α → Option β} :
    ∀ {l : List α} {out : List β}, optMapList f l = some out →
    ∀ b ∈ out, ∃ a ∈ l, f a = some b := by
  intro l
  induction l with
  | nil =>
    intro out h b hb
    obtain rfl : out = [] := by simpa [optMapList] using h.symm
    cases hb
  | cons a t ih =>
    intro out h b hb
    rw [optMapList] at h
    obtain ⟨b0, hb0, h⟩ := optBind_eq_some h
    obtain ⟨bs, hbs, h⟩ := optBind_eq_some h
    obtain rfl : out = b0 :: bs := by simpa using h.symm
    rcases List.mem_cons.1 hb with rfl | hb
    · exact ⟨a, List.mem_cons_self _ _, hb0⟩
    · obtain ⟨a0, ha0, hfa0⟩ := ih hbs b hb
      exact ⟨a0, List.mem_cons_of_mem _ ha0, hfa0⟩

theorem findSome?_some {α β : Type} {f : α → Option β} :
    ∀ {l : List α} {b : β}, l.findSome? f = some b → ∃ a ∈ l, f a = some b := by
  intro l
  induction l with
  | nil => intro b h; cases h
  | cons a t ih =>
    intro b h
    cases hfa : f a with
    | some b0 =>
      rw [findSome?_cons_some hfa] at h
      exact ⟨a, List.mem_cons_self _ _, hfa.trans h⟩
    | none =>
      rw [findSome?_cons_none hfa] at h
      obtain ⟨a0, ha0, hfa0⟩ := ih h
      exact ⟨a0, List.mem_cons_of_mem _ ha0, hfa0⟩

theorem jsSlice_subset {α : Type} {l : List α} {s e : Nat} {a : α}
    (h : a ∈ jsSlice l s e) : a ∈ l :=
  List.mem_of_mem_drop (List.mem_of_mem_take h)

theorem sameRouteSegment_mem {r : Route} {f t : String} {seg : List String}
    (h : sameRouteSegment r f t = some seg) : ∀ sid ∈ seg, sid ∈ r.stations := by
  unfold sameRouteSegment at h
  cases hf : indexOf? r.stations f with
  | none => rw [hf] at h; cases h
  | some fi =>
    cases ht : indexOf? r.stations t with
    | none => rw [hf, ht] at h; cases h
    | some ti =>
      rw [hf, ht] at h
      intro sid hs
      rw [← Option.some_inj.1 h] at hs
      by_cases hlt : ti < fi
      · rw [if_pos hlt] at hs
        exact jsSlice_subset (List.mem_reverse.1 hs)
      · rw [if_neg hlt] at hs
        exact jsSlice_subset hs

theorem bridgeSegment_mem {routes : List Route} {rA : Route} {fi : Nat}
    {t : String} {seg : List String}
    (h : bridgeSegment routes rA fi t = some seg) (hrA : rA ∈ routes) :
    ∀ sid ∈ seg, ∃ r ∈ routes, sid ∈ r.stations := by
  unfold bridgeSegment at h
  obtain ⟨rB, hrB, hbody⟩ := findSome?_some h
  cases ht : indexOf? rB.stations t with
  | none => rw [ht] at hbody; cases hbody
  | some ti =>
    rw [ht] at hbody
    cases hj : rA.stations.find? (fun sid => rB.stations.contains sid) with
    | none => rw [hj] at hbody; cases hbody
    | some j =>
      rw [hj] at hbody
      intro sid hs
      rw [← Option.some_inj.1 hbody] at hs
      rcases List.mem_append.1 hs with hs | hs
      · rcases List.mem_append.1 hs with hs | hs
        · refine ⟨rA, hrA, ?_⟩
          by_cases hfj : fi < (indexOf? rA.stations j).getD 0 <;>
            [rw [if_pos hfj] at hs; rw [if_neg hfj] at hs] <;>
            exact jsSlice_subset hs
        · obtain rfl : sid = j := by simpa using hs
          exact ⟨rA, hrA, List.mem_of_find?_eq_some hj⟩
      · refine ⟨rB, hrB, ?_⟩
        by_cases htj : ti < (indexOf? rB.stations j).getD 0 <;>
          [rw [if_pos htj] at hs; rw [if_neg htj] at hs] <;>
          exact jsSlice_subset hs

theorem extractRouteStations_mem {routes : List Route} {f t : String}
    {seg : List String} (h : extractRouteStations routes f t = some seg) :
    ∀ sid ∈ seg, ∃ r ∈ routes, sid ∈ r.stations := by
  unfold extractRouteStations at h
  cases h1 : routes.findSome? (fun r => sameRouteSegment r f t) with
  | some seg0 =>
    rw [h1] at h
    obtain ⟨r, hr, hseg⟩ := findSome?_some h1
    obtain rfl : seg0 = seg := by simpa using h
    exact fun sid hs => ⟨r, hr, sameRouteSegment_mem hseg sid hs⟩
  | none =>
    rw [h1] at h
    obtain ⟨rA, hrA, hbody⟩ := findSome?_some h
    cases hfA : indexOf? rA.stations f with
    | none => rw [hfA] at hbody; cases hbody
    | some fi =>
      rw [hfA] at hbody
      exact bridgeSegment_mem hbody hrA

theorem extract_eq_none_iff {routes : List Route} {f t : String} :
    extractRouteStations routes f t = none ↔ ¬ Bridgeable routes f t := by
  constructor
  · intro hnone hbr
    obtain ⟨rA, hrA, rB, hrB, hf, ht, j, hjA, hjB⟩ := hbr
    unfold extractRouteStations at hnone
    cases h1 : routes.findSome? (fun r => sameRouteSegment r f t) with
    | some seg => rw [h1] at hnone; cases hnone
    | none =>
      rw [h1] at hnone
      have h2 := List.findSome?_eq_none_iff.1 hnone rA hrA
      obtain ⟨fi, hfi⟩ := Option.isSome_iff_exists.1 (indexOf?_isSome.2 hf)
      rw [hfi] at h2
      have h3 := List.findSome?_eq_none_iff.1 h2 rB hrB
      obtain ⟨ti, hti⟩ := Option.isSome_iff_exists.1 (indexOf?_isSome.2 ht)
      rw [hti] at h3
      cases hj : rA.stations.find? (fun sid => rB.stations.contains sid) with
      | some j0 => rw [hj] at h3; cases h3
      | none =>
        have := List.find?_eq_none.1 hj j hjA
        exact this (by simpa using hjB)
  · intro hnb
    unfold extractRouteStations
    have h1 : routes.findSome? (fun r => sameRouteSegment r f t) = none := by
      rw [List.findSome?_eq_none_iff]
      intro r hr
      rcases hs : sameRouteSegment r f t with _ | seg
      · rfl
      · exfalso
        have hmem := mem_of_sameRouteSegment_isSome (r := r) (f := f) (t := t)
          (by simp [hs])
        exact hnb ⟨r, hr, r, hr, hmem.1, hmem.2, f, hmem.1, hmem.1⟩
    rw [h1]
    rw [List.findSome?_eq_none_iff]
    intro rA hrA
    cases hfA : indexOf? rA.stations f with
    | none => rfl
    | some fi =>
      unfold bridgeSegment
      rw [List.findSome?_eq_none_iff]
      intro rB hrB
      cases htB : indexOf? rB.stations t with
      | none => rfl
      | some ti =>
        cases hj : rA.stations.find? (fun sid => rB.stations.contains sid) with
        | none => rfl
        | some j =>
          exfalso
          have hjA := List.mem_of_find?_eq_some hj
          have hjB : j ∈ rB.stations := by
            have := List.find?_some hj
            simpa using this
          have hfm : f ∈ rA.stations := indexOf?_isSome.1 (by simp [hfA])
          have htm : t ∈ rB.stations := indexOf?_isSome.1 (by simp [htB])
          exact hnb ⟨rA, hrA, rB, hrB, hfm, htm, j, hjA, hjB⟩

theorem head?_memA {α : Type} : ∀ {l : List α} {a : α}, l.head? = some a → a ∈ l := by
  intro l a h
  cases l with
  | nil => cases h
  | cons x t =>
    obtain rfl : a = x := by simpa using h.symm
    exact List.mem_cons_self _ _

theorem getLast?_memA {α : Type} : ∀ {l : List α} {a : α},
    l.getLast? = some a → a ∈ l := by
  intro l
  induction l with
  | nil => intro a h; cases h
  | cons x t ih =>
    intro a h
    cases t with
    | nil =>
      obtain rfl : a = x := by simpa using h.symm
      exact List.mem_cons_self _ _
    | cons y s =>
      rw [List.getLast?_cons_cons] at h
      exact List.mem_cons_of_mem _ (ih h)


theorem bind_some_eq {α β : Type} (a : α) (f : α → Option β) :
    (some a >>= f) = f a := rfl

theorem bind_none_eq {α β : Type} (f : α → Option β) :
    ((none : Option α) >>= f) = none := rfl

theorem pure_bind_eq {α β : Type} (a : α) (f : α → Option β) :
    ((pure a : Option α) >>= f) = f a := rfl

theorem pure_ne_noneO {α : Type} (a : α) : (pure a : Option α) ≠ none :=
  fun h => Option.noConfusion h

theorem isEndpoint_isSome {line : LineState} {sidO : Option String}
    (hmem : ∀ sid, sidO = some sid → (lookupA line.stations sid).isSome) :
    (isEndpoint line sidO).isSome := by
  cases sidO with
  | none => rfl
  | some sid =>
    obtain ⟨st, hst⟩ := Option.isSome_iff_exists.1 (hmem sid rfl)
    simp [isEndpoint, hst]

theorem getStationId_isSome_of_wf {line : LineState} {name sid : String}
    (hwf : WFLine line) (h : getStationId line name = some sid) :
    (lookupA line.stations sid).isSome :=
  hwf.2 (name, sid) (lookupA_mem h)

theorem extract_mem_isSome {line : LineState} {fid tid : String}
    {seg : List String} (hwf : WFLine line)
    (h : extractRouteStations line.routes fid tid = some seg) :
    ∀ sid ∈ seg, (lookupA line.stations sid).isSome := by
  intro sid hs
  obtain ⟨r, hr, hmem⟩ := extractRouteStations_mem h sid hs
  exact hwf.1 r hr sid hmem

theorem resolveOperated_eq_none_iff {line : LineState} {spec : StationsSpec}
    (hwf : WFLine line) :
    resolveOperatedStations line spec = none ↔ SpecError line spec := by
  cases spec with
  | names ns =>
    simp only [resolveOperatedStations, SpecError]
    cases hm : optMapList (getStationId line) ns with
    | none =>
      rw [bind_none_eq]
      exact ⟨fun _ => optMapList_eq_none_iff.1 hm, fun _ => rfl⟩
    | some ids =>
      rw [bind_some_eq]
      constructor
      · intro hc
        exact absurd hc (pure_ne_noneO _)
      · intro hex
        have hn := optMapList_eq_none_iff.2 hex
        rw [hm] at hn
        exact Option.noConfusion hn
  | range f t exc =>
    cases exc with
    | none =>
      simp only [resolveOperatedStations, SpecError]
      cases hf : getStationId line f with
      | none =>
        rw [bind_none_eq]
        exact ⟨fun _ => Or.inl rfl, fun _ => rfl⟩
      | some fid =>
        rw [bind_some_eq]
        cases ht : getStationId line t with
        | none =>
          rw [bind_none_eq]
          exact ⟨fun _ => Or.inr (Or.inl rfl), fun _ => rfl⟩
        | some tid =>
          rw [bind_some_eq]
          cases hx : extractRouteStations line.routes fid tid with
          | none =>
            rw [bind_none_eq]
            exact ⟨fun _ => Or.inr (Or.inr (Or.inl
                ⟨fid, tid, rfl, rfl, extract_eq_none_iff.1 hx⟩)),
              fun _ => rfl⟩
          | some segment =>
            rw [bind_some_eq]
            have hsegmem := extract_mem_isSome hwf hx
            obtain ⟨e0, he0⟩ := Option.isSome_iff_exists.1
              (@isEndpoint_isSome line segment.head?
                fun sid hs => hsegmem sid (head?_memA hs))
            rw [he0, bind_some_eq]
            have hsubmem : ∀ sid ∈ (if e0 then segment else segment.drop 1),
                (lookupA line.stations sid).isSome := by
              intro sid hs
              by_cases he : e0 = true
              · rw [if_pos he] at hs
                exact hsegmem sid hs
              · rw [if_neg he] at hs
                exact hsegmem sid (List.mem_of_mem_drop hs)
            obtain ⟨e1, he1⟩ := Option.isSome_iff_exists.1
              (@isEndpoint_isSome line
                (if e0 then segment else segment.drop 1).getLast?
                fun sid hs => hsubmem sid (getLast?_memA hs))
            rw [he1, bind_some_eq]
            constructor
            · intro hc
              exact absurd hc (pure_ne_noneO _)
            · rintro (hc | hc | ⟨fid', tid', hf', ht', hnb⟩ |
                ⟨exNames, hexn, _⟩)
              · exact Option.noConfusion hc
              · exact Option.noConfusion hc
              · obtain rfl : fid' = fid := (Option.some_inj.1 hf').symm
                obtain rfl : tid' = tid := (Option.some_inj.1 ht').symm
                have hn := extract_eq_none_iff.2 hnb
                rw [hx] at hn
                exact Option.noConfusion hn
              · exact Option.noConfusion hexn
    | some exNames =>
      simp only [resolveOperatedStations, SpecError]
      cases hf : getStationId line f with
      | none =>
        rw [bind_none_eq]
        exact ⟨fun _ => Or.inl rfl, fun _ => rfl⟩
      | some fid =>
        rw [bind_some_eq]
        cases ht : getStationId line t with
        | none =>
          rw [bind_none_eq]
          exact ⟨fun _ => Or.inr (Or.inl rfl), fun _ => rfl⟩
        | some tid =>
          rw [bind_some_eq]
          cases hx : extractRouteStations line.routes fid tid with
          | none =>
            rw [bind_none_eq]
            exact ⟨fun _ => Or.inr (Or.inr (Or.inl
                ⟨fid, tid, rfl, rfl, extract_eq_none_iff.1 hx⟩)),
              fun _ => rfl⟩
          | some segment =>
            rw [bind_some_eq]
            have hsegmem := extract_mem_isSome hwf hx
            obtain ⟨e0, he0⟩ := Option.isSome_iff_exists.1
              (@isEndpoint_isSome line segment.head?
                fun sid hs => hsegmem sid (head?_memA hs))
            rw [he0, bind_some_eq]
            have hsubmem : ∀ sid ∈ (if e0 then segment else segment.drop 1),
                (lookupA line.stations sid).isSome := by
              intro sid hs
              by_cases he : e0 = true
              · rw [if_pos he] at hs
                exact hsegmem sid hs
              · rw [if_neg he] at hs
                exact hsegmem sid (List.mem_of_mem_drop hs)
            obtain ⟨e1, he1⟩ := Option.isSome_iff_exists.1
              (@isEndpoint_isSome line
                (if e0 then segment else segment.drop 1).getLast?
                fun sid hs => hsubmem sid (getLast?_memA hs))
            rw [he1, bind_some_eq]
            cases hme : optMapList (getStationId line) exNames with
            | none =>
              rw [bind_none_eq]
              exact ⟨fun _ => Or.inr (Or.inr (Or.inr
                  ⟨exNames, rfl, optMapList_eq_none_iff.1 hme⟩)),
                fun _ => rfl⟩
            | some exIds =>
              rw [bind_some_eq]
              constructor
              · intro hc
                exact absurd hc (pure_ne_noneO _)
              · rintro (hc | hc | ⟨fid', tid', hf', ht', hnb⟩ |
                  ⟨exNames', hexn, hbad⟩)
                · exact Option.noConfusion hc
                · exact Option.noConfusion hc
                · obtain rfl : fid' = fid := (Option.some_inj.1 hf').symm
                  obtain rfl : tid' = tid := (Option.some_inj.1 ht').symm
                  have hn := extract_eq_none_iff.2 hnb
                  rw [hx] at hn
                  exact Option.noConfusion hn
                · obtain rfl : exNames' = exNames :=
                    (Option.some_inj.1 hexn).symm
                  have hn := optMapList_eq_none_iff.2 hbad
                  rw [hme] at hn
                  exact Option.noConfusion hn

theorem lookupA_updateA_isSome {α : Type} (l : List (String × α))
    (k k' : String) (f : α → α) :
    (lookupA (updateA l k f) k').isSome = (lookupA l k').isSome := by
  rw [lookupA_updateA]
  by_cases h : k' = k
  · rw [if_pos h]
    cases lookupA l k' <;> rfl
  · rw [if_neg h]

theorem resolveOperated_some_isSome {line : LineState} {spec : StationsSpec}
    {r : Resolved} (hwf : WFLine line)
    (h : resolveOperatedStations line spec = some r) :
    (∀ sid ∈ r.subset, (lookupA line.stations sid).isSome) ∧
    (∀ sid ∈ r.segment, (lookupA line.stations sid).isSome) := by
  cases spec with
  | names ns =>
    simp only [resolveOperatedStations] at h
    obtain ⟨ids, hm, hr⟩ := optBind_eq_some h
    obtain rfl : r = { segment := ids, subset := ids } :=
      (Option.some_inj.1 hr).symm
    have hmem : ∀ sid ∈ ids, (lookupA line.stations sid).isSome := by
      intro sid hs
      obtain ⟨n, _, hg⟩ := optMapList_mem hm sid hs
      exact getStationId_isSome_of_wf hwf hg
    exact ⟨hmem, hmem⟩
  | range f t exc =>
    simp only [resolveOperatedStations] at h
    obtain ⟨fid, hf, h⟩ := optBind_eq_some h
    obtain ⟨tid, ht, h⟩ := optBind_eq_some h
    obtain ⟨segment, hx, h⟩ := optBind_eq_some h
    obtain ⟨e0, he0, h⟩ := optBind_eq_some h
    obtain ⟨e1, he1, h⟩ := optBind_eq_some h
    have hsegmem := extract_mem_isSome hwf hx
    have hsub1 : ∀ sid ∈ (if e0 then segment else segment.drop 1),
        (lookupA line.stations sid).isSome := by
      intro sid hs
      by_cases he : e0 = true
      · rw [if_pos he] at hs
        exact hsegmem sid hs
      · rw [if_neg he] at hs
        exact hsegmem sid (List.mem_of_mem_drop hs)
    have hsub2 : ∀ sid ∈ (if e1 then (if e0 then segment else segment.drop 1)
        else (if e0 then segment else segment.drop 1).drop 1),
        (lookupA line.stations sid).isSome := by
      intro sid hs
      by_cases he : e1 = true
      · rw [if_pos he] at hs
        exact hsub1 sid hs
      · rw [if_neg he] at hs
        exact hsub1 sid (List.mem_of_mem_drop hs)
    cases exc with
    | none =>
      obtain rfl :
          r = { segment := segment,
                subset :=
                  if e1 then (if e0 then segment else segment.drop 1)
                  else (if e0 then segment else segment.drop 1).drop 1 } :=
        (Option.some_inj.1 h).symm
      exact ⟨hsub2, hsegmem⟩
    | some exNames =>
      obtain ⟨exIds, hme, h⟩ := optBind_eq_some h
      obtain rfl :
          r = { segment := segment,
                subset :=
                  (if e1 then (if e0 then segment else segment.drop 1)
                    else (if e0 then segment else segment.drop 1).drop 1).filter
                    fun s => ¬ exIds.contains s } :=
        (Option.some_inj.1 h).symm
      refine ⟨fun sid hs => hsub2 sid (List.mem_of_mem_filter hs), hsegmem⟩

theorem setStationState_some {l : LineState} {sid : String} {s : ServiceState}
    (h : (lookupA l.stations sid).isSome) :
    setStationState l sid s =
      some { l with stations := updateA l.stations sid fun st => { st with state := s } } := by
  obtain ⟨st, hst⟩ := Option.isSome_iff_exists.1 h
  unfold setStationState
  rw [hst]

theorem setEdgeState_some {l : LineState} {sid : String} {s : ServiceState}
    (h : (lookupA l.stations sid).isSome) :
    setEdgeState l sid s =
      some { l with stations := updateA l.stations sid fun st => { st with node := { st.node with edgeState := some s } } } := by
  obtain ⟨st, hst⟩ := Option.isSome_iff_exists.1 h
  unfold setEdgeState
  rw [hst]

theorem foldl_setStation_some {s : ServiceState} :
    ∀ {targets : List String} {l : LineState},
    (∀ sid ∈ targets, (lookupA l.stations sid).isSome) →
    ∃ l', targets.foldlM (fun l sid => setStationState l sid s) l = some l' ∧
      ∀ k, (lookupA l'.stations k).isSome = (lookupA l.stations k).isSome := by
  intro targets
  induction targets with
  | nil => exact fun _ => ⟨_, rfl, fun _ => rfl⟩
  | cons x xs ih =>
    intro l hmem
    have hset := setStationState_some
      (s := s) (hmem x (List.mem_cons_self _ _))
    have hkeys : ∀ k, (lookupA (updateA l.stations x
        fun st => { st with state := s }) k).isSome =
        (lookupA l.stations k).isSome :=
      fun k => lookupA_updateA_isSome l.stations x k _
    have hmem' : ∀ sid ∈ xs, (lookupA (updateA l.stations x
        fun st => { st with state := s }) sid).isSome := by
      intro sid hs
      rw [hkeys sid]
      exact hmem sid (List.mem_cons_of_mem _ hs)
    obtain ⟨l', hfold, hkeys'⟩ :=
      ih (l := { l with stations := updateA l.stations x fun st => { st with state := s } }) hmem'
    refine ⟨l', ?_, fun k => (hkeys' k).trans (hkeys k)⟩
    rw [List.foldlM_cons, hset, bind_some_eq, hfold]

theorem foldl_setEdge_some {s : ServiceState} :
    ∀ {targets : List String} {l : LineState},
    (∀ sid ∈ targets, (lookupA l.stations sid).isSome) →
    ∃ l', targets.foldlM (fun l sid => setEdgeState l sid s) l = some l' ∧
      ∀ k, (lookupA l'.stations k).isSome = (lookupA l.stations k).isSome := by
  intro targets
  induction targets with
  | nil => exact fun _ => ⟨_, rfl, fun _ => rfl⟩
  | cons x xs ih =>
    intro l hmem
    have hset := setEdgeState_some
      (s := s) (hmem x (List.mem_cons_self _ _))
    have hkeys : ∀ k, (lookupA (updateA l.stations x
        fun st => { st with node := { st.node with edgeState := some s } })
        k).isSome = (lookupA l.stations k).isSome :=
      fun k => lookupA_updateA_isSome l.stations x k _
    have hmem' : ∀ sid ∈ xs, (lookupA (updateA l.stations x
        fun st => { st with node := { st.node with edgeState := some s } })
        sid).isSome := by
      intro sid hs
      rw [hkeys sid]
      exact hmem sid (List.mem_cons_of_mem _ hs)
    obtain ⟨l', hfold, hkeys'⟩ :=
      ih (l := { l with stations := updateA l.stations x fun st => { st with node := { st.node with edgeState := some s } } }) hmem'
    refine ⟨l', ?_, fun k => (hkeys' k).trans (hkeys k)⟩
    rw [List.foldlM_cons, hset, bind_some_eq, hfold]

theorem updateStates_some {line : LineState} {targets segment : List String}
    {s : ServiceState}
    (h1 : ∀ sid ∈ targets, (lookupA line.stations sid).isSome)
    (h2 : ∀ sid ∈ segment, (lookupA line.stations sid).isSome) :
    ∃ l', updateStates line targets segment s = some l' ∧
      ∀ k, (lookupA l'.stations k).isSome =
        (lookupA line.stations k).isSome := by
  obtain ⟨l1, hf1, hk1⟩ := foldl_setStation_some (s := s) h1
  have h2' : ∀ sid ∈ segment.drop 1, (lookupA l1.stations sid).isSome := by
    intro sid hs
    rw [hk1 sid]
    exact h2 sid (List.mem_of_mem_drop hs)
  obtain ⟨l2, hf2, hk2⟩ := foldl_setEdge_some (s := s) h2'
  refine ⟨l2, ?_, fun k => (hk2 k).trans (hk1 k)⟩
  simp only [updateStates]
  rw [hf1, bind_some_eq, hf2]

theorem applyEventLine_eq_none_iff {line : LineState} {e : EventRecord}
    (hwf : WFLine line) :
    applyEventLine line e = none ↔
      (SpecError line e.stations ∨
        (parseEvent e.type = ServiceState.Open ∧
          ∃ fs, e.fullStations = some fs ∧ SpecError line fs)) := by
  simp only [applyEventLine]
  cases hr : resolveOperatedStations line e.stations with
  | none =>
    rw [bind_none_eq]
    exact ⟨fun _ => Or.inl ((resolveOperated_eq_none_iff hwf).1 hr),
      fun _ => rfl⟩
  | some r =>
    rw [bind_some_eq]
    have hres := resolveOperated_some_isSome hwf hr
    by_cases hp : parseEvent e.type = ServiceState.Open
    · rcases Option.eq_none_or_eq_some e.fullStations with hfs | ⟨fs, hfs⟩
      · simp only [if_pos hp, hfs]
        rw [pure_bind_eq]
        obtain ⟨l1, hu, hk⟩ := updateStates_some hres.1 hres.2
        rw [hu, bind_some_eq]
        constructor
        · intro hc
          exact absurd hc (pure_ne_noneO _)
        · rintro (hspec | ⟨hp', fs, hfs', hserr⟩)
          · have hn := (resolveOperated_eq_none_iff hwf).2 hspec
            rw [hr] at hn
            exact Option.noConfusion hn
          · exact Option.noConfusion hfs'
      · simp only [if_pos hp, hfs]
        cases hrf : resolveOperatedStations line fs with
        | none =>
          exact ⟨fun _ => Or.inr ⟨hp, fs, rfl,
              (resolveOperated_eq_none_iff hwf).1 hrf⟩,
            fun _ => rfl⟩
        | some rf =>
          rw [bind_some_eq]
          have hresf := resolveOperated_some_isSome hwf hrf
          obtain ⟨l1, hu1, hk1⟩ := updateStates_some hresf.1 hresf.2
          rw [hu1, bind_some_eq]
          obtain ⟨l2, hu2, hk2⟩ := updateStates_some
            (fun sid hs => by
              rw [hk1 sid]
              exact hres.1 sid hs)
            (fun sid hs => by
              rw [hk1 sid]
              exact hres.2 sid hs)
          rw [hu2, bind_some_eq]
          constructor
          · intro hc
            exact absurd hc (pure_ne_noneO _)
          · rintro (hspec | ⟨hp', fs', hfs', hserr⟩)
            · have hn := (resolveOperated_eq_none_iff hwf).2 hspec
              rw [hr] at hn
              exact Option.noConfusion hn
            · obtain rfl : fs' = fs := (Option.some_inj.1 hfs').symm
              have hn := (resolveOperated_eq_none_iff hwf).2 hserr
              rw [hrf] at hn
              exact Option.noConfusion hn
    · simp only [if_neg hp]
      rw [pure_bind_eq]
      obtain ⟨l1, hu, hk⟩ := updateStates_some hres.1 hres.2
      rw [hu, bind_some_eq]
      constructor
      · intro hc
        exact absurd hc (pure_ne_noneO _)
      · rintro (hspec | ⟨hp', _, _, _⟩)
        · have hn := (resolveOperated_eq_none_iff hwf).2 hspec
          rw [hr] at hn
          exact Option.noConfusion hn
        · exact absurd hp' hp

/-- C8: under structural well-formedness of the model's lines, `applyEvent`
fails (throws, embedded as `none`) exactly when the event's line id is
unknown, its station spec (or, for an opening event, its `fullStations`
spec) names an unknown station, or its range endpoints lie on routes with
no shared junction; for well-formed events it never fails. -/
theorem c8_apply_event_errors {m : MetroModel} {e : EventRecord}
    (hwf : WFModel m) :
    applyEvent m e = none ↔ EventError m e := by
  simp only [applyEvent, EventError]
  cases hl : lookupA m.lines e.line with
  | none =>
    rw [bind_none_eq]
    exact ⟨fun _ => trivial, fun _ => rfl⟩
  | some line =>
    rw [bind_some_eq]
    have hwfl : WFLine line := hwf (e.line, line) (lookupA_mem hl)
    cases hae : applyEventLine line e with
    | none =>
      rw [bind_none_eq]
      exact ⟨fun _ => (applyEventLine_eq_none_iff hwfl).1 hae, fun _ => rfl⟩
    | some line' =>
      rw [bind_some_eq]
      constructor
      · intro hc
        exact absurd hc (pure_ne_noneO _)
      · intro herr
        have hn := (applyEventLine_eq_none_iff hwfl).2 herr
        rw [hae] at hn
        exact Option.noConfusion hn

/-- C8 witness: the freshly built demo model is well-formed, so the error
characterization applies to it concretely. -/
theorem c8_witness :
    WFModel c8Model ∧
    (applyEvent c8Model c8BadEvent = none ↔ EventError c8Model c8BadEvent) :=
  ⟨by unfold WFModel WFLine; decide,
    c8_apply_event_errors (by unfold WFModel WFLine; decide)⟩

theorem reconstructAt_append_le {α : Type} {s : List (Nat × α)} {j d : Nat}
    {v : α} (h : j ≤ d) :
    reconstructAt (s ++ [(j, v)]) d = some v := by
  unfold reconstructAt
  rw [List.filter_append]
  have : List.filter (fun p => decide (p.1 ≤ d)) [(j, v)] = [(j, v)] := by
    simp [List.filter, h]
  rw [this, List.getLast?_concat]
  rfl

theorem reconstructAt_append_gt {α : Type} {s : List (Nat × α)} {j d : Nat}
    {v : α} (h : ¬ j ≤ d) :
    reconstructAt (s ++ [(j, v)]) d = reconstructAt s d := by
  unfold reconstructAt
  rw [List.filter_append]
  have : List.filter (fun p => decide (p.1 ≤ d)) [(j, v)] = [] := by
    simp [List.filter, h]
  rw [this, List.append_nil]

theorem reconstructAt_all_le {α : Type} {s : List (Nat × α)} {d : Nat}
    (h : ∀ p ∈ s, p.1 ≤ d) :
    reconstructAt s d = s.getLast?.map Prod.snd := by
  unfold reconstructAt
  rw [List.filter_eq_self.2 fun p hp => decide_eq_true (h p hp)]

theorem lastObs_nil {α : Type} (dflt : Option α) : lastObs dflt [] = dflt := rfl

theorem lastObs_cons {α : Type} (dflt : Option α) (v : Option α)
    (l : List (Option α)) :
    lastObs dflt (v :: l) =
      lastObs (match v with | some x => some x | none => dflt) l := rfl

theorem pushOpt_fst {α : Type} [DecidableEq α] (t : Option α)
    (s : List (Nat × α)) (i : Nat) (v : Option α) :
    (pushOpt t s i v).1 = match v with | some x => some x | none => t := by
  cases v with
  | none => rfl
  | some x =>
    show (if t = some x then (t, s) else
      (some x, s ++ [(i, x)])).1 = some x
    by_cases h : t = some x
    · rw [if_pos h]
      exact h
    · rw [if_neg h]

theorem trackFold_spec {α : Type} [DecidableEq α] :
    ∀ (obs : List (Option α)) (t : Option α) (s : List (Nat × α)) (i : Nat),
    (∀ p ∈ s, p.1 < i) →
    t = s.getLast?.map Prod.snd →
    (∀ p ∈ (trackFold (t, s) i obs).2, p.1 < i + obs.length) ∧
    (trackFold (t, s) i obs).1 =
      (trackFold (t, s) i obs).2.getLast?.map Prod.snd ∧
    (∀ d, i ≤ d + 1 →
      reconstructAt (trackFold (t, s) i obs).2 d =
        lastObs t (obs.take (d + 1 - i))) ∧
    (∀ d, d + 1 ≤ i →
      reconstructAt (trackFold (t, s) i obs).2 d = reconstructAt s d) := by
  intro obs
  induction obs with
  | nil =>
    intro t s i hb hl
    refine ⟨fun p hp => Nat.lt_of_lt_of_le (hb p hp) (Nat.le_add_right _ _),
      hl, fun d hd => ?_, fun d _ => rfl⟩
    rw [List.take_nil, lastObs_nil]
    show reconstructAt s d = t
    rw [hl]
    exact reconstructAt_all_le fun p hp =>
      Nat.le_of_lt_succ (Nat.lt_of_lt_of_le (hb p hp) hd)
  | cons v vs ih =>
    intro t s i hb hl
    have hstep : trackFold (t, s) i (v :: vs) =
        trackFold (pushOpt t s i v) (i + 1) vs := rfl
    have hb' : ∀ p ∈ (pushOpt t s i v).2, p.1 < i + 1 := by
      intro p hp
      cases v with
      | none => exact Nat.lt_succ_of_lt (hb p hp)
      | some x =>
        by_cases h : t = some x
        · exact Nat.lt_succ_of_lt (hb p
            (by simpa [pushOpt, if_pos h] using hp))
        · have hp' : p ∈ s ∨ p = (i, x) := by
            simpa [pushOpt, if_neg h] using hp
          rcases hp' with hmem | rfl
          · exact Nat.lt_succ_of_lt (hb p hmem)
          · exact Nat.lt_succ_self i
    have hl' : (pushOpt t s i v).1 =
        (pushOpt t s i v).2.getLast?.map Prod.snd := by
      cases v with
      | none => exact hl
      | some x =>
        by_cases h : t = some x
        · simpa [pushOpt, if_pos h] using hl
        · simp [pushOpt, if_neg h, List.getLast?_concat]
    obtain ⟨ih1, ih2, ih3, ih4⟩ :=
      ih (pushOpt t s i v).1 (pushOpt t s i v).2 (i + 1) hb' hl'
    rw [hstep]
    have hcast : trackFold (pushOpt t s i v) (i + 1) vs =
        trackFold ((pushOpt t s i v).1, (pushOpt t s i v).2) (i + 1) vs := by
      rw [Prod.mk.eta]
    rw [hcast]
    refine ⟨fun p hp => ?_, ih2, fun d hd => ?_, fun d hd => ?_⟩
    · have h := ih1 p hp
      simp only [List.length_cons]
      omega
    · by_cases hdi : i ≤ d
      · have h3 := ih3 d (by omega)
        rw [h3]
        have htake : (v :: vs).take (d + 1 - i) = v :: vs.take (d - i) := by
          have : d + 1 - i = (d - i) + 1 := by omega
          rw [this, List.take_succ_cons]
        rw [htake, lastObs_cons]
        have : d + 1 - (i + 1) = d - i := by omega
        rw [this]
        rw [pushOpt_fst]
      · have hdi2 : d + 1 = i := by omega
        have h4 := ih4 d (by omega)
        rw [h4]
        have htake : (v :: vs).take (d + 1 - i) = [] := by
          have : d + 1 - i = 0 := by omega
          rw [this, List.take_zero]
        rw [htake, lastObs_nil]
        have hrec : reconstructAt (pushOpt t s i v).2 d = reconstructAt s d := by
          cases v with
          | none => rfl
          | some x =>
            by_cases h : t = some x
            · simp [pushOpt, if_pos h]
            · show reconstructAt (if t = some x then (t, s) else
                (some x, s ++ [(i, x)])).2 d = reconstructAt s d
              rw [if_neg h]
              exact reconstructAt_append_gt (by omega)
        rw [hrec, hl]
        exact reconstructAt_all_le fun p hp => by
          have := hb p hp
          omega
    · have h4 := ih4 d (by omega)
      rw [h4]
      cases v with
      | none => rfl
      | some x =>
        by_cases h : t = some x
        · simp [pushOpt, if_pos h]
        · show reconstructAt (if t = some x then (t, s) else
            (some x, s ++ [(i, x)])).2 d = reconstructAt s d
          rw [if_neg h]
          exact reconstructAt_append_gt (by omega)

theorem trackFold_append {α : Type} [DecidableEq α] :
    ∀ (l : List (Option α)) (start : Option α × List (Nat × α)) (i : Nat)
    (v : Option α),
    trackFold start i (l ++ [v]) =
      pushOpt (trackFold start i l).1 (trackFold start i l).2
        (i + l.length) v := by
  intro l
  induction l with
  | nil =>
    intro start i v
    obtain ⟨t, s⟩ := start
    rfl
  | cons x xs ih =>
    intro start i v
    show trackFold (pushOpt start.1 start.2 i x) (i + 1) (xs ++ [v]) = _
    rw [ih]
    have harith : i + 1 + xs.length = i + (x :: xs).length := by
      simp only [List.length_cons]
      omega
    rw [harith]
    rfl

theorem trackFold_reconstruct {α : Type} [DecidableEq α]
    (obs : List (Option α)) (d : Nat) :
    reconstructAt (trackFold ((none : Option α), ([] : List (Nat × α)))
      0 obs).2 d = lastObs none (obs.take (d + 1)) := by
  have h := (trackFold_spec obs none [] 0 (by simp) rfl).2.2.1 d
    (by omega)
  simpa using h

theorem lastObs_concat {α : Type} (dflt : Option α) (l : List (Option α))
    (v : Option α) :
    lastObs dflt (l ++ [v]) =
      match v with | some x => some x | none => lastObs dflt l := by
  induction l generalizing dflt with
  | nil => cases v <;> rfl
  | cons x xs ih =>
    rw [List.cons_append, lastObs_cons, lastObs_cons, ih]

theorem lastObs_take_last {α : Type} {obs : List (Option α)} {d : Nat}
    {v : Option α} (h : obs.get? d = some v) :
    lastObs none (obs.take (d + 1)) =
      match v with | some x => some x | none => lastObs none (obs.take d) := by
  have h' : obs[d]? = some v := by
    rw [← List.get?_eq_getElem?]
    exact h
  rw [List.take_succ, h']
  cases v with
  | some x => simpa [Option.toList] using lastObs_concat none (obs.take d) (some x)
  | none => simpa [Option.toList] using lastObs_concat none (obs.take d) none

theorem foldlM_pres {α β γ : Type} {step : β → α → Option β} {g : β → γ}
    (hstep : ∀ b a b', step b a = some b' → g b' = g b) :
    ∀ (l : List α) (b b' : β), l.foldlM step b = some b' → g b' = g b := by
  intro l
  induction l with
  | nil =>
    intro b b' h
    obtain rfl : b = b' := by simpa using h
    rfl
  | cons x xs ih =>
    intro b b' h
    rw [List.foldlM_cons] at h
    obtain ⟨mid, hmid, hrest⟩ := optBind_eq_some h
    exact (ih mid b' hrest).trans (hstep b x mid hmid)

theorem lookupA_map_snd {α β : Type} (g : α → β) :
    ∀ (l : List (String × α)) (k : String),
    lookupA (l.map fun p => (p.1, g p.2)) k = (lookupA l k).map g := by
  intro l
  induction l with
  | nil => intro k; rfl
  | cons p t ih =>
    intro k
    obtain ⟨a, b⟩ := p
    show (if a = k then some (g b) else lookupA _ k) = _
    by_cases h : a = k
    · rw [if_pos h]
      show _ = (if a = k then some b else lookupA t k).map g
      rw [if_pos h]
      rfl
    · rw [if_neg h]
      show _ = (if a = k then some b else lookupA t k).map g
      rw [if_neg h]
      exact ih k

theorem filterMap_get?_all_some {α β : Type} {f : α → Option β} :
    ∀ {l : List α}, (∀ x ∈ l, (f x).isSome) →
    (l.filterMap f).length = l.length ∧
    ∀ d, (l.filterMap f).get? d = (l.get? d).bind f := by
  intro l
  induction l with
  | nil => exact fun _ => ⟨rfl, fun d => by cases d <;> rfl⟩
  | cons x xs ih =>
    intro h
    obtain ⟨b, hb⟩ := Option.isSome_iff_exists.1 (h x (List.mem_cons_self _ _))
    obtain ⟨ihl, ihg⟩ := ih fun y hy => h y (List.mem_cons_of_mem _ hy)
    rw [List.filterMap_cons, hb]
    refine ⟨by simp [ihl], fun d => ?_⟩
    cases d with
    | zero => simp [hb]
    | succ d => simpa using ihg d

theorem setStationState_keys {l l' : LineState} {sid : String}
    {s : ServiceState} (h : setStationState l sid s = some l') :
    keysOf l'.stations = keysOf l.stations := by
  obtain ⟨-, rfl⟩ := setStationState_eq_some h
  exact keysOf_updateA _ _ _

theorem setEdgeState_keys {l l' : LineState} {sid : String}
    {s : ServiceState} (h : setEdgeState l sid s = some l') :
    keysOf l'.stations = keysOf l.stations := by
  obtain ⟨-, rfl⟩ := setEdgeState_eq_some h
  exact keysOf_updateA _ _ _

theorem updateStates_keys {l l' : LineState} {targets segment : List String}
    {s : ServiceState} (h : updateStates l targets segment s = some l') :
    keysOf l'.stations = keysOf l.stations := by
  unfold updateStates at h
  obtain ⟨m, hm, hrest⟩ := optBind_eq_some h
  have h1 := foldlM_pres (g := fun l : LineState => keysOf l.stations)
    (fun b a b' hb => setStationState_keys hb) targets l m hm
  have h2 := foldlM_pres (g := fun l : LineState => keysOf l.stations)
    (fun b a b' hb => setEdgeState_keys hb) (segment.drop 1) m l' hrest
  exact h2.trans h1

theorem applyEventLine_keys {line line' : LineState} {e : EventRecord}
    (h : applyEventLine line e = some line') :
    keysOf line'.stations = keysOf line.stations := by
  simp only [applyEventLine] at h
  obtain ⟨r, hr, h⟩ := optBind_eq_some h
  rcases Option.eq_none_or_eq_some
      (if parseEvent e.type = ServiceState.Open then e.fullStations
        else none) with hc | ⟨fs, hc⟩
  · rw [hc] at h
    obtain ⟨y, hy, h⟩ := optBind_eq_some h
    obtain ⟨z, hz, h⟩ := optBind_eq_some h
    obtain rfl : line' = promoteLineState z := (Option.some_inj.1 h).symm
    have h2 : y = line := Option.some_inj.1 hy.symm
    rw [promoteLineState_stations, updateStates_keys hz, h2]
  · rw [hc] at h
    obtain ⟨rf, hrf, h⟩ := optBind_eq_some h
    obtain ⟨y, hy, h⟩ := optBind_eq_some h
    obtain ⟨z, hz, h⟩ := optBind_eq_some h
    obtain rfl : line' = promoteLineState z := (Option.some_inj.1 h).symm
    rw [promoteLineState_stations, updateStates_keys hz, updateStates_keys hy]

theorem applyEvent_lineKeys {m m' : MetroModel} {e : EventRecord}
    (h : applyEvent m e = some m') {lid : String} {K : List String}
    (hk : LineKeys m lid K) : LineKeys m' lid K := by
  simp only [applyEvent] at h
  obtain ⟨line, hline, h⟩ := optBind_eq_some h
  obtain ⟨line', hline', h⟩ := optBind_eq_some h
  obtain rfl : m' = { lines := updateA m.lines e.line fun _ => line' } :=
    (Option.some_inj.1 h).symm
  obtain ⟨l0, hl0, hkeys⟩ := hk
  by_cases hc : lid = e.line
  · subst hc
    refine ⟨line', ?_, ?_⟩
    · show lookupA (updateA m.lines e.line fun _ => line') e.line = some line'
      rw [lookupA_updateA, if_pos rfl, hl0]
      rfl
    · have hle : line = l0 := Option.some_inj.1 (hline.symm.trans hl0)
      rw [applyEventLine_keys hline', hle]
      exact hkeys
  · refine ⟨l0, ?_, hkeys⟩
    show lookupA (updateA m.lines e.line fun _ => line') lid = some l0
    rw [lookupA_updateA, if_neg hc]
    exact hl0

theorem consumeEvents_lineKeys :
    ∀ {queued : List EventRecord} {model : MetroModel} {date : String}
    {m' : MetroModel} {q' : List EventRecord},
    consumeEvents model queued date = some (m', q') →
    ∀ {lid : String} {K : List String},
    LineKeys model lid K → LineKeys m' lid K := by
  intro queued
  induction queued with
  | nil =>
    intro model date m' q' h lid K hk
    injection h with h1
    injection h1 with ha hb
    subst ha
    exact hk
  | cons e rest ih =>
    intro model date m' q' h lid K hk
    simp only [consumeEvents] at h
    by_cases h1 : strLe e.date date = true
    · rw [if_pos h1] at h
      by_cases h2 : e.date.length ≠ 10
      · rw [if_pos h2] at h
        exact ih h hk
      · rw [if_neg h2] at h
        cases ha : applyEvent model e with
        | none =>
          rw [ha] at h
          cases h
        | some m2 =>
          rw [ha] at h
          exact ih h (applyEvent_lineKeys ha hk)
    · rw [if_neg h1] at h
      injection h with hpair
      injection hpair with hm hq
      subst hm
      exact hk

theorem linkNodes_keys {sts sts' : List (String × StationRec)}
    {p c : String} (h : linkNodes sts p c = some sts') :
    keysOf sts' = keysOf sts := by
  simp only [linkNodes] at h
  obtain ⟨a, ha, h⟩ := optBind_eq_some h
  obtain ⟨b, hb, h⟩ := optBind_eq_some h
  obtain rfl : sts' = _ := (Option.some_inj.1 h).symm
  rw [keysOf_updateA, keysOf_updateA]

theorem computeLevels_keys {routes : List Route}
    {sts sts' : List (String × StationRec)}
    (h : computeLevels routes sts = some sts') :
    keysOf sts' = keysOf sts := by
  unfold computeLevels at h
  refine foldlM_pres ?_ routes sts sts' h
  intro sts0 route sts1 hstep
  obtain ⟨first, hfirst, hstep⟩ := optBind_eq_some hstep
  refine foldlM_pres ?_ route.stations.enum sts0 sts1 hstep
  intro sts2 p sts3 hstep2
  obtain ⟨st, hst, hstep2⟩ := optBind_eq_some hstep2
  rw [← Option.some_inj.1 hstep2]
  exact keysOf_updateA _ _ _

theorem buildLine_keys {lm : LineMeta} {line : LineState}
    (h : buildLine lm = some line) :
    keysOf line.stations = lineKeyIds lm := by
  unfold buildLine at h
  obtain ⟨nr, hnr, h⟩ := optBind_eq_some h
  obtain ⟨sm1, hsm1, h⟩ := optBind_eq_some h
  obtain ⟨sm2, hsm2, h⟩ := optBind_eq_some h
  obtain rfl : line = _ := (Option.some_inj.1 h).symm
  show keysOf sm2 = lineKeyIds lm
  have h2 : keysOf sm2 = keysOf sm1 := computeLevels_keys hsm2
  have h1 : keysOf sm1 = keysOf
      (((lm.stations.map (fun s => s.1)).map (formatStationId lm.id)).map
        fun sid => (sid, StationRec.mk ServiceState.Never
          (StationNode.mk none [] none 0))) := by
    refine foldlM_pres ?_ _ _ _ hsm1
    intro sts0 route sts1 hstep
    refine foldlM_pres ?_ _ _ _ hstep
    intro sts2 pc sts3 hstep2
    exact linkNodes_keys hstep2
  rw [h2, h1]
  simp [keysOf, lineKeyIds, List.map_map, Function.comp]

theorem lookupA_of_get? {α : Type} :
    ∀ {l : List (String × α)}, (keysOf l).Nodup →
    ∀ {k : Nat} {a : String} {b : α}, l.get? k = some (a, b) →
    lookupA l a = some b := by
  intro l
  induction l with
  | nil =>
    intro _ k a b h
    cases k <;> cases h
  | cons p t ih =>
    intro hnd k a b h
    obtain ⟨c, d⟩ := p
    cases k with
    | zero =>
      obtain ⟨ha, hb⟩ : c = a ∧ d = b := by
        have := Option.some_inj.1 h
        exact ⟨congrArg Prod.fst this, congrArg Prod.snd this⟩
      show (if c = a then some d else lookupA t a) = some b
      rw [if_pos ha, hb]
    | succ k =>
      have hmem : a ∈ keysOf t := by
        have : (a, b) ∈ t := List.get?_mem h
        exact List.mem_map.2 ⟨(a, b), this, rfl⟩
      have hne : c ≠ a := by
        intro hca
        have := (List.nodup_cons.1 hnd).1
        rw [hca] at this
        exact this hmem
      show (if c = a then some d else lookupA t a) = some b
      rw [if_neg hne]
      exact ih (List.nodup_cons.1 hnd).2 h

theorem buildModel_fold :
    ∀ (metas : List LineMeta) (acc out : List (String × LineState)),
    metas.foldlM (fun lines lm => do
      let ls ← buildLine lm
      pure (lines ++ [(lm.id, ls)])) acc = some out →
    ∃ built, out = acc ++ built ∧ built.length = metas.length ∧
      ∀ k lm, metas.get? k = some lm →
        ∃ ls, buildLine lm = some ls ∧ built.get? k = some (lm.id, ls) := by
  intro metas
  induction metas with
  | nil =>
    intro acc out h
    obtain rfl : acc = out := by simpa using h
    exact ⟨[], by simp, rfl, fun k lm hk => by cases k <;> cases hk⟩
  | cons lm ms ih =>
    intro acc out h
    rw [List.foldlM_cons] at h
    obtain ⟨mid, hmid, hrest⟩ := optBind_eq_some h
    obtain ⟨ls, hls, hmid2⟩ := optBind_eq_some hmid
    obtain rfl : mid = acc ++ [(lm.id, ls)] := (Option.some_inj.1 hmid2).symm
    obtain ⟨built, hout, hlen, hget⟩ := ih _ _ hrest
    refine ⟨(lm.id, ls) :: built, by
        rw [hout, List.append_assoc]
        rfl,
      by simp [hlen], fun k lm' hk => ?_⟩
    cases k with
    | zero =>
      obtain rfl : lm' = lm := by simpa using hk.symm
      exact ⟨ls, hls, rfl⟩
    | succ k =>
      obtain ⟨ls', hls', hg⟩ := hget k lm' (by simpa using hk)
      exact ⟨ls', hls', by simpa using hg⟩

theorem buildModel_lineKeys {metas : List LineMeta} {m0 : MetroModel}
    (hids : (metas.map fun lm => lm.id).Nodup)
    (h : buildModel metas = some m0) :
    ∀ lm ∈ metas, LineKeys m0 lm.id (lineKeyIds lm) := by
  simp only [buildModel] at h
  obtain ⟨lines, hlines, h⟩ := optBind_eq_some h
  obtain rfl : m0 = { lines := lines } := (Option.some_inj.1 h).symm
  obtain ⟨built, hout, hlen, hget⟩ := buildModel_fold metas [] lines hlines
  rw [List.nil_append] at hout
  subst hout
  have hkeys : keysOf lines = metas.map fun lm => lm.id := by
    refine List.ext_get? fun n => ?_
    cases hn : metas.get? n with
    | none =>
      have hn' : metas.length ≤ n := List.get?_eq_none.1 hn
      have h1 : (keysOf lines).get? n = none := by
        rw [List.get?_eq_none]
        simpa [keysOf, hlen] using hn'
      have h2 : (metas.map fun lm => lm.id).get? n = none := by
        rw [List.get?_eq_none]
        simpa using hn'
      rw [h1, h2]
    | some lm =>
      obtain ⟨ls, hls, hg⟩ := hget n lm hn
      have h1 : (keysOf lines).get? n = some lm.id := by
        simp only [keysOf, List.get?_map, hg]
        rfl
      have h2 : (metas.map fun lm => lm.id).get? n = some lm.id := by
        rw [List.get?_map, hn]
        rfl
      rw [h1, h2]
  intro lm hlm
  obtain ⟨k, hk⟩ := List.get?_of_mem hlm
  obtain ⟨ls, hls, hg⟩ := hget k lm hk
  refine ⟨ls, ?_, buildLine_keys hls⟩
  exact lookupA_of_get? (by rw [hkeys]; exact hids) hg

theorem pushOpt_none {α : Type} [DecidableEq α] (t : Option α)
    (s : List (Nat × α)) (i : Nat) : pushOpt t s i none = (t, s) := rfl

theorem pushOpt_some {α : Type} [DecidableEq α] (t : Option α)
    (s : List (Nat × α)) (i : Nat) (v : α) :
    pushOpt t s i (some v) =
      if t = some v then (t, s) else (some v, s ++ [(i, v)]) := rfl

theorem find?_updStIR {stations : List StationIR} {sid0 sid : String}
    {f : StationIR → StationIR} (hf : ∀ s, (f s).id = s.id) :
    (updStIR stations sid0 f).find? (fun s => s.id = sid) =
      if sid = sid0 then (stations.find? fun s => s.id = sid).map f
      else stations.find? fun s => s.id = sid := by
  induction stations with
  | nil =>
    by_cases h : sid = sid0 <;> simp [updStIR, h]
  | cons x xs ih =>
    show ((if x.id = sid0 then f x else x) :: updStIR xs sid0 f).find?
        (fun s => s.id = sid) = _
    by_cases hx : x.id = sid0
    · rw [if_pos hx]
      by_cases hxs : x.id = sid
      · have hs : sid = sid0 := by rw [← hxs, hx]
        rw [List.find?_cons_of_pos (p := fun s : StationIR => s.id = sid) _
            (by simp [hf, hxs]),
          if_pos hs,
          List.find?_cons_of_pos (p := fun s : StationIR => s.id = sid) _
            (by simp [hxs])]
        rfl
      · rw [List.find?_cons_of_neg (p := fun s : StationIR => s.id = sid) _
            (by simp [hf, hxs]),
          List.find?_cons_of_neg (p := fun s : StationIR => s.id = sid) _
            (by simp [hxs])]
        exact ih
    · rw [if_neg hx]
      by_cases hxs : x.id = sid
      · have hs : ¬ sid = sid0 := by
          intro hcontra
          rw [← hxs] at hcontra
          exact hx hcontra
        rw [List.find?_cons_of_pos (p := fun s : StationIR => s.id = sid) _
            (by simp [hxs]),
          if_neg hs,
          List.find?_cons_of_pos (p := fun s : StationIR => s.id = sid) _
            (by simp [hxs])]
      · rw [List.find?_cons_of_neg (p := fun s : StationIR => s.id = sid) _
            (by simp [hxs]),
          List.find?_cons_of_neg (p := fun s : StationIR => s.id = sid) _
            (by simp [hxs])]
        exact ih


theorem processStation_touch {i : Nat} {positions : List (String × (ℚ × ℚ))}
    {tl : TrackedLine} {ir : LineIR} {sid : String} {ss : StationSnapshot}
    {ts : TrackedStation} {st : StationIR}
    (hts : lookupA tl.stationsT sid = some ts)
    (hst : irStation ir sid = some st) :
    ∃ tl' ir', processStation i positions (tl, ir) (sid, ss) = some (tl', ir') ∧
      (∀ sid', sid' ≠ sid →
        lookupA tl'.stationsT sid' = lookupA tl.stationsT sid' ∧
        irStation ir' sid' = irStation ir sid') ∧
      lookupA tl'.stationsT sid = some
        { service := (pushOpt ts.service st.service i (some ss.state)).1,
          position := (pushOpt ts.position st.positions i
            (lookupA positions sid)).1 } ∧
      irStation ir' sid = some
        { st with service := (pushOpt ts.service st.service i (some ss.state)).2,
                  positions := (pushOpt ts.position st.positions i
                    (lookupA positions sid)).2 } ∧
      tl'.service = tl.service ∧ ir'.statePoints = ir.statePoints := by
  have hstF : ir.stations.find? (fun s => s.id = sid) = some st := hst
  simp only [processStation]
  rw [hstF, bind_some_eq, hts, bind_some_eq]
  rcases Option.eq_none_or_eq_some (lookupA positions sid) with hp | ⟨pos, hp⟩
  · by_cases hsc : ts.service = some ss.state
    · simp only [hp, pushOpt_none, pushOpt_some, if_pos hsc,
        if_neg (not_not_intro hsc)]
      refine ⟨_, _, rfl, fun sid' hne => ⟨?_, ?_⟩, ?_, ?_, rfl, rfl⟩
      · rw [lookupA_updateA, if_neg hne]
      · rfl
      · rw [lookupA_updateA, if_pos rfl, hts]
        rfl
      · rw [hst]
    · simp only [hp, pushOpt_none, pushOpt_some, if_pos hsc, if_neg hsc]
      refine ⟨_, _, rfl, fun sid' hne => ⟨?_, ?_⟩, ?_, ?_, rfl, rfl⟩
      · rw [lookupA_updateA, if_neg hne]
      · show (updStIR ir.stations sid fun s =>
            { s with service := s.service ++ [(i, ss.state)] }).find?
            (fun s => s.id = sid') = _
        rw [find?_updStIR (f := fun s => { s with service := s.service ++ [(i, ss.state)] }) fun s => rfl, if_neg hne]
        rfl
      · rw [lookupA_updateA, if_pos rfl, hts]
        rfl
      · show (updStIR ir.stations sid fun s =>
            { s with service := s.service ++ [(i, ss.state)] }).find?
            (fun s => s.id = sid) = _
        rw [find?_updStIR (f := fun s => { s with service := s.service ++ [(i, ss.state)] }) fun s => rfl, if_pos rfl, hstF]
        rfl
  · by_cases hsc : ts.service = some ss.state
    · by_cases hpc : ts.position = some pos
      · simp only [hp, pushOpt_none, pushOpt_some, if_pos hsc, if_pos hpc,
          if_neg (not_not_intro hsc), if_neg (not_not_intro hpc)]
        refine ⟨_, _, rfl, fun sid' hne => ⟨?_, ?_⟩, ?_, ?_, rfl, rfl⟩
        · rw [lookupA_updateA, if_neg hne]
        · rfl
        · rw [lookupA_updateA, if_pos rfl, hts]
          rfl
        · rw [hst]
      · simp only [hp, pushOpt_none, pushOpt_some, if_pos hsc, if_neg hpc,
          if_neg (not_not_intro hsc), if_pos hpc]
        refine ⟨_, _, rfl, fun sid' hne => ⟨?_, ?_⟩, ?_, ?_, rfl, rfl⟩
        · rw [lookupA_updateA, if_neg hne]
        · show (updStIR ir.stations sid fun s =>
              { s with positions := s.positions ++ [(i, pos)] }).find?
              (fun s => s.id = sid') = _
          rw [find?_updStIR (f := fun s => { s with positions := s.positions ++ [(i, pos)] }) fun s => rfl, if_neg hne]
          rfl
        · rw [lookupA_updateA, if_pos rfl, hts]
          rfl
        · show (updStIR ir.stations sid fun s =>
              { s with positions := s.positions ++ [(i, pos)] }).find?
              (fun s => s.id = sid) = _
          rw [find?_updStIR (f := fun s => { s with positions := s.positions ++ [(i, pos)] }) fun s => rfl, if_pos rfl, hstF]
          rfl
    · by_cases hpc : ts.position = some pos
      · simp only [hp, pushOpt_none, pushOpt_some, if_pos hsc, if_neg hsc,
          if_neg (not_not_intro hpc), if_pos hpc]
        refine ⟨_, _, rfl, fun sid' hne => ⟨?_, ?_⟩, ?_, ?_, rfl, rfl⟩
        · rw [lookupA_updateA, if_neg hne]
        · show (updStIR ir.stations sid fun s =>
              { s with service := s.service ++ [(i, ss.state)] }).find?
              (fun s => s.id = sid') = _
          rw [find?_updStIR (f := fun s => { s with service := s.service ++ [(i, ss.state)] }) fun s => rfl, if_neg hne]
          rfl
        · rw [lookupA_updateA, if_pos rfl, hts]
          rfl
        · show (updStIR ir.stations sid fun s =>
              { s with service := s.service ++ [(i, ss.state)] }).find?
              (fun s => s.id = sid) = _
          rw [find?_updStIR (f := fun s => { s with service := s.service ++ [(i, ss.state)] }) fun s => rfl, if_pos rfl, hstF]
          rfl
      · simp only [hp, pushOpt_none, pushOpt_some, if_pos hsc, if_neg hsc,
          if_neg hpc, if_pos hpc]
        refine ⟨_, _, rfl, fun sid' hne => ⟨?_, ?_⟩, ?_, ?_, rfl, rfl⟩
        · rw [lookupA_updateA, if_neg hne]
        · show (updStIR (updStIR ir.stations sid fun s =>
              { s with service := s.service ++ [(i, ss.state)] }) sid fun s =>
              { s with positions := s.positions ++ [(i, pos)] }).find?
              (fun s => s.id = sid') = _
          rw [find?_updStIR (f := fun s => { s with positions := s.positions ++ [(i, pos)] }) fun s => rfl, if_neg hne,
            find?_updStIR (f := fun s => { s with service := s.service ++ [(i, ss.state)] }) fun s => rfl, if_neg hne]
          rfl
        · rw [lookupA_updateA, if_pos rfl, hts]
          rfl
        · show (updStIR (updStIR ir.stations sid fun s =>
              { s with service := s.service ++ [(i, ss.state)] }) sid fun s =>
              { s with positions := s.positions ++ [(i, pos)] }).find?
              (fun s => s.id = sid) = _
          rw [find?_updStIR (f := fun s => { s with positions := s.positions ++ [(i, pos)] }) fun s => rfl, if_pos rfl,
            find?_updStIR (f := fun s => { s with service := s.service ++ [(i, ss.state)] }) fun s => rfl, if_pos rfl, hstF]
          rfl

theorem foldl_processStation {i : Nat} {positions : List (String × (ℚ × ℚ))} :
    ∀ {entries : List (String × StationSnapshot)} {tl : TrackedLine}
    {ir : LineIR} {out : TrackedLine × LineIR},
    entries.foldlM (processStation i positions) (tl, ir) = some out →
    (List.map Prod.fst entries).Nodup →
    out.1.service = tl.service ∧ out.2.statePoints = ir.statePoints ∧
    (∀ sid', sid' ∉ List.map Prod.fst entries →
      lookupA out.1.stationsT sid' = lookupA tl.stationsT sid' ∧
      irStation out.2 sid' = irStation ir sid') ∧
    (∀ sid ss, lookupA entries sid = some ss →
      ∀ ts st, lookupA tl.stationsT sid = some ts →
        irStation ir sid = some st →
      lookupA out.1.stationsT sid = some
        { service := (pushOpt ts.service st.service i (some ss.state)).1,
          position := (pushOpt ts.position st.positions i
            (lookupA positions sid)).1 } ∧
      irStation out.2 sid = some
        { st with service := (pushOpt ts.service st.service i (some ss.state)).2,
                  positions := (pushOpt ts.position st.positions i
                    (lookupA positions sid)).2 }) := by
  intro entries
  induction entries with
  | nil =>
    intro tl ir out h hnd
    obtain rfl : (tl, ir) = out := by simpa using h
    exact ⟨rfl, rfl, fun _ _ => ⟨rfl, rfl⟩, fun sid ss hss => by cases hss⟩
  | cons e rest ih =>
    intro tl ir out h hnd
    obtain ⟨sid0, ss0⟩ := e
    rw [List.foldlM_cons] at h
    obtain ⟨mid, hmid, hrest⟩ := optBind_eq_some h
    have hmid' := hmid
    simp only [processStation] at hmid'
    obtain ⟨st0, hfind0, hmid'⟩ := optBind_eq_some hmid'
    obtain ⟨ts0, hts0, hmid'⟩ := optBind_eq_some hmid'
    obtain ⟨tl', ir', heq, hframe, hatT, hatI, hsvc, hsp⟩ :=
      @processStation_touch i positions tl ir sid0 ss0 ts0 st0 hts0 hfind0
    obtain rfl : mid = (tl', ir') :=
      Option.some_inj.1 (hmid.symm.trans heq)
    rw [List.map_cons] at hnd
    have hnd' : (List.map Prod.fst rest).Nodup := (List.nodup_cons.1 hnd).2
    have hnotin : sid0 ∉ List.map Prod.fst rest := (List.nodup_cons.1 hnd).1
    obtain ⟨ihsvc, ihsp, ihframe, ihat⟩ := ih hrest hnd'
    refine ⟨ihsvc.trans hsvc, ihsp.trans hsp, fun sid' hmem => ?_, ?_⟩
    · have hne : sid' ≠ sid0 := by
        intro hc
        exact hmem (by rw [hc]; exact List.mem_cons_self _ _)
      have hmem' : sid' ∉ List.map Prod.fst rest := by
        intro hc
        exact hmem (List.mem_cons_of_mem _ hc)
      obtain ⟨f1, f2⟩ := ihframe sid' hmem'
      obtain ⟨g1, g2⟩ := hframe sid' hne
      exact ⟨f1.trans g1, f2.trans g2⟩
    · intro sid ss hss ts st hts hst
      by_cases hcase : sid0 = sid
      · subst hcase
        have hss0 : ss = ss0 := by
          have : (if sid0 = sid0 then some ss0 else lookupA rest sid0) =
              some ss := hss
          rw [if_pos rfl] at this
          exact (Option.some_inj.1 this).symm
        subst hss0
        obtain rfl : ts = ts0 := Option.some_inj.1 (hts.symm.trans hts0)
        obtain rfl : st = st0 :=
          Option.some_inj.1 (hst.symm.trans hfind0)
        obtain ⟨f1, f2⟩ := ihframe sid0 hnotin
        exact ⟨f1.trans hatT, f2.trans hatI⟩
      · have hss' : lookupA rest sid = some ss := by
          have : (if sid0 = sid then some ss0 else lookupA rest sid) =
              some ss := hss
          rw [if_neg hcase] at this
          exact this
        have hne : sid ≠ sid0 := fun hc => hcase hc.symm
        obtain ⟨g1, g2⟩ := hframe sid hne
        exact ihat sid ss hss' ts st (by rw [g1]; exact hts)
          (by rw [g2]; exact hst)

theorem processLine_staged (i : Nat) (model : MetroModel)
    (counts : List (String × ℚ)) (lm : LineMeta) (tl : TrackedLine)
    (ir : LineIR) :
    processLine i model counts lm (tl, ir) = (do
      let snap ← modelSnapshot model lm.id
      let pr2 := lineStage i counts lm snap tl ir
      let positions := calculateStationPositions
        (pr2.1.routes.map fun r => r.stations) snap.stations pr2.2.x
        topPadY bottomPadY 50
      let res ← snap.stations.foldlM (processStation i positions) pr2
      pure (res,
        { lineState := snap.lineState,
          stationStates := snap.stations.map fun p => (p.1, p.2.state),
          positions := positions })) := rfl

theorem lineStage_service (i : Nat) (counts : List (String × ℚ))
    (lm : LineMeta) (snap : LineSnapshot) (tl : TrackedLine) (ir : LineIR) :
    (lineStage i counts lm snap tl ir).1.service =
      (pushSparse tl.service ir.statePoints i snap.lineState).1 := by
  simp only [lineStage]
  repeat' split
  all_goals rfl

theorem lineStage_stationsT (i : Nat) (counts : List (String × ℚ))
    (lm : LineMeta) (snap : LineSnapshot) (tl : TrackedLine) (ir : LineIR) :
    (lineStage i counts lm snap tl ir).1.stationsT = tl.stationsT := by
  simp only [lineStage]
  repeat' split
  all_goals rfl

theorem lineStage_statePoints (i : Nat) (counts : List (String × ℚ))
    (lm : LineMeta) (snap : LineSnapshot) (tl : TrackedLine) (ir : LineIR) :
    (lineStage i counts lm snap tl ir).2.statePoints =
      (pushSparse tl.service ir.statePoints i snap.lineState).2 := by
  simp only [lineStage]
  repeat' split
  all_goals rfl

theorem lineStage_stations (i : Nat) (counts : List (String × ℚ))
    (lm : LineMeta) (snap : LineSnapshot) (tl : TrackedLine) (ir : LineIR) :
    (lineStage i counts lm snap tl ir).2.stations = ir.stations := by
  simp only [lineStage]
  repeat' split
  all_goals rfl

theorem lookupA_isSome_of_mem {α : Type} :
    ∀ {l : List (String × α)} {k : String}, k ∈ keysOf l →
    (lookupA l k).isSome := by
  intro l
  induction l with
  | nil => intro k h; cases h
  | cons p t ih =>
    intro k h
    obtain ⟨a, b⟩ := p
    show (if a = k then some b else lookupA t k).isSome
    by_cases hak : a = k
    · rw [if_pos hak]
      rfl
    · rw [if_neg hak]
      rcases List.mem_cons.1 h with hh | ht
      · exact absurd hh.symm hak
      · exact ih ht

theorem processLine_char {i : Nat} {model : MetroModel}
    {counts : List (String × ℚ)} {lm : LineMeta} {tl : TrackedLine}
    {ir : LineIR} {out : (TrackedLine × LineIR) × LineObs} {line : LineState}
    (hlk : lookupA model.lines lm.id = some line)
    (hnd : (keysOf line.stations).Nodup)
    (h : processLine i model counts lm (tl, ir) = some out) :
    (out.1.1.service, out.1.2.statePoints) =
      pushOpt tl.service ir.statePoints i (some out.2.lineState) ∧
    ∀ sid ∈ keysOf line.stations,
      ∃ v, lookupA out.2.stationStates sid = some v ∧
      ∀ ts st, lookupA tl.stationsT sid = some ts →
        irStation ir sid = some st →
        lookupA out.1.1.stationsT sid = some
          { service := (pushOpt ts.service st.service i (some v)).1,
            position := (pushOpt ts.position st.positions i
              (lookupA out.2.positions sid)).1 } ∧
        irStation out.1.2 sid = some
          { st with
            service := (pushOpt ts.service st.service i (some v)).2,
            positions := (pushOpt ts.position st.positions i
              (lookupA out.2.positions sid)).2 } := by
  rw [processLine_staged] at h
  obtain ⟨snap, hsnap, h⟩ := optBind_eq_some h
  have hsnap' :
      snap =
        { lineState := line.state,
          stations := line.stations.map fun p =>
            (p.1, StationSnapshot.mk p.2.state p.2.node.level),
          routes := snapshotRoutes line } := by
    simp only [modelSnapshot] at hsnap
    rw [hlk] at hsnap
    exact (Option.some_inj.1 hsnap).symm
  subst hsnap'
  obtain ⟨res, hres, h⟩ := optBind_eq_some h
  obtain rfl : out = _ := (Option.some_inj.1 h).symm
  rw [← Prod.mk.eta (p := lineStage i counts lm _ tl ir)] at hres
  have hkeysE : List.map Prod.fst ((line.stations.map fun p =>
      (p.1, StationSnapshot.mk p.2.state p.2.node.level))) =
      keysOf line.stations := by
    simp [keysOf, List.map_map, Function.comp]
  have hndE : (List.map Prod.fst ((line.stations.map fun p =>
      (p.1, StationSnapshot.mk p.2.state p.2.node.level)))).Nodup := by
    rw [hkeysE]
    exact hnd
  obtain ⟨hsvc, hsp, hframe, hat⟩ := foldl_processStation hres hndE
  constructor
  · refine Prod.ext ?_ ?_
    · show res.1.service = _
      rw [hsvc, lineStage_service]
      rfl
    · show res.2.statePoints = _
      rw [hsp, lineStage_statePoints]
      rfl
  · intro sid hsid
    obtain ⟨rec, hrec⟩ := Option.isSome_iff_exists.1
      (lookupA_isSome_of_mem (l := line.stations) hsid)
    have hentry : lookupA (line.stations.map fun p =>
        (p.1, StationSnapshot.mk p.2.state p.2.node.level)) sid =
        some (StationSnapshot.mk rec.state rec.node.level) := by
      rw [lookupA_map_snd (fun r : StationRec =>
        StationSnapshot.mk r.state r.node.level) line.stations sid, hrec]
      rfl
    have hobs : lookupA ((line.stations.map fun p =>
        (p.1, StationSnapshot.mk p.2.state p.2.node.level)).map fun p =>
        (p.1, p.2.state)) sid = some rec.state := by
      rw [lookupA_map_snd (fun s : StationSnapshot => s.state) _ sid, hentry]
      rfl
    refine ⟨rec.state, hobs, fun ts st hts hst => ?_⟩
    have hts' : lookupA (lineStage i counts lm
        { lineState := line.state,
          stations := line.stations.map fun p =>
            (p.1, StationSnapshot.mk p.2.state p.2.node.level),
          routes := snapshotRoutes line } tl ir).1.stationsT sid = some ts := by
      rw [lineStage_stationsT]
      exact hts
    have hst' : irStation (lineStage i counts lm
        { lineState := line.state,
          stations := line.stations.map fun p =>
            (p.1, StationSnapshot.mk p.2.state p.2.node.level),
          routes := snapshotRoutes line } tl ir).2 sid = some st := by
      show ((lineStage i counts lm _ tl ir).2.stations.find? fun s =>
        s.id = sid) = some st
      rw [lineStage_stations]
      exact hst
    exact hat sid (StationSnapshot.mk rec.state rec.node.level) hentry ts st
      hts' hst'

theorem get?_isSome_of_lt {α : Type} {l : List α} {k : Nat}
    (h : k < l.length) : (l.get? k).isSome := by
  rw [List.get?_eq_get h]
  rfl

theorem colObs_append {k : Nat} (obss : List (List LineObs))
    {row : List LineObs} {o : LineObs} (h : row.get? k = some o) :
    colObs k (obss ++ [row]) = colObs k obss ++ [o] := by
  unfold colObs
  rw [List.filterMap_append]
  congr 1
  simp only [List.filterMap_cons, List.get?_eq_getElem?] at *
  rw [h]
  rfl

theorem colObs_length {k : Nat} {obss : List (List LineObs)}
    (h : ∀ row ∈ obss, ((row : List LineObs).get? k).isSome) :
    (colObs k obss).length = obss.length :=
  (filterMap_get?_all_some h).1

theorem colObs_get? {k : Nat} {obss : List (List LineObs)}
    (h : ∀ row ∈ obss, ((row : List LineObs).get? k).isSome) (d : Nat) :
    (colObs k obss).get? d = (obss.get? d).bind fun row => row.get? k :=
  (filterMap_get?_all_some h).2 d

theorem dayStep_get {i : Nat} {model : MetroModel}
    {counts : List (String × ℚ)} :
    ∀ {metas : List LineMeta} {pairs : List (TrackedLine × LineIR)}
    {out : List (TrackedLine × LineIR) × List LineObs},
    dayStep i model counts metas pairs = some out →
    out.1.length = metas.length ∧ out.2.length = metas.length ∧
    ∀ k lm pr, metas.get? k = some lm → pairs.get? k = some pr →
      ∃ r, processLine i model counts lm pr = some r ∧
        out.1.get? k = some r.1 ∧ out.2.get? k = some r.2 := by
  intro metas
  induction metas with
  | nil =>
    intro pairs out h
    obtain rfl : out = ([], []) := (Option.some_inj.1 h).symm
    exact ⟨rfl, rfl, fun k lm pr hm => by cases k <;> cases hm⟩
  | cons lm ms ih =>
    intro pairs out h
    cases pairs with
    | nil => cases h
    | cons pr prs =>
      obtain ⟨r, hr, h⟩ := optBind_eq_some h
      obtain ⟨rest, hrest, h⟩ := optBind_eq_some h
      obtain rfl : out = (r.1 :: rest.1, r.2 :: rest.2) :=
        (Option.some_inj.1 h).symm
      obtain ⟨hl1, hl2, hk⟩ := ih hrest
      refine ⟨by simp [hl1], by simp [hl2], fun k lm' pr' hm hp => ?_⟩
      cases k with
      | zero =>
        obtain rfl : lm' = lm := by simpa using hm.symm
        obtain rfl : pr' = pr := by simpa using hp.symm
        exact ⟨r, hr, rfl, rfl⟩
      | succ k =>
        obtain ⟨r', h1, h2, h3⟩ := hk k lm' pr' (by simpa using hm)
          (by simpa using hp)
        exact ⟨r', h1, by simpa using h2, by simpa using h3⟩

theorem simLoop_inv {rid : List (String × List (String × ℚ))}
    {metas : List LineMeta} :
    ∀ {days : List String} {i : Nat} {model : MetroModel}
    {queued : List EventRecord} {pairs : List (TrackedLine × LineIR)}
    {totals : List ℚ} {obss : List (List LineObs)}
    {out : List (TrackedLine × LineIR) × List ℚ × List (List LineObs)},
    simLoop rid metas i days model queued pairs totals obss = some out →
    (∀ lm ∈ metas, (lineKeyIds lm).Nodup) →
    obss.length = i →
    SimInv metas model pairs obss →
    ∃ m', SimInv metas m' out.1 out.2.2 := by
  intro days
  induction days with
  | nil =>
    intro i model queued pairs totals obss out h hnd hlen hinv
    obtain rfl : out = (pairs, totals, obss) := (Option.some_inj.1 h).symm
    exact ⟨model, hinv⟩
  | cons date rest ih =>
    intro i model queued pairs totals obss out h hnd hlen hinv
    obtain ⟨mq, hmq, h⟩ := optBind_eq_some h
    obtain ⟨st, hst, h⟩ := optBind_eq_some h
    obtain ⟨hlen1, hlen2, hday⟩ := dayStep_get hst
    obtain ⟨hplen, hrows, hper⟩ := hinv
    have hinv' : SimInv metas mq.1 st.1 (obss ++ [st.2]) := by
      refine ⟨hlen1, ?_, ?_⟩
      · intro row hrow
        rcases List.mem_append.1 hrow with hold | hnew
        · exact hrows row hold
        · obtain rfl : row = st.2 := List.mem_singleton.1 hnew
          exact hlen2
      · intro k lm pr' hm hp'
        have hkbound : k < metas.length := by
          have := List.get?_eq_none (l := metas) (n := k)
          by_contra hc
          push_neg at hc
          rw [this.2 hc] at hm
          cases hm
        have hprS : (pairs.get? k).isSome :=
          get?_isSome_of_lt (by rw [hplen]; exact hkbound)
        obtain ⟨pr, hp⟩ := Option.isSome_iff_exists.1 hprS
        obtain ⟨hLK, hTI⟩ := hper k lm pr hm hp
        obtain ⟨r, hpl, hg1, hg2⟩ := hday k lm pr hm hp
        obtain rfl : pr' = r.1 := Option.some_inj.1 (hp'.symm.trans hg1)
        obtain ⟨line, hlk, hkeys⟩ := consumeEvents_lineKeys hmq hLK
        have hndK : (keysOf line.stations).Nodup := by
          rw [hkeys]
          exact hnd lm (List.get?_mem hm)
        have hrowsS : ∀ row ∈ obss, ((row : List LineObs).get? k).isSome :=
          fun row hrow => get?_isSome_of_lt
            (by rw [hrows row hrow]; exact hkbound)
        have hcl : (colObs k obss).length = i := by
          rw [colObs_length hrowsS]
          exact hlen
        have hcol : colObs k (obss ++ [st.2]) = colObs k obss ++ [r.2] :=
          colObs_append obss hg2
        -- the day's characterization
        obtain ⟨hpairEq, hsid⟩ :=
          @processLine_char i mq.1 ((lookupA rid date).getD []) lm pr.1 pr.2
            r line hlk hndK
            (by rw [← Prod.mk.eta (p := pr)] at hpl; exact hpl)
        refine ⟨⟨line, hlk, hkeys⟩, ?_, ?_⟩
        · -- line-state tracker component
          rw [hcol, List.map_append]
          simp only [List.map_cons, List.map_nil]
          rw [trackFold_append]
          have hold := hTI.1
          have hlenm : (List.map (fun o => some o.lineState)
              (colObs k obss)).length = i := by
            rw [List.length_map]
            exact hcl
          rw [hlenm, ← hold]
          simpa using hpairEq
        · intro sid hsidK
          obtain ⟨ts, stIR, hts, hstIR, hsvcF, hposF⟩ := hTI.2 sid hsidK
          have hsidK' : sid ∈ keysOf line.stations := by
            rw [hkeys]
            exact hsidK
          obtain ⟨v, hv, hpush⟩ := hsid sid hsidK'
          obtain ⟨hT, hI⟩ := hpush ts stIR hts hstIR
          refine ⟨_, _, hT, hI, ?_, ?_⟩
          · rw [hcol, List.map_append]
            simp only [List.map_cons, List.map_nil]
            rw [trackFold_append]
            have hlenm : (List.map (fun o => lookupA o.stationStates sid)
                (colObs k obss)).length = i := by
              rw [List.length_map]
              exact hcl
            rw [hlenm, ← hsvcF, hv]
            simp
          · rw [hcol, List.map_append]
            simp only [List.map_cons, List.map_nil]
            rw [trackFold_append]
            have hlenm : (List.map (fun o => lookupA o.positions sid)
                (colObs k obss)).length = i := by
              rw [List.length_map]
              exact hcl
            rw [hlenm, ← hposF]
            simp
    exact ih h hnd (by simp [hlen]) hinv'

theorem lookupA_map_const {α : Type} (c : α) :
    ∀ {K : List String} {sid : String}, sid ∈ K →
    lookupA (K.map fun k => (k, c)) sid = some c := by
  intro K
  induction K with
  | nil => intro sid h; cases h
  | cons x xs ih =>
    intro sid h
    show (if x = sid then some c else lookupA (xs.map fun k => (k, c)) sid) = _
    by_cases hx : x = sid
    · rw [if_pos hx]
    · rw [if_neg hx]
      rcases List.mem_cons.1 h with hh | ht
      · exact absurd hh.symm hx
      · exact ih ht

theorem initTracked_lookup {lm : LineMeta} {sid : String}
    (h : sid ∈ lineKeyIds lm) :
    lookupA (initTracked lm).stationsT sid =
      some (TrackedStation.mk none none) := by
  show lookupA (lm.stations.map fun s =>
    (formatStationId lm.id s.1, TrackedStation.mk none none)) sid = _
  have hrw : lm.stations.map (fun s =>
      (formatStationId lm.id s.1, TrackedStation.mk none none)) =
      (lineKeyIds lm).map fun k => (k, TrackedStation.mk none none) := by
    simp [lineKeyIds, List.map_map, Function.comp]
  rw [hrw]
  exact lookupA_map_const _ h

theorem initIR_find {idx : Nat} {lm : LineMeta} {sid : String}
    (h : sid ∈ lineKeyIds lm) :
    ∃ st, irStation (initIR idx lm) sid = some st ∧
      st.service = [] ∧ st.positions = [] := by
  obtain ⟨s, hs, rfl⟩ := List.mem_map.1 h
  have hex : ((initIR idx lm).stations.find? fun st =>
      st.id = formatStationId lm.id s.1).isSome := by
    refine List.find?_isSome.2 ⟨_, List.mem_map.2 ⟨s, hs, rfl⟩, by simp⟩
  obtain ⟨st, hst⟩ := Option.isSome_iff_exists.1 hex
  have hmem3 := List.mem_of_find?_eq_some hst
  obtain ⟨s', hs', rfl⟩ := List.mem_map.1 hmem3
  exact ⟨_, hst, rfl, rfl⟩

theorem init_SimInv {metas : List LineMeta} {m0 : MetroModel}
    (hids : (metas.map fun lm => lm.id).Nodup)
    (hbuild : buildModel metas = some m0) :
    SimInv metas m0
      (metas.enum.map fun p => (initTracked p.2, initIR p.1 p.2)) [] := by
  refine ⟨by simp [List.enum_length], ?_, ?_⟩
  · intro row hrow
    cases hrow
  intro k lm pr hm hp
  have hget : (metas.enum.map fun p =>
      (initTracked p.2, initIR p.1 p.2)).get? k =
      some (initTracked lm, initIR k lm) := by
    rw [List.get?_map, List.get?_enum, hm]
    rfl
  obtain rfl : pr = (initTracked lm, initIR k lm) :=
    Option.some_inj.1 (hp.symm.trans hget)
  refine ⟨buildModel_lineKeys hids hbuild lm (List.get?_mem hm), ?_, ?_⟩
  · rfl
  · intro sid hsid
    obtain ⟨st, hst, hsvc, hpos⟩ := @initIR_find k lm sid hsid
    refine ⟨TrackedStation.mk none none, st, initTracked_lookup hsid, hst,
      ?_, ?_⟩
    · show ((TrackedStation.mk none none).service, st.service) = _
      rw [hsvc]
      rfl
    · show ((TrackedStation.mk none none).position, st.positions) = _
      rw [hpos]
      rfl

/-- C5 (amended): for every successful simulation run (line ids distinct,
per-line station ids distinct), every line, and every day `D` of the run,
reconstructing from the sparse change-point series — last entry with
`day <= D`, defaulting to `Never` before the first entry — yields exactly
the line state and the station states the orchestrator observed on day `D`;
a station's position series reproduces the observed position whenever the
layout assigned one on day `D`.  (The claim's unrestricted position clause
is false: when a station's position disappears, no change-point is pushed,
so the reconstruction returns the stale previous position instead of
"absent" — see the counterexample.) -/
theorem c5_reconstruction_amended
    {rid : List (String × List (String × ℚ))} {sortedDays : List String}
    {eventsRaw : List EventRecord} {linesMeta : List LineMeta}
    {pairs : List (TrackedLine × LineIR)} {totals : List ℚ}
    {obss : List (List LineObs)}
    (hids : (linesMeta.map fun lm => lm.id).Nodup)
    (hnn : ∀ lm ∈ linesMeta, (lineKeyIds lm).Nodup)
    (hrun : simulateObs rid sortedDays eventsRaw linesMeta =
      some (pairs, totals, obss))
    {k : Nat} {lm : LineMeta} {pr : TrackedLine × LineIR}
    (hk : linesMeta.get? k = some lm) (hpr : pairs.get? k = some pr)
    {D : Nat} {row : List LineObs} {o : LineObs}
    (hD : obss.get? D = some row) (ho : row.get? k = some o) :
    reconstructState pr.2.statePoints D = o.lineState ∧
    ∀ sid ∈ lineKeyIds lm,
      ∃ st, irStation pr.2 sid = some st ∧
        (∀ v, lookupA o.stationStates sid = some v →
          reconstructState st.service D = v) ∧
        (∀ p, lookupA o.positions sid = some p →
          reconstructAt st.positions D = some p) := by
  simp only [simulateObs] at hrun
  obtain ⟨m0, hbuild, hloop⟩ := optBind_eq_some hrun
  obtain ⟨m', hplen, hrows, hper⟩ :=
    simLoop_inv hloop hnn rfl (init_SimInv hids hbuild)
  obtain ⟨hLK, hTI⟩ := hper k lm pr hk hpr
  have hkbound : k < linesMeta.length := by
    have := (List.get?_eq_none (l := linesMeta) (n := k))
    by_contra hc
    push_neg at hc
    rw [this.2 hc] at hk
    cases hk
  have hrowsS : ∀ r ∈ obss, ((r : List LineObs).get? k).isSome :=
    fun r hr => get?_isSome_of_lt (by rw [hrows r hr]; exact hkbound)
  have hhist : (colObs k obss).get? D = some o := by
    rw [colObs_get? hrowsS, hD]
    exact ho
  constructor
  · have h1 := congrArg Prod.snd hTI.1
    have h2 := trackFold_reconstruct
      ((colObs k obss).map fun ob => some ob.lineState) D
    rw [← h1] at h2
    have hget : ((colObs k obss).map fun ob =>
        some ob.lineState).get? D = some (some o.lineState) := by
      rw [List.get?_map, hhist]
      rfl
    rw [lastObs_take_last hget] at h2
    unfold reconstructState
    rw [h2]
    rfl
  · intro sid hsid
    obtain ⟨ts, st, hts, hst, hsvcF, hposF⟩ := hTI.2 sid hsid
    refine ⟨st, hst, ?_, ?_⟩
    · intro v hv
      have h1 := congrArg Prod.snd hsvcF
      have h2 := trackFold_reconstruct
        ((colObs k obss).map fun ob => lookupA ob.stationStates sid) D
      rw [← h1] at h2
      have hget : ((colObs k obss).map fun ob =>
          lookupA ob.stationStates sid).get? D = some (some v) := by
        rw [List.get?_map, hhist]
        show some (lookupA o.stationStates sid) = _
        rw [hv]
      rw [lastObs_take_last hget] at h2
      unfold reconstructState
      rw [h2]
      rfl
    · intro p hp
      have h1 := congrArg Prod.snd hposF
      have h2 := trackFold_reconstruct
        ((colObs k obss).map fun ob => lookupA ob.positions sid) D
      rw [← h1] at h2
      have hget : ((colObs k obss).map fun ob =>
          lookupA ob.positions sid).get? D = some (some p) := by
        rw [List.get?_map, hhist]
        show some (lookupA o.positions sid) = _
        rw [hp]
      rw [lastObs_take_last hget] at h2
      rw [h2]

set_option maxRecDepth 4000 in
/-- C5 counterexample (closed): in the two-day run that opens both stations
on day 0 and closes them on day 1, day 1's observed positions are empty —
station `1:A` has no position — yet its sparse position series still
reconstructs the day-0 position `(160, 50)` at day 1, because the
orchestrator pushes a position change-point only when the layout returned a
position (`if (pos)`), never recording a disappearance. -/
theorem c5_counterexample :
    c5Run = some ([c5Pr], c5Totals, [[c5Obs0], [c5Obs1]]) ∧
    lookupA c5Obs1.positions "1:A" = none ∧
    (irStation c5Pr.2 "1:A").map (fun st => reconstructAt st.positions 1) =
      some (some (160, 50)) := by
  refine ⟨?_, ?_, ?_⟩ <;> with_unfolding_all decide

set_option maxRecDepth 4000 in
/-- C5 witness: the amended reconstruction theorem applied to the concrete
two-day run at day 1, line 0. -/
theorem c5_witness :
    reconstructState c5Pr.2.statePoints 1 = c5Obs1.lineState ∧
    ∀ sid ∈ lineKeyIds meta2,
      ∃ st, irStation c5Pr.2 sid = some st ∧
        (∀ v, lookupA c5Obs1.stationStates sid = some v →
          reconstructState st.service 1 = v) ∧
        (∀ p, lookupA c5Obs1.positions sid = some p →
          reconstructAt st.positions 1 = some p) :=
  c5_reconstruction_amended
    (show (([meta2]).map fun lm => lm.id).Nodup by decide)
    (show ∀ lm ∈ [meta2], (lineKeyIds lm).Nodup by decide)
    (show simulateObs c5Rid ["2020-01-01", "2020-01-02"]
        [openEvent ["A", "B"], closeEvent ["A", "B"]] [meta2] =
        some ([c5Pr], c5Totals, [[c5Obs0], [c5Obs1]]) from
      by with_unfolding_all decide)
    (show ([meta2]).get? 0 = some meta2 from rfl)
    (show ([c5Pr]).get? 0 = some c5Pr from rfl)
    (show ([[c5Obs0], [c5Obs1]]).get? 1 = some [c5Obs1] from rfl)
    (show ([c5Obs1]).get? 0 = some c5Obs1 from rfl)
